import Mathlib

/-! Blocky model baking (`meshers/blocky/voxel_blocky_model_mesh.cpp`).

A shallow embedding of the mesh baker of `VoxelBlockyModelMesh`: the face
classifier (`get_sides`, `get_triangle_side`), index validation, the ortho
rotation of mesh arrays, tangent generation and the per-surface triangle
routing with per-destination vertex deduplication.

Conventions of the embedding.
* `float` / `real_t` coordinates are rationals (exact arithmetic).
* C++ `int` indices are `Int`; container sizes are `Nat`.
* A read outside a container (`operator[]` beyond the size) aborts the
  program; functions that can do so return `Option`, with `none` for the abort.
* Declarations the two source files use but do not contain (the `Cube` side
  constants, the ortho basis table, the material indexer, `TOOLS_ENABLED`)
  are parameters, gathered in `CubeSides` and `Env`.
-/

namespace VoxelBlocky

/-! ## Vectors -/

/-- `Vector3f` (and Godot `Vector3`), with exact coordinates. -/
structure Vector3f where
  x : ℚ
  y : ℚ
  z : ℚ
deriving DecidableEq, Repr

/-- `Vector2f` (and Godot `Vector2`), with exact coordinates. -/
structure Vector2f where
  x : ℚ
  y : ℚ
deriving DecidableEq, Repr

/-! ## Cube sides -/

/-- Modelled from the spec: `Cube::SIDE_COUNT`, the number of cube sides. The
constant is declared in `constants/cube_tables.h`, which is not among the
sources; the spec fixes six faces, indexed 0..5. -/
def SIDE_COUNT : Nat := 6

/-- The values of the `Cube::SideAxis` enumerators used by `get_sides`. They are
declared in `constants/cube_tables.h`, which is not among the sources, so they
are a parameter of the embedding. -/
structure CubeSides where
  SIDE_NEGATIVE_X : Nat
  SIDE_POSITIVE_X : Nat
  SIDE_NEGATIVE_Y : Nat
  SIDE_POSITIVE_Y : Nat
  SIDE_NEGATIVE_Z : Nat
  SIDE_POSITIVE_Z : Nat
deriving DecidableEq, Repr

/-- The six enumerator values, in the order `get_sides` tests them. -/
def CubeSides.toList (cs : CubeSides) : List Nat :=
  [cs.SIDE_NEGATIVE_X, cs.SIDE_POSITIVE_X, cs.SIDE_NEGATIVE_Y, cs.SIDE_POSITIVE_Y,
   cs.SIDE_NEGATIVE_Z, cs.SIDE_POSITIVE_Z]

/-- The enumerators are six different values below `SIDE_COUNT`. -/
def CubeSides.Valid (cs : CubeSides) : Prop :=
  cs.toList.Nodup ∧ ∀ k ∈ cs.toList, k < SIDE_COUNT

instance (cs : CubeSides) : Decidable cs.Valid := by
  unfold CubeSides.Valid; infer_instance

/-- The enumeration the spec gives as an example: -X, +X, -Y, +Y, -Z, +Z. -/
def CubeSides.canonical : CubeSides := ⟨0, 1, 2, 3, 4, 5⟩

/-- The faces of the unit cube `[0,1]^3` (specification side). -/
inductive Face where
  | negX | posX | negY | posY | negZ | posZ
deriving DecidableEq, Repr

/-- All six faces. -/
def Face.all : List Face := [.negX, .posX, .negY, .posY, .negZ, .posZ]

/-- The side index of a face under an enumeration. -/
def CubeSides.index (cs : CubeSides) : Face → Nat
  | .negX => cs.SIDE_NEGATIVE_X
  | .posX => cs.SIDE_POSITIVE_X
  | .negY => cs.SIDE_NEGATIVE_Y
  | .posY => cs.SIDE_POSITIVE_Y
  | .negZ => cs.SIDE_NEGATIVE_Z
  | .posZ => cs.SIDE_POSITIVE_Z

/-- The coordinate of a point along the axis of a face. -/
def Face.coord : Face → Vector3f → ℚ
  | .negX, p => p.x
  | .posX, p => p.x
  | .negY, p => p.y
  | .posY, p => p.y
  | .negZ, p => p.z
  | .posZ, p => p.z

/-- The plane constant of a face: 0 for the negative faces, 1 for the positive. -/
def Face.plane : Face → ℚ
  | .negX => 0
  | .posX => 1
  | .negY => 0
  | .posY => 1
  | .negZ => 0
  | .posZ => 1

/-! ## Face classifier -/

/-- Modelled from the spec: the engine function `Math::is_equal_approx(a, b,
tolerance)`, which is not among the sources. A coordinate is within the
tolerance of a plane constant when it equals it or differs from it by less than
the tolerance. -/
def is_equal_approx (a b tolerance : ℚ) : Bool :=
  decide (a = b) || decide (|a - b| < tolerance)

/-- The point is within the tolerance of the plane of the face. -/
def Face.near (f : Face) (p : Vector3f) (tolerance : ℚ) : Bool :=
  is_equal_approx (f.coord p) f.plane tolerance

/-- `L::get_sides`: the `uint8_t` mask of the faces a point is on. -/
def get_sides (cs : CubeSides) (pos : Vector3f) (tolerance : ℚ) : Nat :=
  let mask : Nat := 0
  let mask := (mask ||| ((is_equal_approx pos.x 0 tolerance).toNat <<< cs.SIDE_NEGATIVE_X)) % 256
  let mask := (mask ||| ((is_equal_approx pos.x 1 tolerance).toNat <<< cs.SIDE_POSITIVE_X)) % 256
  let mask := (mask ||| ((is_equal_approx pos.y 0 tolerance).toNat <<< cs.SIDE_NEGATIVE_Y)) % 256
  let mask := (mask ||| ((is_equal_approx pos.y 1 tolerance).toNat <<< cs.SIDE_POSITIVE_Y)) % 256
  let mask := (mask ||| ((is_equal_approx pos.z 0 tolerance).toNat <<< cs.SIDE_NEGATIVE_Z)) % 256
  let mask := (mask ||| ((is_equal_approx pos.z 1 tolerance).toNat <<< cs.SIDE_POSITIVE_Z)) % 256
  mask

/-- The AND of the three per-vertex masks, `m` in `get_triangle_side`. -/
def triangle_mask (cs : CubeSides) (a b c : Vector3f) (tolerance : ℚ) : Nat :=
  get_sides cs a tolerance &&& get_sides cs b tolerance &&& get_sides cs c tolerance

/-- `L::get_triangle_side`: `some side` stands for `true` with `out_side = side`,
`none` for `false`. -/
def get_triangle_side (cs : CubeSides) (a b c : Vector3f) (tolerance : ℚ) : Option Nat :=
  let m := triangle_mask cs a b c tolerance
  if m = 0 then
    none
  else
    (List.range SIDE_COUNT).find? (fun side => m == 1 <<< side)

/-- All three vertices are within the tolerance of the plane of the face. -/
def Face.common (f : Face) (a b c : Vector3f) (tol : ℚ) : Bool :=
  f.near a tol && f.near b tol && f.near c tol

/-! ## Vector and basis arithmetic -/

/-- Componentwise sum, `Vector3 + Vector3`. -/
def Vector3f.add (a b : Vector3f) : Vector3f := ⟨a.x + b.x, a.y + b.y, a.z + b.z⟩

/-- Componentwise difference, `Vector3f - Vector3f`. -/
def Vector3f.sub (a b : Vector3f) : Vector3f := ⟨a.x - b.x, a.y - b.y, a.z - b.z⟩

/-- Product with a scalar, `Vector3f * float`. -/
def Vector3f.scale (a : Vector3f) (s : ℚ) : Vector3f := ⟨a.x * s, a.y * s, a.z * s⟩

/-- Dot product, `math::dot`. -/
def dot (a b : Vector3f) : ℚ := a.x * b.x + a.y * b.y + a.z * b.z

/-- Cross product, `math::cross`. -/
def cross (a b : Vector3f) : Vector3f :=
  ⟨a.y * b.z - a.z * b.y, a.z * b.x - a.x * b.z, a.x * b.y - a.y * b.x⟩

/-- Difference of two UVs, `Vector2 - Vector2`. -/
def Vector2f.sub (a b : Vector2f) : Vector2f := ⟨a.x - b.x, a.y - b.y⟩

/-- Modelled from the spec: `math::sign_nonzero`, -1 for a negative number and
+1 otherwise. The helper is declared in `util/math`, which is not among the
sources; the stored bitangent sign is +1 or -1. -/
def sign_nonzero (x : ℚ) : ℚ := if x < 0 then -1 else 1

/-- A basis (`Basis`, `Basis3f`) given by its three axes, the images of the unit
vectors: `Basis(x_axis, y_axis, z_axis)`. -/
structure Basis where
  x : Vector3f
  y : Vector3f
  z : Vector3f
deriving DecidableEq, Repr

/-- Modelled from the spec: `Basis::xform`, the image of a vector,
`x * v.x + y * v.y + z * v.z`. The basis classes are not among the sources; a
basis acts on a vector as the linear map with the given axes. -/
def Basis.xform (b : Basis) (v : Vector3f) : Vector3f :=
  ⟨b.x.x * v.x + b.y.x * v.y + b.z.x * v.z,
   b.x.y * v.x + b.y.y * v.y + b.z.y * v.z,
   b.x.z * v.x + b.y.z * v.y + b.z.z * v.z⟩

/-! ## Containers -/

/-- `operator[]` of a packed array or span with an `int` index: `none` when the
index is outside the container. -/
def at? {α : Type} (xs : List α) (i : Int) : Option α :=
  if i < 0 then none else xs[i.toNat]?

/-- `StdUnorderedMap<int, int>`, as the list of its entries in insertion order. -/
abbrev IndexMap := List (Int × Int)

/-- `find`: the value stored for a key, `none` standing for `end()`. -/
def IndexMap.find (m : IndexMap) (k : Int) : Option Int := List.lookup k m

/-- `insert`: adds the entry unless the key is present. -/
def IndexMap.insert (m : IndexMap) (k v : Int) : IndexMap :=
  if (m.find k).isSome then m else m ++ [(k, v)]

/-! ## Input and output data -/

/-- The mesh arrays of one surface (a Godot `Array` indexed by `Mesh::ARRAY_*`);
an array that is not supplied is empty. -/
structure SurfaceArrays where
  /-- `arrays[Mesh::ARRAY_VERTEX]` -/
  vertex : List Vector3f
  /-- `arrays[Mesh::ARRAY_NORMAL]` -/
  normal : List Vector3f
  /-- `arrays[Mesh::ARRAY_TANGENT]` -/
  tangent : List ℚ
  /-- `arrays[Mesh::ARRAY_TEX_UV]` -/
  tex_uv : List Vector2f
  /-- `arrays[Mesh::ARRAY_INDEX]` -/
  index : List Int
deriving DecidableEq, Repr

/-- Modelled from the spec: `BakedModel::Surface`, the interior geometry of one
surface. The type is declared in `blocky_baked_library.h`, which is not among
the sources; the fields are those the baker writes. -/
structure Surface where
  positions : List Vector3f
  normals : List Vector3f
  uvs : List Vector2f
  indices : List Int
  tangents : List ℚ
  material_id : Nat
deriving DecidableEq, Repr

/-- Modelled from the spec: `BakedModel::SideSurface`, the geometry of one
surface lying on one cube side. Declared in `blocky_baked_library.h`, not among
the sources; like `Surface` without normals and material. -/
structure SideSurface where
  positions : List Vector3f
  uvs : List Vector2f
  indices : List Int
  tangents : List ℚ
deriving DecidableEq, Repr

/-- `blocky::MAX_SURFACES` (`VoxelBlockyModel::MAX_SURFACES`). -/
def MAX_SURFACES : Nat := 2

/-- Modelled from the spec: `BakedModel::Model`, declared in
`blocky_baked_library.h`, not among the sources. `surfaces` is
`FixedArray<Surface, MAX_SURFACES>` and `sides_surfaces` is
`FixedArray<FixedArray<SideSurface, MAX_SURFACES>, SIDE_COUNT>` (outer index the
side, inner index the surface), as the baker indexes them. -/
structure Model where
  surface_count : Nat
  surfaces : List Surface
  sides_surfaces : List (List SideSurface)
deriving DecidableEq, Repr

/-- Modelled from the spec: `BakedModel`, declared in `blocky_baked_library.h`,
not among the sources. -/
structure BakedModel where
  model : Model
  empty : Bool
  cutout_sides_enabled : Bool
deriving DecidableEq, Repr

/-- A surface with no geometry. -/
def Surface.cleared (material_id : Nat) : Surface := ⟨[], [], [], [], [], material_id⟩

/-- A side surface with no geometry. -/
def SideSurface.cleared : SideSurface := ⟨[], [], [], []⟩

/-- Modelled from the spec: `BakedModel::clear`, declared in
`blocky_baked_library.h`, not among the sources. It removes all baked geometry
and marks the model empty. -/
def BakedModel.clear (b : BakedModel) : BakedModel :=
  { b with
    model :=
      { surface_count := b.model.surface_count
        surfaces := (List.range MAX_SURFACES).map
          (fun i => Surface.cleared ((b.model.surfaces[i]?.map (fun s => s.material_id)).getD 0))
        sides_surfaces := List.replicate SIDE_COUNT (List.replicate MAX_SURFACES SideSurface.cleared) }
    empty := true }

/-- What the baker uses and the two source files do not define: the side
enumerators, the ortho basis table (`math::get_ortho_basis_from_index`, with
the `Basis` built from its three axes) and its identity index, whether the
build defines `TOOLS_ENABLED`, and `MaterialIndexer::get_or_create_index`
acting on an indexer state `σ` for materials `μ`. -/
structure Env (σ μ : Type) where
  sides : CubeSides
  ORTHOGONAL_BASIS_IDENTITY_INDEX : Nat
  get_ortho_basis_from_index : Nat → Basis
  TOOLS_ENABLED : Bool
  get_or_create_index : σ → μ → Nat × σ

/-! ## Tangent generation and rotation -/

/-- The loop of `generate_tangents_from_uvs`: four floats appended per triangle. -/
def generate_tangents_loop (positions normals : List Vector3f) (uvs : List Vector2f) :
    List Int → List ℚ → Option (List ℚ)
  | i0 :: i1 :: i2 :: rest, tangents => do
    let p0 ← at? positions i0
    let p1 ← at? positions i1
    let p2 ← at? positions i2
    let uv0 ← at? uvs i0
    let uv1 ← at? uvs i1
    let uv2 ← at? uvs i2
    let delta_uv1 := uv1.sub uv0
    let delta_uv2 := uv2.sub uv0
    let delta_pos1 := p1.sub p0
    let delta_pos2 := p2.sub p0
    let r : ℚ := 1 / (delta_uv1.x * delta_uv2.y - delta_uv1.y * delta_uv2.x)
    let t := ((delta_pos1.scale delta_uv2.y).sub (delta_pos2.scale delta_uv1.y)).scale r
    let bt := ((delta_pos2.scale delta_uv1.x).sub (delta_pos1.scale delta_uv2.x)).scale r
    let n0 ← at? normals i0
    let s : ℚ := if dot bt (cross n0 t) < 0 then -1 else 1
    generate_tangents_loop positions normals uvs rest (tangents ++ [t.x, t.y, t.z, s])
  | [], tangents => some tangents
  | _, _ => none

/-- `generate_tangents_from_uvs`. The entries that `resize` creates are taken to
be 0. -/
def generate_tangents_from_uvs (positions normals : List Vector3f) (uvs : List Vector2f)
    (indices : List Int) : Option (List ℚ) :=
  generate_tangents_loop positions normals uvs indices (List.replicate (positions.length * 4) 0)

/-- `add(vectors, rhs)`. -/
def add (vectors : List Vector3f) (rhs : Vector3f) : List Vector3f :=
  vectors.map (fun v => v.add rhs)

/-- `mul(vectors, basis)`. -/
def mul (vectors : List Vector3f) (basis : Basis) : List Vector3f :=
  vectors.map (fun v => basis.xform v)

/-- The loop of `rotate_mesh_arrays` over the normals and their tangents, four
floats per normal. -/
def rotate_normals_tangents (basis : Basis) : List Vector3f → List ℚ → List Vector3f × List ℚ
  | n :: normals, t0 :: t1 :: t2 :: t3 :: tangents =>
    let normal := n
    let tangent : Vector3f := ⟨t0, t1, t2⟩
    let bitangent := (cross normal tangent).scale t3
    let normal := basis.xform normal
    let tangent := basis.xform tangent
    let bitangent := basis.xform bitangent
    let bitangent_s := sign_nonzero (dot bitangent (cross normal tangent))
    let rest := rotate_normals_tangents basis normals tangents
    (normal :: rest.1, tangent.x :: tangent.y :: tangent.z :: bitangent_s :: rest.2)
  | normals, tangents => (normals, tangents)

/-- `rotate_mesh_arrays` (both the `Vector3`/`Basis` and the `Vector3f`/`Basis3f`
overload): the rotated vertices, normals and tangents. -/
def rotate_mesh_arrays (vertices normals : List Vector3f) (tangents : List ℚ) (basis : Basis) :
    List Vector3f × List Vector3f × List ℚ :=
  let vertices := mul vertices basis
  if tangents.length = 0 then
    (vertices, mul normals basis, tangents)
  else
    let tangent_count := tangents.length / 4
    if tangent_count ≠ normals.length then
      (vertices, normals, tangents)
    else
      let r := rotate_normals_tangents basis normals tangents
      (vertices, r.1, r.2)

/-- `rotate_mesh_arrays_ortho`. -/
def rotate_mesh_arrays_ortho {σ μ : Type} (env : Env σ μ) (vertices normals : List Vector3f)
    (tangents : List ℚ) (ortho_basis_index : Nat) : List Vector3f × List Vector3f × List ℚ :=
  rotate_mesh_arrays vertices normals tangents (env.get_ortho_basis_from_index ortho_basis_index)

/-- `validate_indices`. -/
def validate_indices (indices : List Int) (vertex_count : Int) : Bool :=
  if ¬ (vertex_count ≥ 0) then false
  else indices.all (fun index => ¬ (index < 0 ∨ index ≥ vertex_count))

/-! ## The geometry baker -/

/-- The rotation step of `bake_mesh_geometry`: the working positions, normals
and tangents after it. -/
def rotation_step {σ μ : Type} (env : Env σ μ) (ortho_rotation : Nat)
    (positions normals : List Vector3f) (tangents : List ℚ) :
    List Vector3f × List Vector3f × List ℚ :=
  if ortho_rotation ≠ env.ORTHOGONAL_BASIS_IDENTITY_INDEX then
    let positions := add positions ⟨-(1 / 2), -(1 / 2), -(1 / 2)⟩
    let r := rotate_mesh_arrays_ortho env positions normals tangents ortho_rotation
    (add r.1 ⟨1 / 2, 1 / 2, 1 / 2⟩, r.2.1, r.2.2)
  else
    (positions, normals, tangents)

/-- The four floats `tangents[ti] .. tangents[ti + 3]` with `ti = src_index * 4`. -/
def tangent_at (tangents : List ℚ) (src_index : Int) : Option (List ℚ) := do
  let ti := src_index * 4
  let t0 ← at? tangents ti
  let t1 ← at? tangents (ti + 1)
  let t2 ← at? tangents (ti + 2)
  let t3 ← at? tangents (ti + 3)
  pure [t0, t1, t2, t3]

/-- One pass of the `j` loop for a triangle on a side: the vertex `src_index`
with position `tri_position` goes to `side_surface`. -/
def side_vertex (bake_tangents : Bool) (uvs : List Vector2f) (tangents : List ℚ)
    (src_index : Int) (tri_position : Vector3f)
    (st : SideSurface × IndexMap × Int) : Option (SideSurface × IndexMap × Int) :=
  let side_surface := st.1
  let added_indices := st.2.1
  let next_side_index := st.2.2
  match added_indices.find src_index with
  | none => do
    let side_surface := { side_surface with indices := side_surface.indices ++ [next_side_index] }
    let side_surface := { side_surface with positions := side_surface.positions ++ [tri_position] }
    let uv ← at? uvs src_index
    let side_surface := { side_surface with uvs := side_surface.uvs ++ [uv] }
    let side_surface ←
      if bake_tangents then do
        let t ← tangent_at tangents src_index
        pure { side_surface with tangents := side_surface.tangents ++ t }
      else
        pure side_surface
    pure (side_surface, added_indices.insert src_index next_side_index, next_side_index + 1)
  | some existing_dst_index =>
    pure ({ side_surface with indices := side_surface.indices ++ [existing_dst_index] },
      added_indices, next_side_index)

/-- One pass of the `j` loop for a triangle that is not on a side: the vertex
`src_index` goes to the interior `surface`. -/
def regular_vertex (bake_tangents : Bool) (normals : List Vector3f) (uvs : List Vector2f)
    (tangents : List ℚ) (src_index : Int) (tri_position : Vector3f)
    (st : Surface × IndexMap × Int) : Option (Surface × IndexMap × Int) :=
  let surface := st.1
  let added_regular_indices := st.2.1
  let next_regular_index := st.2.2
  match added_regular_indices.find src_index with
  | none => do
    let surface := { surface with indices := surface.indices ++ [next_regular_index] }
    let surface := { surface with positions := surface.positions ++ [tri_position] }
    let normal ← at? normals src_index
    let surface := { surface with normals := surface.normals ++ [normal] }
    let uv ← at? uvs src_index
    let surface := { surface with uvs := surface.uvs ++ [uv] }
    let surface ←
      if bake_tangents then do
        let t ← tangent_at tangents src_index
        pure { surface with tangents := surface.tangents ++ t }
      else
        pure surface
    pure (surface, added_regular_indices.insert src_index next_regular_index,
      next_regular_index + 1)
  | some existing_dst_index =>
    pure ({ surface with indices := surface.indices ++ [existing_dst_index] },
      added_regular_indices, next_regular_index)

/-- What the triangle loop of one surface changes: the model and the vertex
tables `added_side_indices` (one per side) and `added_regular_indices`. -/
structure LoopState where
  model : Model
  added_side_indices : List IndexMap
  added_regular_indices : IndexMap
deriving DecidableEq, Repr

/-- The body of the triangle loop for the triangle with source indices
`i0, i1, i2`. -/
def bake_triangle (cs : CubeSides) (bake_tangents : Bool) (side_vertex_tolerance : ℚ)
    (surface_index : Nat) (positions normals : List Vector3f) (uvs : List Vector2f)
    (tangents : List ℚ) (i0 i1 i2 : Int) (st : LoopState) : Option LoopState := do
  let p0 ← at? positions i0
  let p1 ← at? positions i1
  let p2 ← at? positions i2
  match get_triangle_side cs p0 p1 p2 side_vertex_tolerance with
  | some side =>
    let column ← st.model.sides_surfaces[side]?
    let side_surface ← column[surface_index]?
    let added_indices ← st.added_side_indices[side]?
    let next_side_index : Int := side_surface.positions.length
    let r ← side_vertex bake_tangents uvs tangents i0 p0 (side_surface, added_indices, next_side_index)
    let r ← side_vertex bake_tangents uvs tangents i1 p1 r
    let r ← side_vertex bake_tangents uvs tangents i2 p2 r
    pure { st with
      model := { st.model with
        sides_surfaces := st.model.sides_surfaces.set side (column.set surface_index r.1) }
      added_side_indices := st.added_side_indices.set side r.2.1 }
  | none =>
    let surface ← st.model.surfaces[surface_index]?
    let next_regular_index : Int := surface.positions.length
    let r ← regular_vertex bake_tangents normals uvs tangents i0 p0
      (surface, st.added_regular_indices, next_regular_index)
    let r ← regular_vertex bake_tangents normals uvs tangents i1 p1 r
    let r ← regular_vertex bake_tangents normals uvs tangents i2 p2 r
    pure { st with
      model := { st.model with surfaces := st.model.surfaces.set surface_index r.1 }
      added_regular_indices := r.2.1 }

/-- The triangle loop `for (int i = 0; i < indices.size(); i += 3)`. -/
def bake_triangles (cs : CubeSides) (bake_tangents : Bool) (side_vertex_tolerance : ℚ)
    (surface_index : Nat) (positions normals : List Vector3f) (uvs : List Vector2f)
    (tangents : List ℚ) : List Int → LoopState → Option LoopState
  | i0 :: i1 :: i2 :: rest, st => do
    let st ← bake_triangle cs bake_tangents side_vertex_tolerance surface_index positions normals
      uvs tangents i0 i1 i2 st
    bake_triangles cs bake_tangents side_vertex_tolerance surface_index positions normals uvs
      tangents rest st
  | [], st => some st
  | _, _ => none

/-- The body of the surface loop of `bake_mesh_geometry` for the surface
`surface_index`; `arrays = none` is a Godot `Array` of size 0. A `continue`
returns the state reached so far. -/
def bake_surface {σ μ : Type} (env : Env σ μ) (materials : List μ) (bake_tangents : Bool)
    (ortho_rotation : Nat) (side_vertex_tolerance : ℚ) (surface_index : Nat)
    (arrays : Option SurfaceArrays) (baked_data : BakedModel) (material_indexer : σ) :
    Option (BakedModel × σ) :=
  match arrays with
  | none => some (baked_data, material_indexer)
  | some arrays =>
    let indices := arrays.index
    let positions := arrays.vertex
    if indices.length = 0 then
      some (baked_data, material_indexer)
    else if ¬ (indices.length % 3 = 0) then
      some (baked_data, material_indexer)
    else
      let normals := arrays.normal
      let uvs := arrays.tex_uv
      let tangents := arrays.tangent
      if ¬ validate_indices indices positions.length then
        some (baked_data, material_indexer)
      else
        let baked_data := { baked_data with empty := decide (positions.length = 0) }
        if ¬ (normals.length ≠ 0) then
          some (baked_data, material_indexer)
        else if ¬ (positions.length = normals.length) then
          some (baked_data, material_indexer)
        else
          let rotated := rotation_step env ortho_rotation positions normals tangents
          let positions := rotated.1
          let normals := rotated.2.1
          let tangents := rotated.2.2
          let tangents_empty := decide (tangents.length = 0)
          if env.TOOLS_ENABLED && tangents_empty && bake_tangents && decide (uvs.length = 0) then
            some (baked_data, material_indexer)
          else do
            let tangents ←
              if env.TOOLS_ENABLED && tangents_empty && bake_tangents then
                generate_tangents_from_uvs positions normals uvs indices
              else
                pure tangents
            let uvs :=
              if uvs.length = 0 then List.replicate positions.length (⟨0, 0⟩ : Vector2f) else uvs
            let surface ← baked_data.model.surfaces[surface_index]?
            let material ← materials[surface_index]?
            let indexed := env.get_or_create_index material_indexer material
            let model := { baked_data.model with
              surfaces := baked_data.model.surfaces.set surface_index
                { surface with material_id := indexed.1 } }
            let st ← bake_triangles env.sides bake_tangents side_vertex_tolerance surface_index
              positions normals uvs tangents indices
              ⟨model, List.replicate SIDE_COUNT [], []⟩
            pure ({ baked_data with model := st.model }, indexed.2)

/-- The surface loop of `bake_mesh_geometry`, from `surface_index` on. -/
def bake_surfaces_from {σ μ : Type} (env : Env σ μ) (materials : List μ) (bake_tangents : Bool)
    (ortho_rotation : Nat) (side_vertex_tolerance : ℚ) :
    Nat → List (Option SurfaceArrays) → BakedModel × σ → Option (BakedModel × σ)
  | _, [], st => some st
  | surface_index, arrays :: rest, st => do
    let st ← bake_surface env materials bake_tangents ortho_rotation side_vertex_tolerance
      surface_index arrays st.1 st.2
    bake_surfaces_from env materials bake_tangents ortho_rotation side_vertex_tolerance
      (surface_index + 1) rest st

/-- `blocky::bake_mesh_geometry(Span<const Array> surfaces, Span<const Ref<Material>>
materials, BakedModel &baked_data, bool bake_tangents, MaterialIndexer &material_indexer,
unsigned int ortho_rotation, float side_vertex_tolerance)`: the baked model and
the indexer state after the call, `none` when the call aborts. -/
def bake_mesh_geometry {σ μ : Type} (env : Env σ μ) (surfaces : List (Option SurfaceArrays))
    (materials : List μ) (baked_data : BakedModel) (bake_tangents : Bool) (material_indexer : σ)
    (ortho_rotation : Nat) (side_vertex_tolerance : ℚ) : Option (BakedModel × σ) :=
  let baked_data :=
    { baked_data with model := { baked_data.model with surface_count := surfaces.length } }
  bake_surfaces_from env materials bake_tangents ortho_rotation side_vertex_tolerance 0 surfaces
    (baked_data, material_indexer)

/-! ## Vocabulary of the statements -/

/-- The arrays the triangle loop reads: the positions, normals and tangents
after the rotation step (the tangents generated when the surface has none),
and the UVs (zero-filled when the surface has none). -/
structure Working where
  positions : List Vector3f
  normals : List Vector3f
  uvs : List Vector2f
  tangents : List ℚ
deriving DecidableEq, Repr

/-- The working arrays of a surface that reaches the triangle loop. -/
def working_arrays {σ μ : Type} (env : Env σ μ) (bake_tangents : Bool) (ortho_rotation : Nat)
    (arrays : SurfaceArrays) : Option Working := do
  let rotated := rotation_step env ortho_rotation arrays.vertex arrays.normal arrays.tangent
  let tangents ←
    if env.TOOLS_ENABLED && decide (rotated.2.2.length = 0) && bake_tangents then
      generate_tangents_from_uvs rotated.1 rotated.2.1 arrays.tex_uv arrays.index
    else
      pure rotated.2.2
  let uvs :=
    if arrays.tex_uv.length = 0 then List.replicate rotated.1.length (⟨0, 0⟩ : Vector2f)
    else arrays.tex_uv
  pure ⟨rotated.1, rotated.2.1, uvs, tangents⟩

/-- The guards of the surface loop all pass: the surface reaches the triangle
loop instead of being skipped by a `continue`. -/
def Accepted {σ μ : Type} (env : Env σ μ) (bake_tangents : Bool) (arrays : SurfaceArrays) : Prop :=
  arrays.index.length ≠ 0 ∧ arrays.index.length % 3 = 0 ∧
  validate_indices arrays.index arrays.vertex.length = true ∧
  arrays.normal.length ≠ 0 ∧ arrays.vertex.length = arrays.normal.length ∧
  ¬ (env.TOOLS_ENABLED = true ∧ arrays.tangent.length = 0 ∧ bake_tangents = true ∧
      arrays.tex_uv.length = 0)

instance {σ μ : Type} (env : Env σ μ) (bake_tangents : Bool) (arrays : SurfaceArrays) :
    Decidable (Accepted env bake_tangents arrays) := by
  unfold Accepted; infer_instance

/-- The reads of the triangle loop that no guard protects stay inside their
arrays: a UV array that is supplied has an entry for every index of the index
buffer, and when tangents are baked the tangent array has the four floats of
every index, or is absent in a build that generates tangents
(`TOOLS_ENABLED`). Mesh arrays whose UVs are absent or one per position and
whose tangents are absent or four floats per position satisfy this for valid
indices. -/
def Consistent {σ μ : Type} (env : Env σ μ) (bake_tangents : Bool) (arrays : SurfaceArrays) :
    Prop :=
  (arrays.tex_uv.length = 0 ∨ ∀ s ∈ arrays.index, s < (arrays.tex_uv.length : Int)) ∧
  (bake_tangents = true →
    (arrays.tangent.length = 0 ∧ env.TOOLS_ENABLED = true) ∨
    ∀ s ∈ arrays.index, s * 4 + 3 < (arrays.tangent.length : Int))

instance {σ μ : Type} (env : Env σ μ) (bake_tangents : Bool) (arrays : SurfaceArrays) :
    Decidable (Consistent env bake_tangents arrays) := by
  unfold Consistent; infer_instance

/-- The position read for a source index. -/
def Working.position (W : Working) (s : Int) : Vector3f := (at? W.positions s).getD ⟨0, 0, 0⟩

/-- The normal read for a source index. -/
def Working.normal (W : Working) (s : Int) : Vector3f := (at? W.normals s).getD ⟨0, 0, 0⟩

/-- The UV read for a source index. -/
def Working.uv (W : Working) (s : Int) : Vector2f := (at? W.uvs s).getD ⟨0, 0⟩

/-- The four tangent floats read for a source index. -/
def Working.tangent (W : Working) (s : Int) : List ℚ := (tangent_at W.tangents s).getD []

/-- The result of the classifier for the triangle with source indices
`i0, i1, i2`: `some side`, or `none` for interior. -/
def classify (cs : CubeSides) (tolerance : ℚ) (W : Working) (i0 i1 i2 : Int) : Option Nat :=
  get_triangle_side cs (W.position i0) (W.position i1) (W.position i2) tolerance

/-- The source indices of the triangles routed to the destination `d` (`some side`
or `none` for the interior surface), in source order. -/
def routed (cs : CubeSides) (tolerance : ℚ) (W : Working) : List Int → Option Nat → List Int
  | i0 :: i1 :: i2 :: rest, d =>
    (if classify cs tolerance W i0 i1 i2 = d then [i0, i1, i2] else []) ++
      routed cs tolerance W rest d
  | _, _ => []

/-- The number of triangles routed to the destination `d`. -/
def routed_count (cs : CubeSides) (tolerance : ℚ) (W : Working) : List Int → Option Nat → Nat
  | i0 :: i1 :: i2 :: rest, d =>
    (if classify cs tolerance W i0 i1 i2 = d then 1 else 0) + routed_count cs tolerance W rest d
  | _, _ => 0

/-- Appends a source index to a list of distinct source indices unless present. -/
def push_key (keys : List Int) (s : Int) : List Int := if s ∈ keys then keys else keys ++ [s]

/-- The distinct source indices of a sequence, in order of first occurrence. -/
def distinct_sources (srcs : List Int) : List Int := srcs.foldl push_key []

/-- The side surface that deduplicating the source indices `srcs` produces. -/
def expected_side (W : Working) (bake_tangents : Bool) (srcs : List Int) : SideSurface :=
  { positions := (distinct_sources srcs).map W.position
    uvs := (distinct_sources srcs).map W.uv
    indices := srcs.map (fun s => ((distinct_sources srcs).indexOf s : Int))
    tangents := if bake_tangents then (distinct_sources srcs).flatMap W.tangent else [] }

/-- The interior surface that deduplicating the source indices `srcs` produces. -/
def expected_surface (W : Working) (bake_tangents : Bool) (material_id : Nat) (srcs : List Int) :
    Surface :=
  { positions := (distinct_sources srcs).map W.position
    normals := (distinct_sources srcs).map W.normal
    uvs := (distinct_sources srcs).map W.uv
    indices := srcs.map (fun s => ((distinct_sources srcs).indexOf s : Int))
    tangents := if bake_tangents then (distinct_sources srcs).flatMap W.tangent else []
    material_id := material_id }

/-- The vertex table holds exactly the keys `keys`, each with its rank. -/
def MapInv (m : IndexMap) (keys : List Int) : Prop :=
  ∀ s : Int, m.find s = if s ∈ keys then some ((keys.indexOf s : Nat) : Int) else none

/-- The side surface `sides_surfaces[side][surface_index]`. -/
def Model.side (m : Model) (side surface_index : Nat) : Option SideSurface :=
  (m.sides_surfaces[side]?).bind (fun column => column[surface_index]?)

/-- The arrays of the model have their fixed sizes. -/
def Model.Shaped (m : Model) : Prop :=
  m.surfaces.length = MAX_SURFACES ∧ m.sides_surfaces.length = SIDE_COUNT ∧
  ∀ column ∈ m.sides_surfaces, column.length = MAX_SURFACES

/-- The model holds no geometry: every interior surface and every side surface
has empty buffers. -/
def Model.Cleared (m : Model) : Prop :=
  m.Shaped ∧ (∀ s ∈ m.surfaces, s = Surface.cleared s.material_id) ∧
  ∀ column ∈ m.sides_surfaces, ∀ s ∈ column, s = SideSurface.cleared

/-- Every array the triangle loop reads has an entry for the source index. -/
def SrcOk (W : Working) (bake_tangents : Bool) (s : Int) : Prop :=
  (at? W.positions s).isSome ∧ (at? W.normals s).isSome ∧ (at? W.uvs s).isSome ∧
  (bake_tangents = true → (tangent_at W.tangents s).isSome)

/-- The state of the triangle loop of surface `surface_index`, started on the
model `m0`, when the source indices `acc d` have been routed to each
destination `d`: every destination of this surface index holds the expected
geometry, every vertex table the expected keys, and the rest of the model is
as in `m0`. -/
def LoopInv (W : Working) (bake_tangents : Bool) (surface_index material_id : Nat) (m0 : Model)
    (acc : Option Nat → List Int) (st : LoopState) : Prop :=
  st.model.surface_count = m0.surface_count ∧
  st.model.surfaces =
    m0.surfaces.set surface_index (expected_surface W bake_tangents material_id (acc none)) ∧
  st.model.sides_surfaces.length = SIDE_COUNT ∧
  (∀ k, k < SIDE_COUNT → st.model.sides_surfaces[k]? =
    (m0.sides_surfaces[k]?).map
      (fun column => column.set surface_index (expected_side W bake_tangents (acc (some k))))) ∧
  st.added_side_indices.length = SIDE_COUNT ∧
  (∀ k, k < SIDE_COUNT →
    ∃ m, st.added_side_indices[k]? = some m ∧ MapInv m (distinct_sources (acc (some k)))) ∧
  MapInv st.added_regular_indices (distinct_sources (acc none))

/-- The surface passes the guards up to and including `validate_indices`, so
that the assignment `baked_data.empty = positions.size() == 0` is reached. -/
def Validated (arrays : SurfaceArrays) : Prop :=
  arrays.index.length ≠ 0 ∧ arrays.index.length % 3 = 0 ∧
  validate_indices arrays.index arrays.vertex.length = true

instance (arrays : SurfaceArrays) : Decidable (Validated arrays) := by
  unfold Validated; infer_instance

/-- The destinations of surface `surface_index` hold no geometry. -/
def Model.SlotCleared (m : Model) (surface_index : Nat) : Prop :=
  (∃ material_id, m.surfaces[surface_index]? = some (Surface.cleared material_id)) ∧
  ∀ k, k < SIDE_COUNT → m.side k surface_index = some SideSurface.cleared

/-- The working arrays and the index buffer of a surface that reaches the
triangle loop; `none` for a surface that is skipped. -/
def slot_working {σ μ : Type} (env : Env σ μ) (bake_tangents : Bool) (ortho_rotation : Nat)
    (arrays : Option SurfaceArrays) : Option (Working × List Int) :=
  match arrays with
  | some arr =>
    if Accepted env bake_tangents arr then
      (working_arrays env bake_tangents ortho_rotation arr).map (fun W => (W, arr.index))
    else none
  | none => none

/-- The side surface expected on side `k` for an input surface: the triangles
the classifier puts on side `k`, deduplicated; nothing for a skipped surface. -/
def slot_side {σ μ : Type} (env : Env σ μ) (bake_tangents : Bool) (ortho_rotation : Nat)
    (tolerance : ℚ) (arrays : Option SurfaceArrays) (k : Nat) : SideSurface :=
  match slot_working env bake_tangents ortho_rotation arrays with
  | some (W, indices) =>
    expected_side W bake_tangents (routed env.sides tolerance W indices (some k))
  | none => SideSurface.cleared

/-- The interior surface expected for an input surface: the triangles the
classifier puts on no side, deduplicated; nothing for a skipped surface. -/
def slot_surface {σ μ : Type} (env : Env σ μ) (bake_tangents : Bool) (ortho_rotation : Nat)
    (tolerance : ℚ) (arrays : Option SurfaceArrays) (material_id : Nat) : Surface :=
  match slot_working env bake_tangents ortho_rotation arrays with
  | some (W, indices) =>
    expected_surface W bake_tangents material_id (routed env.sides tolerance W indices none)
  | none => Surface.cleared material_id

/-- Every surface of the list that reaches the triangle loop is read inside its
arrays. -/
def SurfacesConsistent {σ μ : Type} (env : Env σ μ) (bake_tangents : Bool)
    (surfaces : List (Option SurfaceArrays)) : Prop :=
  ∀ arr, some arr ∈ surfaces → Accepted env bake_tangents arr → Consistent env bake_tangents arr

/-! ## Example inputs -/

/-- Modelled from the spec: `MaterialIndexer::get_or_create_index` on the list
of the materials indexed so far, a material being identified by a number. The
indexer is declared in `blocky_material_indexer.h`, which is not among the
sources; the same material always yields the same id and ids are assigned from
0 in first-seen order. -/
def list_get_or_create_index (materials : List Nat) (material : Nat) : Nat × List Nat :=
  if material ∈ materials then (materials.indexOf material, materials)
  else (materials.length, materials ++ [material])

/-- The identity basis. -/
def Basis.identity : Basis := ⟨⟨1, 0, 0⟩, ⟨0, 1, 0⟩, ⟨0, 0, 1⟩⟩

/-- An environment for examples: the canonical side enumeration, identity
rotation at index 0, a tools build and the list indexer. -/
def example_env : Env (List Nat) Nat :=
  { sides := CubeSides.canonical
    ORTHOGONAL_BASIS_IDENTITY_INDEX := 0
    get_ortho_basis_from_index := fun _ => Basis.identity
    TOOLS_ENABLED := true
    get_or_create_index := list_get_or_create_index }

/-- A model without geometry, as `BakedModel::clear` leaves it. -/
def example_cleared : BakedModel := BakedModel.clear ⟨⟨0, [], []⟩, false, false⟩

/-- A surface with a quad on the side -X (two triangles sharing the vertices 0
and 2) and one triangle reaching into the cube. -/
def example_surface : SurfaceArrays :=
  { vertex := [⟨0, 0, 0⟩, ⟨0, 1, 0⟩, ⟨0, 1, 1⟩, ⟨0, 0, 1⟩, ⟨1 / 2, 1 / 2, 1 / 2⟩]
    normal := [⟨-1, 0, 0⟩, ⟨-1, 0, 0⟩, ⟨-1, 0, 0⟩, ⟨-1, 0, 0⟩, ⟨0, 0, 1⟩]
    tangent := []
    tex_uv := []
    index := [0, 1, 2, 0, 2, 3, 0, 1, 4] }

/-- Reading the index buffer of a side surface in order and looking each index
up in its buffers gives the working position, UV and (when tangents are baked)
tangent of the source indices `srcs`, in order. -/
def side_reads_back (W : Working) (bake_tangents : Bool) (ss : SideSurface) (srcs : List Int) :
    Prop :=
  ss.indices.length = srcs.length ∧
  ∀ n (hn : n < srcs.length), ∃ di, ss.indices[n]? = some di ∧
    (∃ p, at? ss.positions di = some p ∧ at? W.positions srcs[n] = some p) ∧
    (∃ uv, at? ss.uvs di = some uv ∧ at? W.uvs srcs[n] = some uv) ∧
    (bake_tangents = true →
      ∃ t, tangent_at ss.tangents di = some t ∧ tangent_at W.tangents srcs[n] = some t)

/-- Reading the index buffer of an interior surface in order and looking each
index up in its buffers gives the working position, normal, UV and (when
tangents are baked) tangent of the source indices `srcs`, in order. -/
def surface_reads_back (W : Working) (bake_tangents : Bool) (s : Surface) (srcs : List Int) :
    Prop :=
  s.indices.length = srcs.length ∧
  ∀ n (hn : n < srcs.length), ∃ di, s.indices[n]? = some di ∧
    (∃ p, at? s.positions di = some p ∧ at? W.positions srcs[n] = some p) ∧
    (∃ nrm, at? s.normals di = some nrm ∧ at? W.normals srcs[n] = some nrm) ∧
    (∃ uv, at? s.uvs di = some uv ∧ at? W.uvs srcs[n] = some uv) ∧
    (bake_tangents = true →
      ∃ t, tangent_at s.tangents di = some t ∧ tangent_at W.tangents srcs[n] = some t)

/-- A surface like `example_surface` that also supplies UVs and tangents. -/
def example_lit_surface : SurfaceArrays :=
  { example_surface with
    tex_uv := [⟨0, 0⟩, ⟨1, 0⟩, ⟨1, 1⟩, ⟨0, 1⟩, ⟨1 / 2, 1 / 2⟩]
    tangent := [0, 1, 0, 1, 0, 1, 0, 1, 0, 1, 0, 1, 0, 1, 0, 1, 1, 0, 0, -1] }

/-- Deduplication of the source indices `srcs` into a destination with the
given positions and index buffer is exact: one vertex per distinct source
index, and two entries of the index buffer are equal exactly when the source
indices they come from are equal. -/
def dedup_exact (positions : List Vector3f) (indices : List Int) (srcs : List Int) : Prop :=
  positions.length = srcs.toFinset.card ∧ indices.length = srcs.length ∧
  ∀ n1 n2 (h1 : n1 < srcs.length) (h2 : n2 < srcs.length),
    indices[n1]? = indices[n2]? ↔ srcs[n1] = srcs[n2]

/-- An environment whose indexer state counts the calls of
`get_or_create_index` (and hands out the count as the id). -/
def counting_env : Env Nat Nat :=
  { sides := CubeSides.canonical
    ORTHOGONAL_BASIS_IDENTITY_INDEX := 0
    get_ortho_basis_from_index := fun _ => Basis.identity
    TOOLS_ENABLED := true
    get_or_create_index := fun calls _ => (calls, calls + 1) }

/-- A triangle surface whose UV array has one entry for three positions. -/
def short_uv_surface : SurfaceArrays :=
  { vertex := [⟨0, 0, 0⟩, ⟨0, 1, 0⟩, ⟨0, 1, 1⟩]
    normal := [⟨-1, 0, 0⟩, ⟨-1, 0, 0⟩, ⟨-1, 0, 0⟩]
    tangent := []
    tex_uv := [⟨0, 0⟩]
    index := [0, 1, 2] }

/-! ## The closed unit cube -/

/-- The corner of the unit cube with the given coordinates, `true` standing
for 1 and `false` for 0. -/
def corner (bx bY bz : Bool) : Vector3f :=
  ⟨if bx then 1 else 0, if bY then 1 else 0, if bz then 1 else 0⟩

/-- The eight corners of the unit cube. -/
def cube_corners : List Vector3f :=
  [corner false false false, corner true false false, corner false true false,
   corner true true false, corner false false true, corner true false true,
   corner false true true, corner true true true]

/-- The corner with the given coordinates lies on the face. -/
def Face.has_corner : Face → Bool → Bool → Bool → Bool
  | .negX, bx, _, _ => !bx
  | .posX, bx, _, _ => bx
  | .negY, _, bY, _ => !bY
  | .posY, _, bY, _ => bY
  | .negZ, _, _, bz => !bz
  | .posZ, _, _, bz => bz

/-- The four corners of a face. -/
def Face.corners (f : Face) : List Vector3f :=
  match f with
  | .negX => [corner false false false, corner false true false, corner false false true,
      corner false true true]
  | .posX => [corner true false false, corner true true false, corner true false true,
      corner true true true]
  | .negY => [corner false false false, corner true false false, corner false false true,
      corner true false true]
  | .posY => [corner false true false, corner true true false, corner false true true,
      corner true true true]
  | .negZ => [corner false false false, corner true false false, corner false true false,
      corner true true false]
  | .posZ => [corner false false true, corner true false true, corner false true true,
      corner true true true]

/-- The source indices `i0, i1, i2` are three different indices whose positions
lie on the plane of the face `f`. -/
def TriangleOnFace (positions : List Vector3f) (f : Face) (i0 i1 i2 : Int) : Prop :=
  i0 ≠ i1 ∧ i0 ≠ i2 ∧ i1 ≠ i2 ∧
  ∀ i ∈ [i0, i1, i2], ∃ p, at? positions i = some p ∧ f.coord p = f.plane

/-- The index buffer consists of triangles, the `j`-th on the `j`-th face of
the list `faces`. -/
def TrianglesOnFaces (positions : List Vector3f) : List Int → List Face → Prop
  | i0 :: i1 :: i2 :: rest, f :: fs =>
    TriangleOnFace positions f i0 i1 i2 ∧ TrianglesOnFaces positions rest fs
  | [], [] => True
  | _, _ => False

/-- A closed unit-cube mesh as one surface: the positions are the eight cube
corners (in any order), there is a normal per position, and the triangles are
two per cube face, each using three corners of its face; `faces` names the face
of each triangle in turn. -/
structure CubeMesh (arr : SurfaceArrays) (faces : List Face) : Prop where
  corners : arr.vertex.Perm cube_corners
  normals : arr.normal.length = arr.vertex.length
  triangles : TrianglesOnFaces arr.vertex arr.index faces
  two_per_face : ∀ f : Face, faces.count f = 2

/-- A closed cube: the eight corners, a normal per corner and twelve triangles. -/
def example_cube : SurfaceArrays :=
  { vertex := cube_corners
    normal := cube_corners
    tangent := []
    tex_uv := []
    index := [0, 2, 6, 0, 6, 4, 1, 3, 7, 1, 7, 5, 0, 1, 5, 0, 5, 4, 2, 3, 7, 2, 7, 6,
      0, 1, 3, 0, 3, 2, 4, 5, 7, 4, 7, 6] }

/-- The faces of the triangles of `example_cube`, in turn. -/
def example_cube_faces : List Face :=
  [.negX, .negX, .posX, .posX, .negY, .negY, .posY, .posY, .negZ, .negZ, .posZ, .posZ]

/-! ## The model class and its bake -/

/-- A Godot `Mesh` as the baker reads it: per surface, the arrays that
`surface_get_arrays` returns (`none` for an `Array` of size 0) and the material
that `surface_get_material` returns; `get_surface_count` is the length. -/
abbrev Mesh (μ : Type) := List (Option SurfaceArrays × μ)

/-- The fields of `VoxelBlockyModelMesh` that baking reads: `_mesh` (`none` for
a null reference), the ortho rotation index of the base class,
`_side_vertex_tolerance` and `_side_cutout_enabled`. -/
structure VoxelBlockyModelMesh (μ : Type) where
  mesh : Option (Mesh μ)
  mesh_ortho_rotation_index : Nat
  side_vertex_tolerance : ℚ
  side_cutout_enabled : Bool

/-- Modelled from the spec: `blocky::ModelBakingContext`, declared in
`blocky_model_baking_context.h`, not among the sources: the baked model, the
material indexer and whether tangents are baked. -/
structure ModelBakingContext (σ : Type) where
  model : BakedModel
  material_indexer : σ
  tangents_enabled : Bool

/-- `blocky::bake_mesh_geometry(const VoxelBlockyModelMesh &config, BakedModel
&baked_data, bool bake_tangents, MaterialIndexer &material_indexer, float
side_vertex_tolerance, bool side_cutout_enabled)`. -/
def VoxelBlockyModelMesh.bake_mesh_geometry {σ μ : Type} (env : Env σ μ)
    (config : VoxelBlockyModelMesh μ) (baked_data : BakedModel) (bake_tangents : Bool)
    (material_indexer : σ) (side_vertex_tolerance : ℚ) (side_cutout_enabled : Bool) :
    Option (BakedModel × σ) :=
  let mesh := config.mesh
  let baked_data := { baked_data with cutout_sides_enabled := side_cutout_enabled }
  match mesh with
  | none => some ({ baked_data with empty := true }, material_indexer)
  | some mesh =>
    let src_surface_count := mesh.length
    let surface_count := min src_surface_count MAX_SURFACES
    let surfaces := (mesh.take surface_count).map (fun surface => surface.1)
    let materials := (mesh.take surface_count).map (fun surface => surface.2)
    VoxelBlocky.bake_mesh_geometry env surfaces materials baked_data bake_tangents
      material_indexer config.mesh_ortho_rotation_index side_vertex_tolerance

/-- Modelled from the spec: `VoxelBlockyModel::bake`, the bake of the base
class, declared in `voxel_blocky_model.h` and defined outside the sources. The
spec places what it bakes (colour, collision boxes, transparency, material
overrides) out of scope; this embedding carries none of it, so the context is
left as it is. -/
def VoxelBlockyModel.bake {σ : Type} (ctx : ModelBakingContext σ) : ModelBakingContext σ := ctx

/-- `VoxelBlockyModelMesh::bake`: the context after the call, `none` when the
call aborts. -/
def VoxelBlockyModelMesh.bake {σ μ : Type} (env : Env σ μ) (self : VoxelBlockyModelMesh μ)
    (ctx : ModelBakingContext σ) : Option (ModelBakingContext σ) := do
  let baked_data := ctx.model
  let materials := ctx.material_indexer
  let baked_data := baked_data.clear
  let r ← self.bake_mesh_geometry env baked_data ctx.tangents_enabled materials
    self.side_vertex_tolerance self.side_cutout_enabled
  pure (VoxelBlockyModel.bake { ctx with model := r.1, material_indexer := r.2 })

/-! ## Vocabulary of the statements on whole bakes -/

/-- The surface reaches the triangle loop (`none`, an `Array` of size 0, does
not). -/
def OptAccepted {σ μ : Type} (env : Env σ μ) (bake_tangents : Bool) :
    Option SurfaceArrays → Prop
  | some arr => Accepted env bake_tangents arr
  | none => False

instance {σ μ : Type} (env : Env σ μ) (bake_tangents : Bool) (arrays : Option SurfaceArrays) :
    Decidable (OptAccepted env bake_tangents arrays) := by
  cases arrays <;> unfold OptAccepted <;> infer_instance

/-- The surface reaches the assignment of the `empty` flag. -/
def OptValidated : Option SurfaceArrays → Prop
  | some arr => Validated arr
  | none => False

instance (arrays : Option SurfaceArrays) : Decidable (OptValidated arrays) := by
  cases arrays <;> unfold OptValidated <;> infer_instance

/-- The indexer state after the surface loop has run over the surfaces with
their materials: the indexer is called once for each surface that reaches the
triangle loop. -/
def indexer_after {σ μ : Type} (env : Env σ μ) (bake_tangents : Bool) :
    List (Option SurfaceArrays × μ) → σ → σ
  | [], s => s
  | p :: rest, s =>
    indexer_after env bake_tangents rest
      (if OptAccepted env bake_tangents p.1 then (env.get_or_create_index s p.2).2 else s)

/-- The `empty` flag after the surface loop has run over the surfaces: false as
soon as one surface reaches the assignment, else as before. -/
def empty_after (surfaces : List (Option SurfaceArrays)) (empty : Bool) : Bool :=
  if ∃ arrays ∈ surfaces, OptValidated arrays then false else empty

/-- The material id of the `i`-th surface after the surface loop has run from
the indexer state `s`: the id the indexer returns for its material if the
surface reaches the triangle loop, else the id `old` the model held. -/
def material_id_after {σ μ : Type} (env : Env σ μ) (bake_tangents : Bool)
    (pairs : List (Option SurfaceArrays × μ)) (s : σ) (old : Nat) (i : Nat) : Nat :=
  match pairs[i]? with
  | some p =>
    if OptAccepted env bake_tangents p.1 then
      (env.get_or_create_index (indexer_after env bake_tangents (pairs.take i) s) p.2).1
    else old
  | none => old

/-- A surface that has positions and normals but no index buffer. -/
def missing_index_surface : SurfaceArrays := { example_surface with index := [] }

/-- A mesh with three surfaces, one more than `MAX_SURFACES`. -/
def three_surface_mesh : Mesh Nat :=
  [(some example_surface, 7), (some missing_index_surface, 8), (some example_lit_surface, 9)]

/-- A model configuration for examples: the given mesh, no rotation. -/
def example_config (mesh : Option (Mesh Nat)) : VoxelBlockyModelMesh Nat :=
  { mesh := mesh
    mesh_ortho_rotation_index := 0
    side_vertex_tolerance := 1 / 1000
    side_cutout_enabled := true }

/-! ## Vocabulary of the statements on rotations -/

/-- The centre of the unit cube, `Vector3(0.5, 0.5, 0.5)`. -/
def cube_centre : Vector3f := ⟨1 / 2, 1 / 2, 1 / 2⟩

/-- The basis that acts as `a` after `b`. -/
def Basis.compose (a b : Basis) : Basis := ⟨a.xform b.x, a.xform b.y, a.xform b.z⟩

/-- The transposed basis. -/
def Basis.transposed (b : Basis) : Basis :=
  ⟨⟨b.x.x, b.y.x, b.z.x⟩, ⟨b.x.y, b.y.y, b.z.y⟩, ⟨b.x.z, b.y.z, b.z.z⟩⟩

/-- The determinant of a basis, the triple product of its axes. -/
def Basis.determinant (b : Basis) : ℚ := dot (cross b.x b.y) b.z

/-- The basis `b'` undoes the basis `b`. -/
def Basis.InverseOf (b' b : Basis) : Prop := b'.compose b = Basis.identity

instance (b' b : Basis) : Decidable (b'.InverseOf b) := by
  unfold Basis.InverseOf; infer_instance

/-- The axes of the basis have length 1 and are perpendicular to one another. -/
def Basis.Orthogonal (b : Basis) : Prop :=
  dot b.x b.x = 1 ∧ dot b.y b.y = 1 ∧ dot b.z b.z = 1 ∧
  dot b.x b.y = 0 ∧ dot b.y b.z = 0 ∧ dot b.z b.x = 0

instance (b : Basis) : Decidable b.Orthogonal := by
  unfold Basis.Orthogonal; infer_instance

/-- A proper rotation: orthogonal with determinant 1. -/
def Basis.Proper (b : Basis) : Prop := b.Orthogonal ∧ b.determinant = 1

instance (b : Basis) : Decidable b.Proper := by
  unfold Basis.Proper; infer_instance

/-- The sign that `rotate_mesh_arrays` stores for a vertex with normal `n`,
tangent `t` and old sign `s`: the bitangent `(n x t) * s` is rotated and compared
with the cross product of the rotated normal and tangent. -/
def rotated_sign (basis : Basis) (n t : Vector3f) (s : ℚ) : ℚ :=
  sign_nonzero (dot (basis.xform ((cross n t).scale s)) (cross (basis.xform n) (basis.xform t)))

/-- The rotation by 90 degrees about the Z axis: X goes to Y and Y to -X. -/
def quarter_turn_z : Basis := ⟨⟨0, 1, 0⟩, ⟨-1, 0, 0⟩, ⟨0, 0, 1⟩⟩

/-- An environment for examples like `example_env` whose ortho basis table has
the identity at index 0 and the quarter turn about Z at the other indices. -/
def turned_env : Env (List Nat) Nat :=
  { example_env with
    get_ortho_basis_from_index := fun i => if i = 0 then Basis.identity else quarter_turn_z }

/-- An environment like `example_env` for a build that does not define
`TOOLS_ENABLED`. -/
def release_env : Env (List Nat) Nat := { example_env with TOOLS_ENABLED := false }

/-- A planar unit quad in the plane `z = 1/2`: four vertices, two triangles, the
normal +Z at every vertex, and UVs equal to the in-plane coordinates `(x, y)`;
no tangents. Its U axis is +X and its V axis +Y, so that the tangent of the UV
layout is `(1, 0, 0)` with bitangent sign +1. -/
def unit_quad : SurfaceArrays :=
  { vertex := [⟨0, 0, 1 / 2⟩, ⟨1, 0, 1 / 2⟩, ⟨1, 1, 1 / 2⟩, ⟨0, 1, 1 / 2⟩]
    normal := [⟨0, 0, 1⟩, ⟨0, 0, 1⟩, ⟨0, 0, 1⟩, ⟨0, 0, 1⟩]
    tangent := []
    tex_uv := [⟨0, 0⟩, ⟨1, 0⟩, ⟨1, 1⟩, ⟨0, 1⟩]
    index := [0, 1, 2, 0, 2, 3] }

/-! ## Vocabulary of the statement on repeated bakes -/

/-- The material id held at surface index `i` (0 outside the array), which
`BakedModel::clear` keeps. -/
def old_id (b : BakedModel) (i : Nat) : Nat :=
  ((b.model.surfaces[i]?).map (fun s => s.material_id)).getD 0

/-- The input surface at index `i` of a list of surfaces with their materials;
`none` beyond its end. -/
def surface_at {μ : Type} (pairs : List (Option SurfaceArrays × μ)) (i : Nat) :
    Option SurfaceArrays :=
  (pairs[i]?).bind (fun p => p.1)

/-- The indexer in state `s` holds the material under `mid`: asking for its index
returns `mid` and leaves the indexer as it is. -/
def Indexed {σ μ : Type} (env : Env σ μ) (s : σ) (material : μ) (mid : Nat) : Prop :=
  env.get_or_create_index s material = (mid, s)

/-- Modelled from the spec: the contract of `MaterialIndexer::get_or_create_index`,
declared in `blocky_material_indexer.h`, not among the sources: the indexer is
append-only and the same material always yields the same id. After a call the
indexer holds the material under the id returned, and a call for any material
keeps what the indexer holds. -/
structure IndexerLaws {σ μ : Type} (env : Env σ μ) : Prop where
  created : ∀ (s : σ) (material : μ),
    Indexed env (env.get_or_create_index s material).2 material
      (env.get_or_create_index s material).1
  kept : ∀ (s : σ) (material : μ) (mid : Nat) (other : μ),
    Indexed env s material mid → Indexed env (env.get_or_create_index s other).2 material mid

/-- A mesh with two surfaces that share a material. -/
def two_surface_mesh : Mesh Nat := [(some example_surface, 7), (some example_lit_surface, 7)]

/-- A baking context whose model still holds geometry of an earlier bake and
whose indexer holds no material yet; tangent baking is enabled. -/
def example_context : ModelBakingContext (List Nat) :=
  { model :=
      { model :=
          { surface_count := 1
            surfaces := [⟨[⟨0, 0, 0⟩], [⟨0, 0, 1⟩], [⟨0, 0⟩], [0, 0, 0], [], 3⟩]
            sides_surfaces := [] }
        empty := false
        cutout_sides_enabled := false }
    material_indexer := []
    tangents_enabled := true }

/-! ## Vocabulary of the statements on tangent generation -/

/-- The determinant of the UV edges of a triangle, the denominator of `r` in
`generate_tangents_from_uvs`: `delta_uv1[0] * delta_uv2[1] - delta_uv1[1] * delta_uv2[0]`. -/
def uv_determinant (uv0 uv1 uv2 : Vector2f) : ℚ :=
  let delta_uv1 := uv1.sub uv0
  let delta_uv2 := uv2.sub uv0
  delta_uv1.x * delta_uv2.y - delta_uv1.y * delta_uv2.x

/-- The vector `t` that the loop of `generate_tangents_from_uvs` computes for a
triangle with positions `p0, p1, p2` and UVs `uv0, uv1, uv2`. -/
def triangle_tangent (p0 p1 p2 : Vector3f) (uv0 uv1 uv2 : Vector2f) : Vector3f :=
  let delta_uv1 := uv1.sub uv0
  let delta_uv2 := uv2.sub uv0
  let delta_pos1 := p1.sub p0
  let delta_pos2 := p2.sub p0
  let r : ℚ := 1 / (delta_uv1.x * delta_uv2.y - delta_uv1.y * delta_uv2.x)
  ((delta_pos1.scale delta_uv2.y).sub (delta_pos2.scale delta_uv1.y)).scale r

/-- The vector `bt` that the loop of `generate_tangents_from_uvs` computes for a
triangle. -/
def triangle_bitangent (p0 p1 p2 : Vector3f) (uv0 uv1 uv2 : Vector2f) : Vector3f :=
  let delta_uv1 := uv1.sub uv0
  let delta_uv2 := uv2.sub uv0
  let delta_pos1 := p1.sub p0
  let delta_pos2 := p2.sub p0
  let r : ℚ := 1 / (delta_uv1.x * delta_uv2.y - delta_uv1.y * delta_uv2.x)
  ((delta_pos2.scale delta_uv1.x).sub (delta_pos1.scale delta_uv2.x)).scale r

/-- The fourth float of a generated tangent,
`dot(bt, cross(normals[indices[i]], t)) < 0 ? -1.0f : 1.0f`. -/
def triangle_sign (bt n0 t : Vector3f) : ℚ := if dot bt (cross n0 t) < 0 then -1 else 1

/-- The four floats that one pass of the loop of `generate_tangents_from_uvs`
appends for the triangle with source indices `i0, i1, i2`. -/
def triangle_floats (positions normals : List Vector3f) (uvs : List Vector2f) (i0 i1 i2 : Int) :
    Option (List ℚ) := do
  let p0 ← at? positions i0
  let p1 ← at? positions i1
  let p2 ← at? positions i2
  let uv0 ← at? uvs i0
  let uv1 ← at? uvs i1
  let uv2 ← at? uvs i2
  let n0 ← at? normals i0
  let t := triangle_tangent p0 p1 p2 uv0 uv1 uv2
  let bt := triangle_bitangent p0 p1 p2 uv0 uv1 uv2
  pure [t.x, t.y, t.z, triangle_sign bt n0 t]

/-- The floats appended for all the triangles of an index buffer, in order. -/
def generated_floats (positions normals : List Vector3f) (uvs : List Vector2f) :
    List Int → List ℚ
  | i0 :: i1 :: i2 :: rest =>
    (triangle_floats positions normals uvs i0 i1 i2).getD [] ++
      generated_floats positions normals uvs rest
  | _ => []

/-- Every index of the buffer is inside the position, normal and UV arrays. -/
def IndicesInRange (positions normals : List Vector3f) (uvs : List Vector2f)
    (indices : List Int) : Prop :=
  ∀ i ∈ indices, 0 ≤ i ∧ i < (positions.length : Int) ∧ i < (normals.length : Int) ∧
    i < (uvs.length : Int)

instance (positions normals : List Vector3f) (uvs : List Vector2f) (indices : List Int) :
    Decidable (IndicesInRange positions normals uvs indices) := by
  unfold IndicesInRange; infer_instance

/-! ## Vocabulary of the statement on well-formed output -/

/-- An interior surface is well formed: its index count is a multiple of 3,
every index is at least 0 and below the position count, there is a UV and a
normal per position, and four tangent floats per position when tangents are
baked, none otherwise. -/
def Surface.WellFormed (bake_tangents : Bool) (s : Surface) : Prop :=
  s.indices.length % 3 = 0 ∧
  (∀ i ∈ s.indices, 0 ≤ i ∧ i < (s.positions.length : Int)) ∧
  s.uvs.length = s.positions.length ∧ s.normals.length = s.positions.length ∧
  s.tangents.length = (if bake_tangents then 4 * s.positions.length else 0)

instance (bake_tangents : Bool) (s : Surface) : Decidable (s.WellFormed bake_tangents) := by
  unfold Surface.WellFormed; infer_instance

/-- A side surface is well formed: as for an interior surface, without normals. -/
def SideSurface.WellFormed (bake_tangents : Bool) (s : SideSurface) : Prop :=
  s.indices.length % 3 = 0 ∧
  (∀ i ∈ s.indices, 0 ≤ i ∧ i < (s.positions.length : Int)) ∧
  s.uvs.length = s.positions.length ∧
  s.tangents.length = (if bake_tangents then 4 * s.positions.length else 0)

instance (bake_tangents : Bool) (s : SideSurface) : Decidable (s.WellFormed bake_tangents) := by
  unfold SideSurface.WellFormed; infer_instance

/-! # Theorems -/

/-! ## Bit-level facts about the masks -/

theorem testBit_toNat_shiftLeft (b : Bool) (k j : Nat) :
    ((b.toNat) <<< k).testBit j = (b && decide (j = k)) := by
  cases b
  · simp
  · simp only [Bool.toNat_true, Bool.true_and]
    rw [Nat.one_shiftLeft, Nat.testBit_two_pow]
    by_cases h : j = k
    · simp [h]
    · simp [h, Ne.symm h]

theorem testBit_or_mod (m x j : Nat) :
    ((m ||| x) % 256).testBit j = (decide (j < 8) && (m.testBit j || x.testBit j)) := by
  have : (256 : Nat) = 2 ^ 8 := by norm_num
  rw [this, Nat.testBit_mod_two_pow, Nat.testBit_or]

theorem testBit_get_sides (cs : CubeSides) (p : Vector3f) (tol : ℚ) (j : Nat) :
    (get_sides cs p tol).testBit j =
      (decide (j < 8) && Face.all.any (fun f => f.near p tol && decide (j = cs.index f))) := by
  simp only [get_sides, testBit_or_mod, testBit_toNat_shiftLeft, Face.all, List.any_cons,
    List.any_nil, Face.near, Face.coord, Face.plane, CubeSides.index, Nat.zero_testBit]
  by_cases h : j < 8 <;> simp [h, Bool.or_assoc]

theorem CubeSides.Valid.index_lt {cs : CubeSides} (h : cs.Valid) (f : Face) :
    cs.index f < SIDE_COUNT := by
  apply h.2
  cases f <;> simp [CubeSides.index, CubeSides.toList]

theorem CubeSides.Valid.index_inj {cs : CubeSides} (h : cs.Valid) {f g : Face}
    (e : cs.index f = cs.index g) : f = g := by
  have hn := h.1
  simp only [CubeSides.toList, List.nodup_cons, List.mem_cons, List.mem_singleton,
    List.not_mem_nil, not_or, List.nodup_nil, or_false] at hn
  cases f <;> cases g <;> simp only [CubeSides.index] at e <;> first | rfl | (exfalso; omega)

theorem CubeSides.Valid.exists_index {cs : CubeSides} (h : cs.Valid) {k : Nat}
    (hk : k < SIDE_COUNT) : ∃ f, cs.index f = k := by
  have hsub : cs.toList ⊆ List.range SIDE_COUNT := fun x hx => List.mem_range.2 (h.2 x hx)
  have hperm : cs.toList.Perm (List.range SIDE_COUNT) :=
    (List.subperm_of_subset h.1 hsub).perm_of_length_le (by simp [CubeSides.toList, SIDE_COUNT])
  have hmem : k ∈ cs.toList := hperm.mem_iff.2 (List.mem_range.2 hk)
  simp only [CubeSides.toList, List.mem_cons, List.mem_singleton, List.not_mem_nil, or_false] at hmem
  rcases hmem with e | e | e | e | e | e
  · exact ⟨.negX, e.symm⟩
  · exact ⟨.posX, e.symm⟩
  · exact ⟨.negY, e.symm⟩
  · exact ⟨.posY, e.symm⟩
  · exact ⟨.negZ, e.symm⟩
  · exact ⟨.posZ, e.symm⟩

theorem any_all_iff (P : Face → Bool) :
    Face.all.any P = true ↔ ∃ f, P f = true := by
  constructor
  · intro h
    rcases List.any_eq_true.1 h with ⟨f, _, hf⟩
    exact ⟨f, hf⟩
  · rintro ⟨f, hf⟩
    exact List.any_eq_true.2 ⟨f, by cases f <;> simp [Face.all], hf⟩

theorem testBit_get_sides_iff (cs : CubeSides) (p : Vector3f) (tol : ℚ) (j : Nat) :
    (get_sides cs p tol).testBit j = true ↔
      j < 8 ∧ ∃ f, f.near p tol = true ∧ j = cs.index f := by
  rw [testBit_get_sides, Bool.and_eq_true, any_all_iff]
  simp

theorem testBit_triangle_mask_iff {cs : CubeSides} (h : cs.Valid) (a b c : Vector3f) (tol : ℚ)
    (j : Nat) :
    (triangle_mask cs a b c tol).testBit j = true ↔
      ∃ f, f.common a b c tol = true ∧ j = cs.index f := by
  simp only [triangle_mask, Nat.testBit_and, Bool.and_eq_true, testBit_get_sides_iff, Face.common]
  constructor
  · rintro ⟨⟨⟨_, f, hf, ef⟩, ⟨_, g, hg, eg⟩⟩, ⟨_, k, hk, ek⟩⟩
    have e1 : f = g := h.index_inj (ef.symm.trans eg)
    have e2 : f = k := h.index_inj (ef.symm.trans ek)
    subst e1; subst e2
    exact ⟨f, ⟨⟨hf, hg⟩, hk⟩, ef⟩
  · rintro ⟨f, ⟨⟨hf, hg⟩, hk⟩, ef⟩
    have hlt : j < 8 := by
      have := h.index_lt f
      simp only [SIDE_COUNT] at this
      omega
    exact ⟨⟨⟨hlt, f, hf, ef⟩, ⟨hlt, f, hg, ef⟩⟩, ⟨hlt, f, hk, ef⟩⟩

theorem get_triangle_side_of_mask {cs : CubeSides} {a b c : Vector3f} {tol : ℚ} {k : Nat}
    (hk : k < SIDE_COUNT) (hm : triangle_mask cs a b c tol = 1 <<< k) :
    get_triangle_side cs a b c tol = some k := by
  unfold get_triangle_side
  simp only [hm]
  simp only [SIDE_COUNT] at hk ⊢
  interval_cases k <;> decide

theorem get_triangle_side_none_of_two_bits {cs : CubeSides} {a b c : Vector3f} {tol : ℚ}
    {j k : Nat} (hjk : j ≠ k) (hj : (triangle_mask cs a b c tol).testBit j = true)
    (hk : (triangle_mask cs a b c tol).testBit k = true) :
    get_triangle_side cs a b c tol = none := by
  unfold get_triangle_side
  simp only
  split
  · rfl
  · rw [List.find?_eq_none]
    intro s _ hs
    have hs' : triangle_mask cs a b c tol = 1 <<< s := by simpa using hs
    rw [hs', Nat.one_shiftLeft, Nat.testBit_two_pow] at hj hk
    simp only [decide_eq_true_eq] at hj hk
    omega

theorem triangle_mask_of_unique {cs : CubeSides} (h : cs.Valid) {a b c : Vector3f} {tol : ℚ}
    {f : Face} (hf : f.common a b c tol = true)
    (hu : ∀ g, g.common a b c tol = true → g = f) :
    triangle_mask cs a b c tol = 1 <<< cs.index f := by
  apply Nat.eq_of_testBit_eq
  intro j
  rw [Nat.one_shiftLeft, Nat.testBit_two_pow]
  rw [Bool.eq_iff_iff, testBit_triangle_mask_iff h]
  simp only [decide_eq_true_eq]
  constructor
  · rintro ⟨g, hg, e⟩
    rw [e, hu g hg]
  · intro e
    exact ⟨f, hf, e.symm⟩

theorem triangle_mask_eq_zero {cs : CubeSides} (h : cs.Valid) {a b c : Vector3f} {tol : ℚ}
    (hu : ∀ g : Face, g.common a b c tol = false) :
    triangle_mask cs a b c tol = 0 := by
  apply Nat.eq_of_testBit_eq
  intro j
  rw [Nat.zero_testBit, Bool.eq_false_iff]
  intro hj
  rcases (testBit_triangle_mask_iff h a b c tol j).1 hj with ⟨g, hg, _⟩
  rw [hu g] at hg
  exact Bool.noConfusion hg

/-! ## Claims on the face classifier -/

/-- C1, as stated, fails: the three vertices below are all exactly on the face
-X (and also on -Z, they lie on a cube edge), yet the classifier reports
interior instead of returning -X. -/
theorem C1_counterexample :
    CubeSides.canonical.Valid ∧
    Face.negX.common ⟨0, 0, 0⟩ ⟨0, 1 / 2, 0⟩ ⟨0, 1, 0⟩ 0 = true ∧
    get_triangle_side CubeSides.canonical ⟨0, 0, 0⟩ ⟨0, 1 / 2, 0⟩ ⟨0, 1, 0⟩ 0 = none := by
  have hv : CubeSides.canonical.Valid := by decide
  refine ⟨hv, ?_, ?_⟩
  · simp [Face.common, Face.near, Face.coord, Face.plane, is_equal_approx]
  · apply get_triangle_side_none_of_two_bits (j := 0) (k := 4) (by decide)
    · rw [testBit_triangle_mask_iff hv]
      exact ⟨.negX, by simp [Face.common, Face.near, Face.coord, Face.plane, is_equal_approx], rfl⟩
    · rw [testBit_triangle_mask_iff hv]
      exact ⟨.negZ, by simp [Face.common, Face.near, Face.coord, Face.plane, is_equal_approx], rfl⟩

/-- C1, amended: for every tolerance and every triangle whose three vertices are
all within the tolerance of the cube face `f` and share no other cube face, the
classifier reports the triangle on a face and returns the side index of `f`. -/
theorem C1_single_common_face_returned (cs : CubeSides) (h : cs.Valid) (a b c : Vector3f)
    (tol : ℚ) (f : Face) (hf : f.common a b c tol = true)
    (hu : ∀ g : Face, g.common a b c tol = true → g = f) :
    get_triangle_side cs a b c tol = some (cs.index f) :=
  get_triangle_side_of_mask (h.index_lt f) (triangle_mask_of_unique h hf hu)

/-- Witness of C1 (amended): a triangle in the plane x = 0 touching no other
face plane with all three vertices is classified as -X. -/
theorem C1_single_common_face_returned_witness :
    get_triangle_side CubeSides.canonical ⟨0, 0, 0⟩ ⟨0, 1, 0⟩ ⟨0, 1 / 2, 1⟩ (1 / 1000) = some 0 :=
  C1_single_common_face_returned CubeSides.canonical (by decide) ⟨0, 0, 0⟩ ⟨0, 1, 0⟩ ⟨0, 1 / 2, 1⟩
    (1 / 1000) .negX
    (by simp [Face.common, Face.near, Face.coord, Face.plane, is_equal_approx])
    (by
      intro g hg
      cases g <;> first
        | rfl
        | (exfalso
           revert hg
           simp [Face.common, Face.near, Face.coord, Face.plane, is_equal_approx]
           try norm_num [abs_lt]))

/-- C2, as stated, fails: for this triangle on the cube edge x = 0, y = 0 the
AND of the masks is 5 (bits 0 and 2 set); the claim has the classifier return
side 0, the code reports interior. -/
theorem C2_counterexample :
    triangle_mask CubeSides.canonical ⟨0, 0, 0⟩ ⟨0, 0, 1 / 2⟩ ⟨0, 0, 1⟩ (1 / 1000) = 5 ∧
    get_triangle_side CubeSides.canonical ⟨0, 0, 0⟩ ⟨0, 0, 1 / 2⟩ ⟨0, 0, 1⟩ (1 / 1000) = none := by
  have hm : triangle_mask CubeSides.canonical ⟨0, 0, 0⟩ ⟨0, 0, 1 / 2⟩ ⟨0, 0, 1⟩ (1 / 1000) = 5 := by
    simp [triangle_mask, get_sides, is_equal_approx, CubeSides.canonical]
    norm_num [abs_lt]
    decide
  refine ⟨hm, ?_⟩
  apply get_triangle_side_none_of_two_bits (j := 0) (k := 2) (by decide)
  · rw [hm]; decide
  · rw [hm]; decide

/-- C2, amended: when the AND of the three per-vertex face masks has more than
one bit set, the classifier reports interior, whatever the side enumeration;
being a function of the three points and the tolerance it does so on every
call. -/
theorem C2_several_bits_interior (cs : CubeSides) (a b c : Vector3f) (tol : ℚ) (j k : Nat)
    (hjk : j ≠ k) (hj : (triangle_mask cs a b c tol).testBit j = true)
    (hk : (triangle_mask cs a b c tol).testBit k = true) :
    get_triangle_side cs a b c tol = none :=
  get_triangle_side_none_of_two_bits hjk hj hk

/-- Witness of C2 (amended): the triangle on the cube edge x = 0, y = 0 has
bits 0 and 2 set in the AND of its masks and is reported interior. -/
theorem C2_several_bits_interior_witness :
    get_triangle_side CubeSides.canonical ⟨0, 0, 0⟩ ⟨0, 0, 1 / 3⟩ ⟨0, 0, 2 / 3⟩ 0 = none :=
  have hm : triangle_mask CubeSides.canonical ⟨0, 0, 0⟩ ⟨0, 0, 1 / 3⟩ ⟨0, 0, 2 / 3⟩ 0 = 5 := by
    simp [triangle_mask, get_sides, is_equal_approx, CubeSides.canonical]
    norm_num [abs_lt]
    decide
  C2_several_bits_interior CubeSides.canonical ⟨0, 0, 0⟩ ⟨0, 0, 1 / 3⟩ ⟨0, 0, 2 / 3⟩ 0 0 2
    (by decide) (by rw [hm]; decide) (by rw [hm]; decide)

/-- C3: if the AND of the three masks is zero the classifier reports interior;
if it has exactly one bit `k` set the classifier returns side `k`, and `k` is
the side index of a face whose plane all three vertices are within the
tolerance of; in particular a triangle whose vertices share no face is
interior. -/
theorem C3_mask_decides_classification (cs : CubeSides) (h : cs.Valid) (a b c : Vector3f)
    (tol : ℚ) :
    (triangle_mask cs a b c tol = 0 → get_triangle_side cs a b c tol = none) ∧
    (∀ k : Nat, triangle_mask cs a b c tol = 1 <<< k →
      get_triangle_side cs a b c tol = some k ∧
      ∃ f : Face, cs.index f = k ∧
        is_equal_approx (f.coord a) f.plane tol = true ∧
        is_equal_approx (f.coord b) f.plane tol = true ∧
        is_equal_approx (f.coord c) f.plane tol = true) ∧
    ((∀ f : Face, f.common a b c tol = false) → get_triangle_side cs a b c tol = none) := by
  refine ⟨?_, ?_, ?_⟩
  · intro hm
    simp [get_triangle_side, hm]
  · intro k hm
    have hbit : (triangle_mask cs a b c tol).testBit k = true := by
      rw [hm, Nat.one_shiftLeft, Nat.testBit_two_pow]; simp
    rcases (testBit_triangle_mask_iff h a b c tol k).1 hbit with ⟨f, hf, e⟩
    have hk : k < SIDE_COUNT := e ▸ h.index_lt f
    refine ⟨get_triangle_side_of_mask hk hm, f, e.symm, ?_⟩
    simpa [Face.common, Face.near, and_assoc] using hf
  · intro hu
    simp [get_triangle_side, triangle_mask_eq_zero h hu]

/-- Witness of C3: a triangle in the plane y = 1 has mask `1 <<< 3` under the
canonical enumeration and is classified as side 3. -/
theorem C3_mask_decides_classification_witness :
    triangle_mask CubeSides.canonical ⟨0, 1, 0⟩ ⟨1, 1, 0⟩ ⟨1 / 2, 1, 1⟩ (1 / 100) = 1 <<< 3 ∧
    get_triangle_side CubeSides.canonical ⟨0, 1, 0⟩ ⟨1, 1, 0⟩ ⟨1 / 2, 1, 1⟩ (1 / 100) = some 3 :=
  have hm : triangle_mask CubeSides.canonical ⟨0, 1, 0⟩ ⟨1, 1, 0⟩ ⟨1 / 2, 1, 1⟩ (1 / 100)
      = 1 <<< 3 := by
    simp [triangle_mask, get_sides, is_equal_approx, CubeSides.canonical]
    norm_num [abs_lt]
    decide
  ⟨hm, ((C3_mask_decides_classification CubeSides.canonical (by decide) ⟨0, 1, 0⟩ ⟨1, 1, 0⟩
    ⟨1 / 2, 1, 1⟩ (1 / 100)).2.1 3 hm).1⟩

/-! ## Distinct source indices -/

theorem distinct_sources_append (srcs : List Int) (s : Int) :
    distinct_sources (srcs ++ [s]) = push_key (distinct_sources srcs) s := by
  simp [distinct_sources, List.foldl_append]

theorem push_key_nodup {keys : List Int} (h : keys.Nodup) (s : Int) : (push_key keys s).Nodup := by
  unfold push_key
  split
  · exact h
  · rename_i hs
    exact List.Nodup.append h (List.nodup_singleton s) (by simpa using hs)

theorem mem_push_key {keys : List Int} {s x : Int} : x ∈ push_key keys s ↔ x ∈ keys ∨ x = s := by
  unfold push_key
  split
  · rename_i hs
    constructor
    · exact Or.inl
    · rintro (h | h)
      · exact h
      · exact h ▸ hs
  · simp

theorem foldl_push_key_nodup (srcs : List Int) :
    ∀ keys : List Int, keys.Nodup → (srcs.foldl push_key keys).Nodup := by
  induction srcs with
  | nil => intro keys h; exact h
  | cons s rest ih => intro keys h; exact ih _ (push_key_nodup h s)

theorem mem_foldl_push_key (srcs : List Int) :
    ∀ (keys : List Int) (x : Int), x ∈ srcs.foldl push_key keys ↔ x ∈ keys ∨ x ∈ srcs := by
  induction srcs with
  | nil => intro keys x; simp
  | cons s rest ih =>
    intro keys x
    rw [List.foldl_cons, ih, mem_push_key, List.mem_cons]
    tauto

theorem distinct_sources_nodup (srcs : List Int) : (distinct_sources srcs).Nodup :=
  foldl_push_key_nodup srcs [] List.nodup_nil

theorem mem_distinct_sources {srcs : List Int} {x : Int} :
    x ∈ distinct_sources srcs ↔ x ∈ srcs := by
  simp [distinct_sources, mem_foldl_push_key]

theorem indexOf_push_key {keys : List Int} {x : Int} (hx : x ∈ keys) (s : Int) :
    (push_key keys s).indexOf x = keys.indexOf x := by
  unfold push_key
  split
  · rfl
  · exact List.indexOf_append_of_mem hx

theorem indexOf_push_key_self {keys : List Int} {s : Int} (hs : s ∉ keys) :
    (push_key keys s).indexOf s = keys.length := by
  unfold push_key
  rw [if_neg hs, List.indexOf_append_of_not_mem hs]
  simp

theorem indices_append (srcs : List Int) (s : Int) :
    (srcs ++ [s]).map (fun x => (((distinct_sources (srcs ++ [s])).indexOf x : Nat) : Int)) =
      srcs.map (fun x => (((distinct_sources srcs).indexOf x : Nat) : Int)) ++
        [(((distinct_sources (srcs ++ [s])).indexOf s : Nat) : Int)] := by
  rw [List.map_append, List.map_singleton]
  congr 1
  apply List.map_congr_left
  intro x hx
  rw [distinct_sources_append, indexOf_push_key (mem_distinct_sources.2 hx)]

/-! ## The vertex tables -/

theorem MapInv_nil : MapInv [] [] := by
  intro s
  simp [IndexMap.find]

theorem IndexMap.find_insert_of_none {m : IndexMap} {k : Int} (v : Int) (h : m.find k = none)
    (s : Int) : (m.insert k v).find s = if s = k then some v else m.find s := by
  unfold IndexMap.insert
  rw [h]
  simp only [Option.isSome_none, Bool.false_eq_true, if_false]
  unfold IndexMap.find at *
  rw [List.lookup_append]
  by_cases hs : s = k
  · subst hs
    simp [h]
  · have hne : (s == k) = false := by simpa using hs
    simp [List.lookup, hs, hne]

theorem MapInv.find_of_mem {m : IndexMap} {keys : List Int} (h : MapInv m keys) {s : Int}
    (hs : s ∈ keys) : m.find s = some ((keys.indexOf s : Nat) : Int) := by
  rw [h s, if_pos hs]

theorem MapInv.find_of_not_mem {m : IndexMap} {keys : List Int} (h : MapInv m keys) {s : Int}
    (hs : s ∉ keys) : m.find s = none := by
  rw [h s, if_neg hs]

theorem MapInv.insert {m : IndexMap} {keys : List Int} (h : MapInv m keys) {s : Int}
    (hs : s ∉ keys) : MapInv (m.insert s (keys.length : Int)) (push_key keys s) := by
  intro x
  rw [IndexMap.find_insert_of_none _ (h.find_of_not_mem hs)]
  by_cases hx : x = s
  · subst hx
    rw [if_pos rfl, if_pos (mem_push_key.2 (Or.inr rfl)), indexOf_push_key_self hs]
  · rw [if_neg hx, h x]
    by_cases hk : x ∈ keys
    · rw [if_pos hk, if_pos (mem_push_key.2 (Or.inl hk)), indexOf_push_key hk]
    · rw [if_neg hk, if_neg]
      rw [mem_push_key]
      tauto

/-! ## One vertex -/

theorem getD_of_isSome {α : Type} {o : Option α} (h : o.isSome) (d : α) : o = some (o.getD d) := by
  cases o with
  | none => exact Bool.noConfusion h
  | some a => rfl

theorem distinct_sources_append_of_mem {srcs : List Int} {s : Int}
    (h : s ∈ distinct_sources srcs) : distinct_sources (srcs ++ [s]) = distinct_sources srcs := by
  rw [distinct_sources_append, push_key, if_pos h]

theorem distinct_sources_append_of_not_mem {srcs : List Int} {s : Int}
    (h : s ∉ distinct_sources srcs) :
    distinct_sources (srcs ++ [s]) = distinct_sources srcs ++ [s] := by
  rw [distinct_sources_append, push_key, if_neg h]

theorem indexOf_last_of_not_mem {srcs : List Int} {s : Int} (h : s ∉ distinct_sources srcs) :
    (distinct_sources (srcs ++ [s])).indexOf s = (distinct_sources srcs).length := by
  rw [distinct_sources_append, indexOf_push_key_self h]

theorem expected_side_append_of_mem (W : Working) (bake_tangents : Bool) {srcs : List Int}
    {s : Int} (h : s ∈ distinct_sources srcs) :
    expected_side W bake_tangents (srcs ++ [s]) =
      { expected_side W bake_tangents srcs with
        indices := (expected_side W bake_tangents srcs).indices ++
          [(((distinct_sources srcs).indexOf s : Nat) : Int)] } := by
  unfold expected_side
  rw [indices_append, distinct_sources_append_of_mem h]

theorem expected_side_append_of_not_mem (W : Working) (bake_tangents : Bool) {srcs : List Int}
    {s : Int} (h : s ∉ distinct_sources srcs) :
    expected_side W bake_tangents (srcs ++ [s]) =
      { positions := (expected_side W bake_tangents srcs).positions ++ [W.position s]
        uvs := (expected_side W bake_tangents srcs).uvs ++ [W.uv s]
        indices := (expected_side W bake_tangents srcs).indices ++
          [((distinct_sources srcs).length : Int)]
        tangents := if bake_tangents then
            (expected_side W bake_tangents srcs).tangents ++ W.tangent s
          else (expected_side W bake_tangents srcs).tangents } := by
  unfold expected_side
  rw [indices_append, indexOf_last_of_not_mem h, distinct_sources_append_of_not_mem h]
  cases bake_tangents <;> simp [List.flatMap_append]

theorem expected_surface_append_of_mem (W : Working) (bake_tangents : Bool) (material_id : Nat)
    {srcs : List Int} {s : Int} (h : s ∈ distinct_sources srcs) :
    expected_surface W bake_tangents material_id (srcs ++ [s]) =
      { expected_surface W bake_tangents material_id srcs with
        indices := (expected_surface W bake_tangents material_id srcs).indices ++
          [(((distinct_sources srcs).indexOf s : Nat) : Int)] } := by
  unfold expected_surface
  rw [indices_append, distinct_sources_append_of_mem h]

theorem expected_surface_append_of_not_mem (W : Working) (bake_tangents : Bool)
    (material_id : Nat) {srcs : List Int} {s : Int} (h : s ∉ distinct_sources srcs) :
    expected_surface W bake_tangents material_id (srcs ++ [s]) =
      { positions := (expected_surface W bake_tangents material_id srcs).positions ++
          [W.position s]
        normals := (expected_surface W bake_tangents material_id srcs).normals ++ [W.normal s]
        uvs := (expected_surface W bake_tangents material_id srcs).uvs ++ [W.uv s]
        indices := (expected_surface W bake_tangents material_id srcs).indices ++
          [((distinct_sources srcs).length : Int)]
        tangents := if bake_tangents then
            (expected_surface W bake_tangents material_id srcs).tangents ++ W.tangent s
          else (expected_surface W bake_tangents material_id srcs).tangents
        material_id := material_id } := by
  unfold expected_surface
  rw [indices_append, indexOf_last_of_not_mem h, distinct_sources_append_of_not_mem h]
  cases bake_tangents <;> simp [List.flatMap_append]

theorem side_vertex_spec (W : Working) (bake_tangents : Bool) (srcs : List Int) (s : Int)
    (m : IndexMap) (hm : MapInv m (distinct_sources srcs)) (hs : SrcOk W bake_tangents s) :
    ∃ m', side_vertex bake_tangents W.uvs W.tangents s (W.position s)
        (expected_side W bake_tangents srcs, m, ((distinct_sources srcs).length : Int)) =
      some (expected_side W bake_tangents (srcs ++ [s]), m',
        ((distinct_sources (srcs ++ [s])).length : Int)) ∧
      MapInv m' (distinct_sources (srcs ++ [s])) := by
  by_cases hmem : s ∈ distinct_sources srcs
  · refine ⟨m, ?_, ?_⟩
    · rw [expected_side_append_of_mem W bake_tangents hmem, distinct_sources_append_of_mem hmem]
      unfold side_vertex
      simp only [hm.find_of_mem hmem]
      rfl
    · rw [distinct_sources_append_of_mem hmem]; exact hm
  · refine ⟨m.insert s ((distinct_sources srcs).length : Int), ?_, ?_⟩
    · rw [expected_side_append_of_not_mem W bake_tangents hmem,
        distinct_sources_append_of_not_mem hmem]
      unfold side_vertex
      simp only [hm.find_of_not_mem hmem]
      have hu : at? W.uvs s = some (W.uv s) := getD_of_isSome hs.2.2.1 _
      cases bake_tangents with
      | false =>
        rw [hu]
        simp
      | true =>
        have ht : tangent_at W.tangents s = some (W.tangent s) :=
          getD_of_isSome (hs.2.2.2 rfl) _
        rw [hu, ht]
        simp
    · rw [distinct_sources_append, push_key, if_neg hmem]
      have := hm.insert hmem
      rwa [push_key, if_neg hmem] at this

theorem regular_vertex_spec (W : Working) (bake_tangents : Bool) (material_id : Nat)
    (srcs : List Int) (s : Int)
    (m : IndexMap) (hm : MapInv m (distinct_sources srcs)) (hs : SrcOk W bake_tangents s) :
    ∃ m', regular_vertex bake_tangents W.normals W.uvs W.tangents s (W.position s)
        (expected_surface W bake_tangents material_id srcs, m,
          ((distinct_sources srcs).length : Int)) =
      some (expected_surface W bake_tangents material_id (srcs ++ [s]), m',
        ((distinct_sources (srcs ++ [s])).length : Int)) ∧
      MapInv m' (distinct_sources (srcs ++ [s])) := by
  by_cases hmem : s ∈ distinct_sources srcs
  · refine ⟨m, ?_, ?_⟩
    · rw [expected_surface_append_of_mem W bake_tangents material_id hmem,
        distinct_sources_append_of_mem hmem]
      unfold regular_vertex
      simp only [hm.find_of_mem hmem]
      rfl
    · rw [distinct_sources_append_of_mem hmem]; exact hm
  · refine ⟨m.insert s ((distinct_sources srcs).length : Int), ?_, ?_⟩
    · rw [expected_surface_append_of_not_mem W bake_tangents material_id hmem,
        distinct_sources_append_of_not_mem hmem]
      unfold regular_vertex
      simp only [hm.find_of_not_mem hmem]
      have hu : at? W.uvs s = some (W.uv s) := getD_of_isSome hs.2.2.1 _
      have hn : at? W.normals s = some (W.normal s) := getD_of_isSome hs.2.1 _
      cases bake_tangents with
      | false =>
        rw [hu, hn]
        simp
        rfl
      | true =>
        have ht : tangent_at W.tangents s = some (W.tangent s) :=
          getD_of_isSome (hs.2.2.2 rfl) _
        rw [hu, hn, ht]
        simp
        rfl
    · rw [distinct_sources_append, push_key, if_neg hmem]
      have := hm.insert hmem
      rwa [push_key, if_neg hmem] at this

/-! ## One triangle -/

theorem get_triangle_side_lt {cs : CubeSides} {a b c : Vector3f} {tol : ℚ} {side : Nat}
    (h : get_triangle_side cs a b c tol = some side) : side < SIDE_COUNT := by
  unfold get_triangle_side at h
  simp only at h
  split at h
  · exact Option.noConfusion h
  · exact List.mem_range.1 (List.mem_of_find?_eq_some h)

theorem position_of_SrcOk {W : Working} {bake_tangents : Bool} {s : Int}
    (h : SrcOk W bake_tangents s) : at? W.positions s = some (W.position s) :=
  getD_of_isSome h.1 _

theorem side_triangle_spec (W : Working) (bake_tangents : Bool) (srcs : List Int)
    (i0 i1 i2 : Int) (m : IndexMap) (hm : MapInv m (distinct_sources srcs))
    (h0 : SrcOk W bake_tangents i0) (h1 : SrcOk W bake_tangents i1)
    (h2 : SrcOk W bake_tangents i2) :
    ∃ m' n',
      ((side_vertex bake_tangents W.uvs W.tangents i0 (W.position i0)
          (expected_side W bake_tangents srcs, m,
            ((expected_side W bake_tangents srcs).positions.length : Int))).bind
        (fun r => (side_vertex bake_tangents W.uvs W.tangents i1 (W.position i1) r).bind
          (fun r => side_vertex bake_tangents W.uvs W.tangents i2 (W.position i2) r))) =
        some (expected_side W bake_tangents (srcs ++ [i0, i1, i2]), m', n') ∧
      MapInv m' (distinct_sources (srcs ++ [i0, i1, i2])) := by
  have hlen : ((expected_side W bake_tangents srcs).positions.length : Int) =
      ((distinct_sources srcs).length : Int) := by simp [expected_side]
  rcases side_vertex_spec W bake_tangents srcs i0 m hm h0 with ⟨m1, e1, hm1⟩
  rcases side_vertex_spec W bake_tangents (srcs ++ [i0]) i1 m1 hm1 h1 with ⟨m2, e2, hm2⟩
  rcases side_vertex_spec W bake_tangents (srcs ++ [i0] ++ [i1]) i2 m2 hm2 h2 with ⟨m3, e3, hm3⟩
  have happ : srcs ++ [i0] ++ [i1] ++ [i2] = srcs ++ [i0, i1, i2] := by simp
  rw [happ] at e3 hm3
  refine ⟨m3, ((distinct_sources (srcs ++ [i0, i1, i2])).length : Int), ?_, hm3⟩
  rw [hlen, e1, Option.some_bind, e2, Option.some_bind, e3]

theorem regular_triangle_spec (W : Working) (bake_tangents : Bool) (material_id : Nat)
    (srcs : List Int) (i0 i1 i2 : Int) (m : IndexMap) (hm : MapInv m (distinct_sources srcs))
    (h0 : SrcOk W bake_tangents i0) (h1 : SrcOk W bake_tangents i1)
    (h2 : SrcOk W bake_tangents i2) :
    ∃ m' n',
      ((regular_vertex bake_tangents W.normals W.uvs W.tangents i0 (W.position i0)
          (expected_surface W bake_tangents material_id srcs, m,
            ((expected_surface W bake_tangents material_id srcs).positions.length : Int))).bind
        (fun r => (regular_vertex bake_tangents W.normals W.uvs W.tangents i1 (W.position i1) r).bind
          (fun r => regular_vertex bake_tangents W.normals W.uvs W.tangents i2
            (W.position i2) r))) =
        some (expected_surface W bake_tangents material_id (srcs ++ [i0, i1, i2]), m', n') ∧
      MapInv m' (distinct_sources (srcs ++ [i0, i1, i2])) := by
  have hlen : ((expected_surface W bake_tangents material_id srcs).positions.length : Int) =
      ((distinct_sources srcs).length : Int) := by simp [expected_surface]
  rcases regular_vertex_spec W bake_tangents material_id srcs i0 m hm h0 with ⟨m1, e1, hm1⟩
  rcases regular_vertex_spec W bake_tangents material_id (srcs ++ [i0]) i1 m1 hm1 h1
    with ⟨m2, e2, hm2⟩
  rcases regular_vertex_spec W bake_tangents material_id (srcs ++ [i0] ++ [i1]) i2 m2 hm2 h2
    with ⟨m3, e3, hm3⟩
  have happ : srcs ++ [i0] ++ [i1] ++ [i2] = srcs ++ [i0, i1, i2] := by simp
  rw [happ] at e3 hm3
  refine ⟨m3, ((distinct_sources (srcs ++ [i0, i1, i2])).length : Int), ?_, hm3⟩
  rw [hlen, e1, Option.some_bind, e2, Option.some_bind, e3]

theorem Model.Shaped.column {m0 : Model} (h : m0.Shaped) {k : Nat} (hk : k < SIDE_COUNT) :
    ∃ column, m0.sides_surfaces[k]? = some column ∧ column.length = MAX_SURFACES := by
  have hlt : k < m0.sides_surfaces.length := by rw [h.2.1]; exact hk
  refine ⟨m0.sides_surfaces[k], List.getElem?_eq_getElem hlt, ?_⟩
  exact h.2.2 _ (List.getElem_mem hlt)

theorem bind_three {α β : Type} (x0 : Option α) (x1 x2 : α → Option α) (f : α → Option β) :
    x0.bind (fun r => (x1 r).bind (fun r => (x2 r).bind f)) =
      (x0.bind (fun r => (x1 r).bind x2)).bind f := by
  cases x0 with
  | none => rfl
  | some a =>
    simp only [Option.some_bind]
    cases x1 a <;> rfl

theorem bake_triangle_spec (cs : CubeSides) (tol : ℚ) (W : Working) (bake_tangents : Bool)
    (surface_index material_id : Nat) (m0 : Model) (hshape : m0.Shaped)
    (hsi : surface_index < MAX_SURFACES) (acc : Option Nat → List Int) (st : LoopState)
    (hinv : LoopInv W bake_tangents surface_index material_id m0 acc st) (i0 i1 i2 : Int)
    (h0 : SrcOk W bake_tangents i0) (h1 : SrcOk W bake_tangents i1)
    (h2 : SrcOk W bake_tangents i2) :
    ∃ st', bake_triangle cs bake_tangents tol surface_index W.positions W.normals W.uvs
        W.tangents i0 i1 i2 st = some st' ∧
      LoopInv W bake_tangents surface_index material_id m0
        (fun d => acc d ++ (if classify cs tol W i0 i1 i2 = d then [i0, i1, i2] else [])) st' := by
  obtain ⟨hcount, hsurf, hslen, hsides, hmlen, hmaps, hreg⟩ := hinv
  unfold bake_triangle
  simp only [position_of_SrcOk h0, position_of_SrcOk h1, position_of_SrcOk h2,
    Option.bind_eq_bind, Option.some_bind]
  cases hc : get_triangle_side cs (W.position i0) (W.position i1) (W.position i2) tol with
  | some side =>
    have hside : side < SIDE_COUNT := get_triangle_side_lt hc
    obtain ⟨col0, hcol0, hcol0len⟩ := hshape.column hside
    obtain ⟨m, hm, hmi⟩ := hmaps side hside
    have hsic : surface_index < col0.length := by rw [hcol0len]; exact hsi
    obtain ⟨m', n', hrun, hm'⟩ :=
      side_triangle_spec W bake_tangents (acc (some side)) i0 i1 i2 m hmi h0 h1 h2
    simp only [hsides side hside, hcol0, Option.map_some', Option.some_bind, hm,
      List.getElem?_set_self hsic, bind_three, hrun, List.set_set]
    refine ⟨_, rfl, hcount, ?_, ?_, ?_, ?_, ?_, ?_⟩
    · simpa [classify, hc] using hsurf
    · simpa using hslen
    · intro k hk
      by_cases hks : side = k
      · subst hks
        rw [List.getElem?_set_self (by rw [hslen]; exact hside), hcol0]
        simp [classify, hc]
      · rw [List.getElem?_set_ne hks, hsides k hk]
        simp [classify, hc, hks]
    · simpa using hmlen
    · intro k hk
      by_cases hks : side = k
      · subst hks
        refine ⟨m', ?_, ?_⟩
        · exact List.getElem?_set_self (by rw [hmlen]; exact hside)
        · simpa [classify, hc] using hm'
      · obtain ⟨mk, hmk, hmki⟩ := hmaps k hk
        refine ⟨mk, ?_, ?_⟩
        · show (st.added_side_indices.set side m')[k]? = some mk
          rw [List.getElem?_set_ne hks, hmk]
        · simpa [classify, hc, hks] using hmki
    · simpa [classify, hc] using hreg
  | none =>
    have hsl : surface_index < m0.surfaces.length := by rw [hshape.1]; exact hsi
    obtain ⟨m', n', hrun, hm'⟩ :=
      regular_triangle_spec W bake_tangents material_id (acc none) i0 i1 i2
        st.added_regular_indices hreg h0 h1 h2
    simp only [hsurf, List.getElem?_set_self hsl, Option.some_bind, bind_three, hrun,
      List.set_set]
    refine ⟨_, rfl, hcount, ?_, hslen, ?_, hmlen, ?_, ?_⟩
    · simp [classify, hc]
    · intro k hk
      rw [hsides k hk]
      simp [classify, hc]
    · intro k hk
      obtain ⟨mk, hmk, hmki⟩ := hmaps k hk
      exact ⟨mk, hmk, by simpa [classify, hc] using hmki⟩
    · simpa [classify, hc] using hm'

/-! ## The triangle loop -/

theorem bake_triangles_spec (cs : CubeSides) (tol : ℚ) (W : Working) (bake_tangents : Bool)
    (surface_index material_id : Nat) (m0 : Model) (hshape : m0.Shaped)
    (hsi : surface_index < MAX_SURFACES) :
    ∀ (n : Nat) (indices : List Int), indices.length = 3 * n →
      (∀ s ∈ indices, SrcOk W bake_tangents s) →
      ∀ (acc : Option Nat → List Int) (st : LoopState),
        LoopInv W bake_tangents surface_index material_id m0 acc st →
        ∃ st', bake_triangles cs bake_tangents tol surface_index W.positions W.normals W.uvs
            W.tangents indices st = some st' ∧
          LoopInv W bake_tangents surface_index material_id m0
            (fun d => acc d ++ routed cs tol W indices d) st' := by
  intro n
  induction n with
  | zero =>
    intro indices hlen _ acc st hinv
    have hnil : indices = [] := List.length_eq_zero.1 (by simpa using hlen)
    subst hnil
    refine ⟨st, rfl, ?_⟩
    have : (fun d => acc d ++ routed cs tol W [] d) = acc := by
      funext d; simp [routed]
    rw [this]; exact hinv
  | succ n ih =>
    intro indices hlen hok acc st hinv
    match indices, hlen, hok with
    | i0 :: i1 :: i2 :: rest, hlen, hok =>
      have hrest : rest.length = 3 * n := by
        simp only [List.length_cons] at hlen; omega
      obtain ⟨st1, hrun1, hinv1⟩ := bake_triangle_spec cs tol W bake_tangents surface_index
        material_id m0 hshape hsi acc st hinv i0 i1 i2
        (hok i0 (by simp)) (hok i1 (by simp)) (hok i2 (by simp))
      obtain ⟨st2, hrun2, hinv2⟩ := ih rest hrest
        (fun s hs => hok s (by simp [hs])) _ st1 hinv1
      refine ⟨st2, ?_, ?_⟩
      · simp only [bake_triangles, Option.bind_eq_bind, hrun1, Option.some_bind, hrun2]
      · have : (fun d => acc d ++ routed cs tol W (i0 :: i1 :: i2 :: rest) d) =
            (fun d => (acc d ++ if classify cs tol W i0 i1 i2 = d then [i0, i1, i2] else []) ++
              routed cs tol W rest d) := by
          funext d; simp [routed]
        rw [this]; exact hinv2
    | [], hlen, _ => simp at hlen
    | [_], hlen, _ => simp only [List.length_cons, List.length_nil] at hlen; omega
    | [_, _], hlen, _ => simp only [List.length_cons, List.length_nil] at hlen; omega

/-! ## Sizes of the working arrays -/

theorem at?_isSome {α : Type} {xs : List α} {i : Int} (h0 : 0 ≤ i) (h1 : i < xs.length) :
    (at? xs i).isSome = true := by
  unfold at?
  rw [if_neg (by omega)]
  have : i.toNat < xs.length := by omega
  rw [List.getElem?_eq_getElem this]
  rfl

theorem tangent_at_isSome {tangents : List ℚ} {s : Int} (h0 : 0 ≤ s)
    (hl : s * 4 + 3 < (tangents.length : Int)) : (tangent_at tangents s).isSome = true := by
  have e0 := getD_of_isSome (@at?_isSome ℚ tangents (s * 4) (by omega) (by omega)) 0
  have e1 := getD_of_isSome (@at?_isSome ℚ tangents (s * 4 + 1) (by omega) (by omega)) 0
  have e2 := getD_of_isSome (@at?_isSome ℚ tangents (s * 4 + 2) (by omega) (by omega)) 0
  have e3 := getD_of_isSome (@at?_isSome ℚ tangents (s * 4 + 3) (by omega) (by omega)) 0
  unfold tangent_at
  simp only [Option.bind_eq_bind]
  rw [e0, Option.some_bind, e1, Option.some_bind, e2, Option.some_bind, e3, Option.some_bind]
  rfl

theorem validate_indices_iff (indices : List Int) (vertex_count : Int) (h : 0 ≤ vertex_count) :
    validate_indices indices vertex_count = true ↔ ∀ i ∈ indices, 0 ≤ i ∧ i < vertex_count := by
  unfold validate_indices
  rw [if_neg (by simpa using h), List.all_eq_true]
  constructor
  · intro hall i hi
    have := hall i hi
    simp only [decide_eq_true_eq, not_or, not_lt, ge_iff_le, not_le] at this
    exact this
  · intro hall i hi
    have := hall i hi
    simp only [decide_eq_true_eq, not_or, not_lt, ge_iff_le, not_le]
    exact this

theorem rotate_normals_tangents_length (basis : Basis) :
    ∀ (normals : List Vector3f) (tangents : List ℚ),
      (rotate_normals_tangents basis normals tangents).1.length = normals.length ∧
      (rotate_normals_tangents basis normals tangents).2.length = tangents.length := by
  intro normals
  induction normals with
  | nil => intro tangents; simp [rotate_normals_tangents]
  | cons n rest ih =>
    intro tangents
    match tangents with
    | t0 :: t1 :: t2 :: t3 :: ts =>
      have := ih ts
      simp only [rotate_normals_tangents, List.length_cons]
      omega
    | [] => simp [rotate_normals_tangents]
    | [_] => simp [rotate_normals_tangents]
    | [_, _] => simp [rotate_normals_tangents]
    | [_, _, _] => simp [rotate_normals_tangents]

theorem rotate_mesh_arrays_length (vertices normals : List Vector3f) (tangents : List ℚ)
    (basis : Basis) :
    (rotate_mesh_arrays vertices normals tangents basis).1.length = vertices.length ∧
    (rotate_mesh_arrays vertices normals tangents basis).2.1.length = normals.length ∧
    (rotate_mesh_arrays vertices normals tangents basis).2.2.length = tangents.length := by
  unfold rotate_mesh_arrays
  simp only
  split
  · simp [mul]
  · split
    · simp [mul]
    · have := rotate_normals_tangents_length basis normals tangents
      simp [mul, this]

theorem rotation_step_length {σ μ : Type} (env : Env σ μ) (ortho_rotation : Nat)
    (positions normals : List Vector3f) (tangents : List ℚ) :
    (rotation_step env ortho_rotation positions normals tangents).1.length = positions.length ∧
    (rotation_step env ortho_rotation positions normals tangents).2.1.length = normals.length ∧
    (rotation_step env ortho_rotation positions normals tangents).2.2.length = tangents.length := by
  unfold rotation_step
  split
  · have := rotate_mesh_arrays_length (add positions ⟨-(1 / 2), -(1 / 2), -(1 / 2)⟩) normals
      tangents (env.get_ortho_basis_from_index ortho_rotation)
    simp only [rotate_mesh_arrays_ortho, add, List.length_map] at this ⊢
    exact this
  · exact ⟨rfl, rfl, rfl⟩

theorem generate_tangents_loop_spec (positions normals : List Vector3f) (uvs : List Vector2f) :
    ∀ (n : Nat) (indices : List Int), indices.length = 3 * n →
      (∀ i ∈ indices, (at? positions i).isSome ∧ (at? normals i).isSome ∧ (at? uvs i).isSome) →
      ∀ init : List ℚ, ∃ t, generate_tangents_loop positions normals uvs indices init = some t ∧
        t.length = init.length + 4 * n := by
  intro n
  induction n with
  | zero =>
    intro indices hlen _ init
    have hnil : indices = [] := List.length_eq_zero.1 (by simpa using hlen)
    subst hnil
    exact ⟨init, rfl, rfl⟩
  | succ n ih =>
    intro indices hlen hok init
    match indices, hlen, hok with
    | i0 :: i1 :: i2 :: rest, hlen, hok =>
      have hrest : rest.length = 3 * n := by
        simp only [List.length_cons] at hlen; omega
      have h0 := hok i0 (by simp)
      have h1 := hok i1 (by simp)
      have h2 := hok i2 (by simp)
      have p0 := getD_of_isSome h0.1 ⟨0, 0, 0⟩
      have p1 := getD_of_isSome h1.1 ⟨0, 0, 0⟩
      have p2 := getD_of_isSome h2.1 ⟨0, 0, 0⟩
      have u0 := getD_of_isSome h0.2.2 ⟨0, 0⟩
      have u1 := getD_of_isSome h1.2.2 ⟨0, 0⟩
      have u2 := getD_of_isSome h2.2.2 ⟨0, 0⟩
      have n0 := getD_of_isSome h0.2.1 ⟨0, 0, 0⟩
      unfold generate_tangents_loop
      simp only [Option.bind_eq_bind]
      rw [p0, Option.some_bind, p1, Option.some_bind, p2, Option.some_bind, u0, Option.some_bind,
        u1, Option.some_bind, u2, Option.some_bind, n0, Option.some_bind]
      obtain ⟨t, ht, hl⟩ := ih rest hrest (fun i hi => hok i (by simp [hi])) _
      refine ⟨t, ht, ?_⟩
      rw [hl]
      simp only [List.length_append, List.length_cons, List.length_nil]
      omega
    | [], hlen, _ => simp at hlen
    | [_], hlen, _ => simp only [List.length_cons, List.length_nil] at hlen; omega
    | [_, _], hlen, _ => simp only [List.length_cons, List.length_nil] at hlen; omega

/-! ## One surface -/

theorem bake_surface_of_accepted {σ μ : Type} (env : Env σ μ) (materials : List μ)
    (bake_tangents : Bool) (ortho_rotation : Nat) (tol : ℚ) (surface_index : Nat)
    (arrays : SurfaceArrays) (baked_data : BakedModel) (material_indexer : σ)
    (hacc : Accepted env bake_tangents arrays) :
    bake_surface env materials bake_tangents ortho_rotation tol surface_index (some arrays)
        baked_data material_indexer =
      (working_arrays env bake_tangents ortho_rotation arrays).bind (fun W =>
        (baked_data.model.surfaces[surface_index]?).bind (fun surface =>
          (materials[surface_index]?).bind (fun material =>
            (bake_triangles env.sides bake_tangents tol surface_index W.positions W.normals
              W.uvs W.tangents arrays.index
              ⟨{ baked_data.model with
                  surfaces := baked_data.model.surfaces.set surface_index
                    { surface with
                      material_id := (env.get_or_create_index material_indexer material).1 } },
                List.replicate SIDE_COUNT [], []⟩).bind (fun st =>
              some ({ baked_data with
                  empty := decide (arrays.vertex.length = 0), model := st.model },
                (env.get_or_create_index material_indexer material).2))))) := by
  obtain ⟨h1, h2, h3, h4, h5, h6⟩ := hacc
  have hrot := rotation_step_length env ortho_rotation arrays.vertex arrays.normal arrays.tangent
  have hskip : (env.TOOLS_ENABLED && decide (arrays.tangent.length = 0) && bake_tangents &&
      decide (arrays.tex_uv.length = 0)) = false := by
    rw [Bool.eq_false_iff]
    intro h
    simp only [Bool.and_eq_true, decide_eq_true_eq] at h
    exact h6 ⟨h.1.1.1, h.1.1.2, h.1.2, h.2⟩
  unfold bake_surface working_arrays
  simp only [h1, h2, h3, h4, if_false, not_true_eq_false, not_false_eq_true, if_true,
    ne_eq, hrot.2.2, hrot.1, hskip, Bool.false_eq_true, eq_false (not_not.2 h5)]
  by_cases hg : (env.TOOLS_ENABLED && decide (arrays.tangent.length = 0) && bake_tangents) = true
  · simp only [hg, if_true, Option.bind_eq_bind, Option.pure_def]
    cases generate_tangents_from_uvs
      (rotation_step env ortho_rotation arrays.vertex arrays.normal arrays.tangent).1
      (rotation_step env ortho_rotation arrays.vertex arrays.normal arrays.tangent).2.1
      arrays.tex_uv arrays.index <;> rfl
  · rw [Bool.not_eq_true] at hg
    simp only [hg, Bool.false_eq_true, if_false, Option.bind_eq_bind, Option.pure_def,
      Option.some_bind]

theorem working_arrays_spec {σ μ : Type} (env : Env σ μ) (bake_tangents : Bool)
    (ortho_rotation : Nat) (arrays : SurfaceArrays) (hacc : Accepted env bake_tangents arrays)
    (hcons : Consistent env bake_tangents arrays) :
    ∃ W, working_arrays env bake_tangents ortho_rotation arrays = some W ∧
      W.positions = (rotation_step env ortho_rotation arrays.vertex arrays.normal
        arrays.tangent).1 ∧
      W.normals = (rotation_step env ortho_rotation arrays.vertex arrays.normal
        arrays.tangent).2.1 ∧
      W.uvs = (if arrays.tex_uv.length = 0 then
          List.replicate arrays.vertex.length (⟨0, 0⟩ : Vector2f) else arrays.tex_uv) ∧
      (arrays.tangent.length ≠ 0 → W.tangents = (rotation_step env ortho_rotation arrays.vertex
        arrays.normal arrays.tangent).2.2) ∧
      ∀ s ∈ arrays.index, SrcOk W bake_tangents s := by
  obtain ⟨h1, h2, h3, h4, h5, h6⟩ := hacc
  obtain ⟨c1, c2⟩ := hcons
  have hrot := rotation_step_length env ortho_rotation arrays.vertex arrays.normal arrays.tangent
  have hidx := (validate_indices_iff arrays.index arrays.vertex.length (by omega)).1 h3
  have huv : ∀ s ∈ arrays.index, (at? (if arrays.tex_uv.length = 0 then
      List.replicate arrays.vertex.length (⟨0, 0⟩ : Vector2f) else arrays.tex_uv) s).isSome := by
    intro s hs
    obtain ⟨hs0, hs1⟩ := hidx s hs
    split
    · exact at?_isSome hs0 (by simpa using hs1)
    · rename_i hne
      rcases c1 with c | c
      · exact absurd c hne
      · exact at?_isSome hs0 (c s hs)
  have key : ∀ t : List ℚ,
      (bake_tangents = true → ∀ s ∈ arrays.index, s * 4 + 3 < (t.length : Int)) →
      ∀ s ∈ arrays.index, SrcOk
        ⟨(rotation_step env ortho_rotation arrays.vertex arrays.normal arrays.tangent).1,
          (rotation_step env ortho_rotation arrays.vertex arrays.normal arrays.tangent).2.1,
          (if arrays.tex_uv.length = 0 then
            List.replicate arrays.vertex.length (⟨0, 0⟩ : Vector2f) else arrays.tex_uv), t⟩
        bake_tangents s := by
    intro t ht s hs
    obtain ⟨hs0, hs1⟩ := hidx s hs
    refine ⟨at?_isSome hs0 (by rw [hrot.1]; exact hs1),
      at?_isSome hs0 (by rw [hrot.2.1, ← h5]; exact hs1), huv s hs, ?_⟩
    intro hb
    exact tangent_at_isSome hs0 (ht hb s hs)
  unfold working_arrays
  simp only [hrot.1, hrot.2.2]
  by_cases hg : (env.TOOLS_ENABLED && decide (arrays.tangent.length = 0) && bake_tangents) = true
  · simp only [hg, if_true, Option.bind_eq_bind, Option.pure_def]
    simp only [Bool.and_eq_true, decide_eq_true_eq] at hg
    obtain ⟨⟨hT, ht0⟩, hb⟩ := hg
    have huvne : arrays.tex_uv.length ≠ 0 := fun c => h6 ⟨hT, ht0, hb, c⟩
    obtain ⟨t, ht, hl⟩ := generate_tangents_loop_spec
      (rotation_step env ortho_rotation arrays.vertex arrays.normal arrays.tangent).1
      (rotation_step env ortho_rotation arrays.vertex arrays.normal arrays.tangent).2.1
      arrays.tex_uv (arrays.index.length / 3) arrays.index (by omega)
      (fun s hs => by
        obtain ⟨hs0, hs1⟩ := hidx s hs
        have := huv s hs
        rw [if_neg huvne] at this
        exact ⟨at?_isSome hs0 (by rw [hrot.1]; exact hs1),
          at?_isSome hs0 (by rw [hrot.2.1, ← h5]; exact hs1), this⟩)
      (List.replicate
        ((rotation_step env ortho_rotation arrays.vertex arrays.normal arrays.tangent).1.length
          * 4) 0)
    have hlen : ∀ s ∈ arrays.index, s * 4 + 3 < (t.length : Int) := by
      intro s hs
      obtain ⟨_, hs1⟩ := hidx s hs
      rw [hl, List.length_replicate, hrot.1]
      omega
    unfold generate_tangents_from_uvs
    rw [ht, Option.some_bind]
    exact ⟨_, rfl, rfl, rfl, rfl, fun h => absurd ht0 h, key t (fun _ => hlen)⟩
  · rw [Bool.not_eq_true] at hg
    simp only [hg, Bool.false_eq_true, if_false, Option.bind_eq_bind, Option.pure_def,
      Option.some_bind]
    have hlen : bake_tangents = true → ∀ s ∈ arrays.index, s * 4 + 3 <
        ((rotation_step env ortho_rotation arrays.vertex arrays.normal
          arrays.tangent).2.2.length : Int) := by
      intro hb
      rw [hrot.2.2]
      rcases c2 hb with c | c
      · simp [c.1, c.2, hb] at hg
      · exact c
    exact ⟨_, rfl, rfl, rfl, rfl, fun _ => rfl, key _ hlen⟩

theorem set_eq_self_of_getElem? {α : Type} {l : List α} {i : Nat} {a : α} (h : l[i]? = some a) :
    l.set i a = l := by
  apply List.ext_getElem?
  intro j
  rw [List.getElem?_set]
  by_cases hij : i = j
  · subst hij
    rw [if_pos rfl, h]
    have : i < l.length := by
      rcases List.getElem?_eq_some.1 h with ⟨hlt, _⟩
      exact hlt
    rw [if_pos this]
  · rw [if_neg hij]

theorem expected_side_nil (W : Working) (bake_tangents : Bool) :
    expected_side W bake_tangents [] = SideSurface.cleared := by
  cases bake_tangents <;> rfl

theorem expected_surface_nil (W : Working) (bake_tangents : Bool) (material_id : Nat) :
    expected_surface W bake_tangents material_id [] = Surface.cleared material_id := by
  cases bake_tangents <;> rfl

theorem LoopInv_init (W : Working) (bake_tangents : Bool) (surface_index material_id : Nat)
    (m0 : Model) (hshape : m0.Shaped) (hslot : m0.SlotCleared surface_index)
    (surface : Surface) (hsurf : m0.surfaces[surface_index]? = some surface) :
    LoopInv W bake_tangents surface_index material_id m0 (fun _ => [])
      ⟨{ m0 with
          surfaces := m0.surfaces.set surface_index { surface with material_id := material_id } },
        List.replicate SIDE_COUNT [], []⟩ := by
  obtain ⟨⟨mid0, hmid0⟩, hsides⟩ := hslot
  have hs : surface = Surface.cleared mid0 := by
    rw [hsurf] at hmid0; exact Option.some.inj hmid0
  refine ⟨rfl, ?_, hshape.2.1, ?_, by simp, ?_, MapInv_nil⟩
  · rw [expected_surface_nil, hs]; rfl
  · intro k hk
    obtain ⟨col, hcol, _⟩ := hshape.column hk
    have := hsides k hk
    unfold Model.side at this
    rw [hcol, Option.some_bind] at this
    show m0.sides_surfaces[k]? = _
    rw [hcol, Option.map_some', expected_side_nil, set_eq_self_of_getElem? this]
  · intro k hk
    refine ⟨[], ?_, MapInv_nil⟩
    rw [List.getElem?_replicate, if_pos hk]

theorem Validated.vertex_ne_zero {arrays : SurfaceArrays} (h : Validated arrays) :
    arrays.vertex.length ≠ 0 := by
  obtain ⟨h1, _, h3⟩ := h
  have hidx := (validate_indices_iff arrays.index arrays.vertex.length (by omega)).1 h3
  match harr : arrays.index, h1 with
  | i :: rest, _ =>
    have := hidx i (by rw [harr]; simp)
    omega
  | [], h1 => simp at h1

theorem bake_surface_accepted_spec {σ μ : Type} (env : Env σ μ) (materials : List μ)
    (bake_tangents : Bool) (ortho_rotation : Nat) (tol : ℚ) (surface_index : Nat)
    (arrays : SurfaceArrays) (baked_data : BakedModel) (material_indexer : σ) (material : μ)
    (hacc : Accepted env bake_tangents arrays) (hcons : Consistent env bake_tangents arrays)
    (hshape : baked_data.model.Shaped) (hsi : surface_index < MAX_SURFACES)
    (hslot : baked_data.model.SlotCleared surface_index)
    (hmat : materials[surface_index]? = some material) :
    ∃ W m', working_arrays env bake_tangents ortho_rotation arrays = some W ∧
      bake_surface env materials bake_tangents ortho_rotation tol surface_index (some arrays)
        baked_data material_indexer =
        some ({ baked_data with empty := false, model := m' },
          (env.get_or_create_index material_indexer material).2) ∧
      m'.surface_count = baked_data.model.surface_count ∧
      m'.surfaces = baked_data.model.surfaces.set surface_index
        (expected_surface W bake_tangents (env.get_or_create_index material_indexer material).1
          (routed env.sides tol W arrays.index none)) ∧
      m'.sides_surfaces.length = SIDE_COUNT ∧
      ∀ k, k < SIDE_COUNT → m'.sides_surfaces[k]? =
        (baked_data.model.sides_surfaces[k]?).map (fun column => column.set surface_index
          (expected_side W bake_tangents (routed env.sides tol W arrays.index (some k)))) := by
  obtain ⟨W, hW, _, _, _, _, hok⟩ :=
    working_arrays_spec env bake_tangents ortho_rotation arrays hacc hcons
  have hsl : surface_index < baked_data.model.surfaces.length := by rw [hshape.1]; exact hsi
  have hsurf := List.getElem?_eq_getElem hsl
  have hinit := LoopInv_init W bake_tangents surface_index
    (env.get_or_create_index material_indexer material).1 baked_data.model hshape hslot _ hsurf
  obtain ⟨st', hrun, hinv⟩ := bake_triangles_spec env.sides tol W bake_tangents surface_index
    (env.get_or_create_index material_indexer material).1 baked_data.model hshape hsi
    (arrays.index.length / 3) arrays.index (by have := hacc.2.1; omega) hok _ _ hinit
  have hv : arrays.vertex.length ≠ 0 := Validated.vertex_ne_zero ⟨hacc.1, hacc.2.1, hacc.2.2.1⟩
  refine ⟨W, st'.model, hW, ?_, hinv.1, ?_, hinv.2.2.1, ?_⟩
  · rw [bake_surface_of_accepted env materials bake_tangents ortho_rotation tol surface_index
      arrays baked_data material_indexer hacc, hW, Option.some_bind, hsurf, Option.some_bind,
      hmat, Option.some_bind, hrun, Option.some_bind]
    simp [hv]
  · simpa using hinv.2.1
  · intro k hk
    simpa using hinv.2.2.2.1 k hk

theorem bake_surface_none {σ μ : Type} (env : Env σ μ) (materials : List μ)
    (bake_tangents : Bool) (ortho_rotation : Nat) (tol : ℚ) (surface_index : Nat)
    (baked_data : BakedModel) (material_indexer : σ) :
    bake_surface env materials bake_tangents ortho_rotation tol surface_index none
      baked_data material_indexer = some (baked_data, material_indexer) := rfl

theorem bake_surface_not_validated {σ μ : Type} (env : Env σ μ) (materials : List μ)
    (bake_tangents : Bool) (ortho_rotation : Nat) (tol : ℚ) (surface_index : Nat)
    (arrays : SurfaceArrays) (baked_data : BakedModel) (material_indexer : σ)
    (h : ¬ Validated arrays) :
    bake_surface env materials bake_tangents ortho_rotation tol surface_index (some arrays)
      baked_data material_indexer = some (baked_data, material_indexer) := by
  unfold bake_surface
  simp only
  by_cases h1 : arrays.index.length = 0
  · rw [if_pos h1]
  · rw [if_neg h1]
    by_cases h2 : arrays.index.length % 3 = 0
    · rw [if_neg (not_not.2 h2)]
      have h3 : ¬ validate_indices arrays.index arrays.vertex.length = true :=
        fun h3 => h ⟨h1, h2, h3⟩
      rw [if_pos h3]
    · rw [if_pos h2]

theorem bake_surface_validated_not_accepted {σ μ : Type} (env : Env σ μ) (materials : List μ)
    (bake_tangents : Bool) (ortho_rotation : Nat) (tol : ℚ) (surface_index : Nat)
    (arrays : SurfaceArrays) (baked_data : BakedModel) (material_indexer : σ)
    (hv : Validated arrays) (h : ¬ Accepted env bake_tangents arrays) :
    bake_surface env materials bake_tangents ortho_rotation tol surface_index (some arrays)
      baked_data material_indexer =
      some ({ baked_data with empty := false }, material_indexer) := by
  have hne := hv.vertex_ne_zero
  obtain ⟨h1, h2, h3⟩ := hv
  have hrot := rotation_step_length env ortho_rotation arrays.vertex arrays.normal arrays.tangent
  unfold bake_surface
  simp only [h1, h2, h3, if_false, not_true_eq_false, hne, decide_False, ne_eq]
  by_cases h4 : arrays.normal.length = 0
  · simp [h4]
  · by_cases h5 : arrays.vertex.length = arrays.normal.length
    · have h6 : env.TOOLS_ENABLED = true ∧ arrays.tangent.length = 0 ∧ bake_tangents = true ∧
          arrays.tex_uv.length = 0 := by
        by_contra h6
        exact h ⟨h1, h2, h3, h4, h5, h6⟩
      simp [h4, h5, hrot.2.2, h6.1, h6.2.1, h6.2.2.1, h6.2.2.2]
    · simp [h4, h5]

/-! ## The surface loop -/

theorem side_of_column {m : Model} {k i : Nat} {column : List SideSurface}
    (h : m.sides_surfaces[k]? = some column) : m.side k i = column[i]? := by
  unfold Model.side
  rw [h, Option.some_bind]

theorem bake_surface_slot {σ μ : Type} (env : Env σ μ) (materials : List μ)
    (bake_tangents : Bool) (ortho_rotation : Nat) (tol : ℚ) (surface_index : Nat)
    (arrays : Option SurfaceArrays) (baked_data : BakedModel) (material_indexer : σ)
    (hcons : ∀ arr, arrays = some arr → Accepted env bake_tangents arr →
      Consistent env bake_tangents arr)
    (hshape : baked_data.model.Shaped) (hsi : surface_index < MAX_SURFACES)
    (hslot : baked_data.model.SlotCleared surface_index)
    (hmat : surface_index < materials.length) :
    ∃ bd' s', bake_surface env materials bake_tangents ortho_rotation tol surface_index arrays
        baked_data material_indexer = some (bd', s') ∧
      bd'.model.Shaped ∧ bd'.model.surface_count = baked_data.model.surface_count ∧
      (∃ mid, bd'.model.surfaces[surface_index]? =
        some (slot_surface env bake_tangents ortho_rotation tol arrays mid)) ∧
      (∀ k, k < SIDE_COUNT → bd'.model.side k surface_index =
        some (slot_side env bake_tangents ortho_rotation tol arrays k)) ∧
      ∀ i, i ≠ surface_index → bd'.model.surfaces[i]? = baked_data.model.surfaces[i]? ∧
        ∀ k, bd'.model.side k i = baked_data.model.side k i := by
  have skip : ∀ (e : Bool) (s' : σ),
      slot_working env bake_tangents ortho_rotation arrays = none →
      ∃ bd' s'', some (({ baked_data with empty := e } : BakedModel), s') = some (bd', s'') ∧
        bd'.model.Shaped ∧ bd'.model.surface_count = baked_data.model.surface_count ∧
        (∃ mid, bd'.model.surfaces[surface_index]? =
          some (slot_surface env bake_tangents ortho_rotation tol arrays mid)) ∧
        (∀ k, k < SIDE_COUNT → bd'.model.side k surface_index =
          some (slot_side env bake_tangents ortho_rotation tol arrays k)) ∧
        ∀ i, i ≠ surface_index → bd'.model.surfaces[i]? = baked_data.model.surfaces[i]? ∧
          ∀ k, bd'.model.side k i = baked_data.model.side k i := by
    intro e s' hw
    obtain ⟨⟨mid, hmid⟩, hsides⟩ := hslot
    refine ⟨_, _, rfl, hshape, rfl, ⟨mid, ?_⟩, ?_, fun i _ => ⟨rfl, fun k => rfl⟩⟩
    · simp only [slot_surface, hw]; exact hmid
    · intro k hk
      simp only [slot_side, hw]; exact hsides k hk
  have same : ∀ bd : BakedModel, bd = { bd with empty := bd.empty } := fun bd => rfl
  cases arrays with
  | none =>
    rw [bake_surface_none, same baked_data]
    exact skip _ _ rfl
  | some arr =>
    by_cases hacc : Accepted env bake_tangents arr
    · obtain ⟨material, hmaterial⟩ : ∃ material, materials[surface_index]? = some material :=
        ⟨_, List.getElem?_eq_getElem hmat⟩
      obtain ⟨W, m', hW, hrun, hcount, hsurf, hslen, hsides⟩ := bake_surface_accepted_spec env
        materials bake_tangents ortho_rotation tol surface_index arr baked_data material_indexer
        material hacc (hcons arr rfl hacc) hshape hsi hslot hmaterial
      have hsw : slot_working env bake_tangents ortho_rotation (some arr) =
          some (W, arr.index) := by
        simp [slot_working, hacc, hW]
      refine ⟨_, _, hrun, ⟨?_, hslen, ?_⟩, hcount,
        ⟨(env.get_or_create_index material_indexer material).1, ?_⟩, ?_, ?_⟩
      · show m'.surfaces.length = MAX_SURFACES
        rw [hsurf, List.length_set]; exact hshape.1
      · intro column hcol
        obtain ⟨k, hk, hget⟩ := List.getElem_of_mem hcol
        have hk' : k < SIDE_COUNT := by rw [← hslen]; exact hk
        have h1 := hsides k hk'
        rw [List.getElem?_eq_getElem hk, hget] at h1
        obtain ⟨c0, hc0, hc0len⟩ := hshape.column hk'
        rw [hc0, Option.map_some'] at h1
        rw [Option.some.inj h1, List.length_set]; exact hc0len
      · show m'.surfaces[surface_index]? = _
        rw [hsurf, List.getElem?_set_self (by rw [hshape.1]; exact hsi)]
        simp only [slot_surface, hsw]
      · intro k hk
        show m'.side k surface_index = _
        obtain ⟨c0, hc0, hc0len⟩ := hshape.column hk
        have h1 := hsides k hk
        rw [hc0, Option.map_some'] at h1
        rw [side_of_column h1, List.getElem?_set_self (by rw [hc0len]; exact hsi)]
        simp only [slot_side, hsw]
      · intro i hi
        refine ⟨?_, fun k => ?_⟩
        · show m'.surfaces[i]? = _
          rw [hsurf, List.getElem?_set_ne (Ne.symm hi)]
        · show m'.side k i = _
          by_cases hk : k < SIDE_COUNT
          · obtain ⟨c0, hc0, _⟩ := hshape.column hk
            have h1 := hsides k hk
            rw [hc0, Option.map_some'] at h1
            rw [side_of_column h1, side_of_column hc0, List.getElem?_set_ne (Ne.symm hi)]
          · unfold Model.side
            rw [List.getElem?_eq_none (by rw [hslen]; omega),
              List.getElem?_eq_none (by rw [hshape.2.1]; omega)]
    · have hsw : slot_working env bake_tangents ortho_rotation (some arr) = none := by
        simp [slot_working, hacc]
      by_cases hv : Validated arr
      · rw [bake_surface_validated_not_accepted env materials bake_tangents ortho_rotation tol
          surface_index arr baked_data material_indexer hv hacc]
        exact skip _ _ hsw
      · rw [bake_surface_not_validated env materials bake_tangents ortho_rotation tol
          surface_index arr baked_data material_indexer hv, same baked_data]
        exact skip _ _ hsw

theorem bake_surfaces_from_spec {σ μ : Type} (env : Env σ μ) (materials : List μ)
    (bake_tangents : Bool) (ortho_rotation : Nat) (tol : ℚ) :
    ∀ (rest : List (Option SurfaceArrays)) (j : Nat) (bd : BakedModel) (s : σ),
      j + rest.length ≤ MAX_SURFACES → j + rest.length ≤ materials.length →
      SurfacesConsistent env bake_tangents rest → bd.model.Shaped →
      (∀ i, j ≤ i → i < j + rest.length → bd.model.SlotCleared i) →
      ∃ bd' s', bake_surfaces_from env materials bake_tangents ortho_rotation tol j rest (bd, s) =
          some (bd', s') ∧
        bd'.model.Shaped ∧ bd'.model.surface_count = bd.model.surface_count ∧
        (∀ i (hi : i < rest.length),
          (∃ mid, bd'.model.surfaces[j + i]? =
            some (slot_surface env bake_tangents ortho_rotation tol rest[i] mid)) ∧
          ∀ k, k < SIDE_COUNT → bd'.model.side k (j + i) =
            some (slot_side env bake_tangents ortho_rotation tol rest[i] k)) ∧
        ∀ i, (i < j ∨ j + rest.length ≤ i) →
          bd'.model.surfaces[i]? = bd.model.surfaces[i]? ∧
          ∀ k, bd'.model.side k i = bd.model.side k i := by
  intro rest
  induction rest with
  | nil =>
    intro j bd s _ _ _ hshape _
    exact ⟨bd, s, rfl, hshape, rfl, fun i hi => absurd hi (by simp),
      fun i _ => ⟨rfl, fun k => rfl⟩⟩
  | cons arr rest ih =>
    intro j bd s hmax hmat hcons hshape hclr
    simp only [List.length_cons] at hmax hmat hclr
    obtain ⟨bd1, s1, hrun1, hshape1, hcount1, hsurf1, hside1, hframe1⟩ :=
      bake_surface_slot env materials bake_tangents ortho_rotation tol j arr bd s
        (fun a ha => hcons a (by rw [← ha]; exact List.mem_cons_self _ _)) hshape (by omega)
        (hclr j (le_refl j) (by omega)) (by omega)
    have hclr1 : ∀ i, j + 1 ≤ i → i < j + 1 + rest.length → bd1.model.SlotCleared i := by
      intro i h1 h2
      obtain ⟨hs, hk⟩ := hframe1 i (by omega)
      obtain ⟨⟨mid, hmid⟩, hsides⟩ := hclr i (by omega) (by omega)
      exact ⟨⟨mid, by rw [hs]; exact hmid⟩, fun k hk' => by rw [hk k]; exact hsides k hk'⟩
    obtain ⟨bd2, s2, hrun2, hshape2, hcount2, hslots2, hframe2⟩ :=
      ih (j + 1) bd1 s1 (by omega) (by omega)
        (fun a ha => hcons a (List.mem_cons_of_mem _ ha)) hshape1 hclr1
    refine ⟨bd2, s2, ?_, hshape2, hcount2.trans hcount1, ?_, ?_⟩
    · simp only [bake_surfaces_from, Option.bind_eq_bind, hrun1, Option.some_bind, hrun2]
    · intro i hi
      cases i with
      | zero =>
        obtain ⟨hs, hk⟩ := hframe2 j (Or.inl (by omega))
        simp only [Nat.add_zero, List.getElem_cons_zero]
        exact ⟨by rw [hs]; exact hsurf1, fun k hk' => by rw [hk k]; exact hside1 k hk'⟩
      | succ i =>
        have hi' : i < rest.length := by simpa using hi
        have := hslots2 i hi'
        have e : j + (i + 1) = j + 1 + i := by omega
        simp only [List.getElem_cons_succ, e]
        exact this
    · intro i hi
      simp only [List.length_cons] at hi
      obtain ⟨hs2, hk2⟩ := hframe2 i (by omega)
      obtain ⟨hs1, hk1⟩ := hframe1 i (by omega)
      exact ⟨hs2.trans hs1, fun k => (hk2 k).trans (hk1 k)⟩

theorem Model.Cleared.slot {m : Model} (h : m.Cleared) {i : Nat} (hi : i < MAX_SURFACES) :
    m.SlotCleared i := by
  obtain ⟨hshape, hsurf, hsides⟩ := h
  have hlt : i < m.surfaces.length := by rw [hshape.1]; exact hi
  refine ⟨⟨m.surfaces[i].material_id, ?_⟩, ?_⟩
  · rw [List.getElem?_eq_getElem hlt]
    exact congrArg some (hsurf _ (List.getElem_mem hlt))
  · intro k hk
    have hkl : k < m.sides_surfaces.length := by rw [hshape.2.1]; exact hk
    have hcl : i < m.sides_surfaces[k].length := by
      rw [hshape.2.2 _ (List.getElem_mem hkl)]; exact hi
    rw [side_of_column (List.getElem?_eq_getElem hkl), List.getElem?_eq_getElem hcl]
    exact congrArg some (hsides _ (List.getElem_mem hkl) _ (List.getElem_mem hcl))

/-- The baked model after `bake_mesh_geometry` on a model without geometry:
every destination of every surface index in range holds the expected,
deduplicated geometry of its input surface. -/
theorem bake_mesh_geometry_spec {σ μ : Type} (env : Env σ μ)
    (surfaces : List (Option SurfaceArrays)) (materials : List μ) (baked_data : BakedModel)
    (bake_tangents : Bool) (material_indexer : σ) (ortho_rotation : Nat) (tol : ℚ)
    (hclr : baked_data.model.Cleared) (hmax : surfaces.length ≤ MAX_SURFACES)
    (hmat : surfaces.length ≤ materials.length)
    (hcons : SurfacesConsistent env bake_tangents surfaces) :
    ∃ bd' s', bake_mesh_geometry env surfaces materials baked_data bake_tangents
        material_indexer ortho_rotation tol = some (bd', s') ∧
      bd'.model.Shaped ∧
      ∀ i (hi : i < surfaces.length),
        (∃ mid, bd'.model.surfaces[i]? =
          some (slot_surface env bake_tangents ortho_rotation tol surfaces[i] mid)) ∧
        ∀ k, k < SIDE_COUNT → bd'.model.side k i =
          some (slot_side env bake_tangents ortho_rotation tol surfaces[i] k) := by
  have hclr' : ({ baked_data.model with surface_count := surfaces.length } : Model).Cleared :=
    hclr
  obtain ⟨bd', s', hrun, hshape, _, hslots, _⟩ := bake_surfaces_from_spec env materials
    bake_tangents ortho_rotation tol surfaces 0
    { baked_data with model := { baked_data.model with surface_count := surfaces.length } }
    material_indexer (by omega) (by omega) hcons hclr'.1
    (fun i _ hi => hclr'.slot (by omega))
  refine ⟨bd', s', hrun, hshape, fun i hi => ?_⟩
  have := hslots i hi
  simpa using this

/-! ## Routing -/

theorem classify_lt {cs : CubeSides} {tol : ℚ} {W : Working} {i0 i1 i2 : Int} {k : Nat}
    (h : classify cs tol W i0 i1 i2 = some k) : k < SIDE_COUNT :=
  get_triangle_side_lt h

theorem routed_length (cs : CubeSides) (tol : ℚ) (W : Working) :
    ∀ (indices : List Int) (d : Option Nat),
      (routed cs tol W indices d).length = 3 * routed_count cs tol W indices d
  | i0 :: i1 :: i2 :: rest, d => by
    have ih := routed_length cs tol W rest d
    simp only [routed, routed_count, List.length_append, ih]
    split
    · simp; omega
    · simp
  | [], d => by simp [routed, routed_count]
  | [_], d => by simp [routed, routed_count]
  | [_, _], d => by simp [routed, routed_count]

theorem routed_subset (cs : CubeSides) (tol : ℚ) (W : Working) :
    ∀ (indices : List Int) (d : Option Nat) (s : Int),
      s ∈ routed cs tol W indices d → s ∈ indices
  | i0 :: i1 :: i2 :: rest, d, s => by
    intro h
    simp only [routed, List.mem_append] at h
    rcases h with h | h
    · split at h
      · simp only [List.mem_cons, List.mem_singleton, List.not_mem_nil, or_false] at h
        rcases h with h | h | h <;> simp [h]
      · simp at h
    · have := routed_subset cs tol W rest d s h
      simp [this]
  | [], d, s => by simp [routed]
  | [_], d, s => by simp [routed]
  | [_, _], d, s => by simp [routed]

/-- The side index counts of one triangle add up to one. -/
theorem triangle_counted_once (c : Option Nat) (hc : ∀ k, c = some k → k < SIDE_COUNT) :
    (if c = none then 1 else 0) +
      ((List.range SIDE_COUNT).map (fun k => if c = some k then 1 else 0)).sum = 1 := by
  cases c with
  | none => simp
  | some k =>
    have hk := hc k rfl
    simp only [SIDE_COUNT] at hk ⊢
    interval_cases k <;> decide

theorem routed_count_total (cs : CubeSides) (tol : ℚ) (W : Working) :
    ∀ (indices : List Int),
      3 * (routed_count cs tol W indices none +
        ((List.range SIDE_COUNT).map (fun k => routed_count cs tol W indices (some k))).sum) =
      indices.length - indices.length % 3
  | i0 :: i1 :: i2 :: rest => by
    have ih := routed_count_total cs tol W rest
    have h1 := triangle_counted_once (classify cs tol W i0 i1 i2) (fun k hk => classify_lt hk)
    have hsum : ((List.range SIDE_COUNT).map
        (fun k => routed_count cs tol W (i0 :: i1 :: i2 :: rest) (some k))).sum =
        ((List.range SIDE_COUNT).map
          (fun k => if classify cs tol W i0 i1 i2 = some k then 1 else 0)).sum +
        ((List.range SIDE_COUNT).map (fun k => routed_count cs tol W rest (some k))).sum := by
      simp only [routed_count]
      rw [← List.sum_map_add]
    rw [hsum]
    simp only [routed_count, List.length_cons]
    omega
  | [] => by simp [routed_count]
  | [_] => by simp [routed_count]
  | [_, _] => by simp [routed_count]

/-! ## A baked surface -/

/-- What `bake_mesh_geometry` leaves at surface index `i` for a surface that
reaches the triangle loop: the expected geometry in the interior surface and in
each of the six side surfaces. -/
theorem baked_accepted_slot {σ μ : Type} (env : Env σ μ)
    (surfaces : List (Option SurfaceArrays)) (materials : List μ) (baked_data : BakedModel)
    (bake_tangents : Bool) (material_indexer : σ) (ortho_rotation : Nat) (tol : ℚ)
    (hclr : baked_data.model.Cleared) (hmax : surfaces.length ≤ MAX_SURFACES)
    (hmat : surfaces.length ≤ materials.length)
    (hcons : SurfacesConsistent env bake_tangents surfaces)
    (i : Nat) (arr : SurfaceArrays) (hi : surfaces[i]? = some (some arr))
    (hacc : Accepted env bake_tangents arr) :
    ∃ bd' s' W mid, bake_mesh_geometry env surfaces materials baked_data bake_tangents
        material_indexer ortho_rotation tol = some (bd', s') ∧
      working_arrays env bake_tangents ortho_rotation arr = some W ∧
      (∀ s ∈ arr.index, SrcOk W bake_tangents s) ∧
      bd'.model.surfaces[i]? =
        some (expected_surface W bake_tangents mid (routed env.sides tol W arr.index none)) ∧
      ∀ k, k < SIDE_COUNT → bd'.model.side k i =
        some (expected_side W bake_tangents (routed env.sides tol W arr.index (some k))) := by
  obtain ⟨hlt, hget⟩ := List.getElem?_eq_some.1 hi
  have hmem : some arr ∈ surfaces := hget ▸ List.getElem_mem hlt
  obtain ⟨W, hW, _, _, _, _, hok⟩ :=
    working_arrays_spec env bake_tangents ortho_rotation arr hacc (hcons arr hmem hacc)
  have hsw : slot_working env bake_tangents ortho_rotation (some arr) = some (W, arr.index) := by
    simp [slot_working, hacc, hW]
  obtain ⟨bd', s', hrun, _, hslots⟩ := bake_mesh_geometry_spec env surfaces materials baked_data
    bake_tangents material_indexer ortho_rotation tol hclr hmax hmat hcons
  obtain ⟨⟨mid, hsurf⟩, hsides⟩ := hslots i hlt
  rw [hget] at hsurf hsides
  refine ⟨bd', s', W, mid, hrun, hW, hok, ?_, ?_⟩
  · rw [hsurf]; simp only [slot_surface, hsw]
  · intro k hk
    rw [hsides k hk]; simp only [slot_side, hsw]

/-! ## Claims on routing and deduplication -/

/-- C4: for a surface that `bake_mesh_geometry` bakes into a cleared model, the
index count of the interior surface is three times the number of triangles the
classifier puts on no side, the index count of each side surface is three times
the number of triangles the classifier puts on that side, every triangle is
counted for exactly one of these seven destinations, and the seven index counts
add up to the source index count. -/
theorem C4_each_triangle_in_one_destination {σ μ : Type} (env : Env σ μ)
    (surfaces : List (Option SurfaceArrays)) (materials : List μ) (baked_data : BakedModel)
    (bake_tangents : Bool) (material_indexer : σ) (ortho_rotation : Nat) (tol : ℚ)
    (hclr : baked_data.model.Cleared) (hmax : surfaces.length ≤ MAX_SURFACES)
    (hmat : surfaces.length ≤ materials.length)
    (hcons : SurfacesConsistent env bake_tangents surfaces)
    (i : Nat) (arr : SurfaceArrays) (hi : surfaces[i]? = some (some arr))
    (hacc : Accepted env bake_tangents arr) :
    ∃ bd' s' W surface, bake_mesh_geometry env surfaces materials baked_data bake_tangents
        material_indexer ortho_rotation tol = some (bd', s') ∧
      working_arrays env bake_tangents ortho_rotation arr = some W ∧
      bd'.model.surfaces[i]? = some surface ∧
      surface.indices.length = 3 * routed_count env.sides tol W arr.index none ∧
      (∀ k, k < SIDE_COUNT → ∃ side_surface, bd'.model.side k i = some side_surface ∧
        side_surface.indices.length = 3 * routed_count env.sides tol W arr.index (some k)) ∧
      3 * (routed_count env.sides tol W arr.index none +
        ((List.range SIDE_COUNT).map
          (fun k => routed_count env.sides tol W arr.index (some k))).sum) = arr.index.length ∧
      surface.indices.length +
        ((List.range SIDE_COUNT).map
          (fun k => ((bd'.model.side k i).map (fun s => s.indices.length)).getD 0)).sum =
        arr.index.length := by
  obtain ⟨bd', s', W, mid, hrun, hW, _, hsurf, hsides⟩ := baked_accepted_slot env surfaces
    materials baked_data bake_tangents material_indexer ortho_rotation tol hclr hmax hmat hcons
    i arr hi hacc
  have htotal := routed_count_total env.sides tol W arr.index
  rw [hacc.2.1, Nat.sub_zero] at htotal
  have hsidelen : ∀ k, (expected_side W bake_tangents
      (routed env.sides tol W arr.index (some k))).indices.length =
      3 * routed_count env.sides tol W arr.index (some k) := by
    intro k
    simp [expected_side, routed_length]
  refine ⟨bd', s', W, _, hrun, hW, hsurf, ?_, ?_, htotal, ?_⟩
  · simp [expected_surface, routed_length]
  · intro k hk
    exact ⟨_, hsides k hk, hsidelen k⟩
  · have hmap : (List.range SIDE_COUNT).map
        (fun k => ((bd'.model.side k i).map (fun s => s.indices.length)).getD 0) =
        (List.range SIDE_COUNT).map
          (fun k => 3 * routed_count env.sides tol W arr.index (some k)) := by
      apply List.map_congr_left
      intro k hk
      rw [hsides k (List.mem_range.1 hk), Option.map_some', Option.getD_some, hsidelen k]
    rw [hmap, List.sum_map_mul_left]
    have : (expected_surface W bake_tangents mid
        (routed env.sides tol W arr.index none)).indices.length =
        3 * routed_count env.sides tol W arr.index none := by
      simp [expected_surface, routed_length]
    rw [this, ← htotal]
    ring

theorem clear_Cleared (b : BakedModel) : b.clear.model.Cleared := by
  refine ⟨⟨by simp [BakedModel.clear], by simp [BakedModel.clear], ?_⟩, ?_, ?_⟩
  · intro column hcol
    simp only [BakedModel.clear] at hcol
    rw [List.eq_of_mem_replicate hcol]
    simp
  · intro s hs
    simp only [BakedModel.clear, List.mem_map] at hs
    obtain ⟨_, _, rfl⟩ := hs
    rfl
  · intro column hcol s hs
    simp only [BakedModel.clear] at hcol
    rw [List.eq_of_mem_replicate hcol] at hs
    exact List.eq_of_mem_replicate hs

theorem example_surface_consistent (bake_tangents : Bool) (hb : bake_tangents = false) :
    SurfacesConsistent example_env bake_tangents [some example_surface] := by
  intro arr harr
  simp only [List.mem_singleton, Option.some.injEq] at harr
  subst harr hb
  decide

/-- Witness of C4: the example surface, baked alone, has its nine indices split
over the interior surface and the six side surfaces. -/
theorem C4_each_triangle_in_one_destination_witness :
    ∃ bd' s' W surface, bake_mesh_geometry example_env [some example_surface] [7]
        example_cleared false [] 0 (1 / 1000) = some (bd', s') ∧
      working_arrays example_env false 0 example_surface = some W ∧
      bd'.model.surfaces[0]? = some surface ∧
      surface.indices.length =
        3 * routed_count example_env.sides (1 / 1000) W example_surface.index none ∧
      (∀ k, k < SIDE_COUNT → ∃ side_surface, bd'.model.side k 0 = some side_surface ∧
        side_surface.indices.length =
          3 * routed_count example_env.sides (1 / 1000) W example_surface.index (some k)) ∧
      3 * (routed_count example_env.sides (1 / 1000) W example_surface.index none +
        ((List.range SIDE_COUNT).map
          (fun k => routed_count example_env.sides (1 / 1000) W example_surface.index
            (some k))).sum) = example_surface.index.length ∧
      surface.indices.length +
        ((List.range SIDE_COUNT).map
          (fun k => ((bd'.model.side k 0).map (fun s => s.indices.length)).getD 0)).sum =
        example_surface.index.length :=
  C4_each_triangle_in_one_destination example_env [some example_surface] [7] example_cleared
    false [] 0 (1 / 1000) (clear_Cleared _) (by decide) (by decide)
    (example_surface_consistent false rfl) 0 example_surface rfl (by decide)

/-! ## Reading a destination back -/

theorem at?_natCast {α : Type} (xs : List α) (n : Nat) : at? xs (n : Int) = xs[n]? := by
  unfold at?
  rw [if_neg (by omega)]
  simp

theorem at?_map_indexOf {α : Type} (f : Int → α) (keys : List Int) {s : Int} (hs : s ∈ keys) :
    at? (keys.map f) ((keys.indexOf s : Nat) : Int) = some (f s) := by
  have hlt : keys.indexOf s < keys.length := List.indexOf_lt_length.2 hs
  rw [at?_natCast, List.getElem?_map, List.getElem?_eq_getElem hlt, Option.map_some',
    List.getElem_indexOf hlt]

theorem tangent_at_natCast (ts : List ℚ) (n : Nat) :
    tangent_at ts (n : Int) =
      (ts[4 * n]?).bind (fun t0 => (ts[4 * n + 1]?).bind (fun t1 => (ts[4 * n + 2]?).bind
        (fun t2 => (ts[4 * n + 3]?).bind (fun t3 => some [t0, t1, t2, t3])))) := by
  unfold tangent_at
  have e0 : ((n : Int) * 4) = ((4 * n : Nat) : Int) := by push_cast; ring
  have e1 : (((4 * n : Nat) : Int) + 1) = ((4 * n + 1 : Nat) : Int) := by push_cast; ring
  have e2 : (((4 * n : Nat) : Int) + 2) = ((4 * n + 2 : Nat) : Int) := by push_cast; ring
  have e3 : (((4 * n : Nat) : Int) + 3) = ((4 * n + 3 : Nat) : Int) := by push_cast; ring
  simp only [Option.bind_eq_bind, Option.pure_def]
  rw [e0, e1, e2, e3]
  simp only [at?_natCast]

theorem tangent_at_length {ts : List ℚ} {s : Int} {t : List ℚ} (h : tangent_at ts s = some t) :
    t.length = 4 := by
  unfold tangent_at at h
  simp only [Option.bind_eq_bind, Option.pure_def] at h
  cases h0 : at? ts (s * 4) with
  | none => rw [h0] at h; exact Option.noConfusion h
  | some t0 =>
    rw [h0, Option.some_bind] at h
    cases h1 : at? ts (s * 4 + 1) with
    | none => rw [h1] at h; exact Option.noConfusion h
    | some t1 =>
      rw [h1, Option.some_bind] at h
      cases h2 : at? ts (s * 4 + 2) with
      | none => rw [h2] at h; exact Option.noConfusion h
      | some t2 =>
        rw [h2, Option.some_bind] at h
        cases h3 : at? ts (s * 4 + 3) with
        | none => rw [h3] at h; exact Option.noConfusion h
        | some t3 =>
          rw [h3, Option.some_bind] at h
          rw [← Option.some.inj h]
          rfl

theorem tangent_at_flatMap_indexOf (g : Int → List ℚ) :
    ∀ (keys : List Int), (∀ k ∈ keys, (g k).length = 4) → ∀ {s : Int}, s ∈ keys →
      tangent_at (keys.flatMap g) ((keys.indexOf s : Nat) : Int) = some (g s) := by
  intro keys
  induction keys with
  | nil => intro _ s hs; simp at hs
  | cons k rest ih =>
    intro hlen s hs
    have hk := hlen k (List.mem_cons_self _ _)
    obtain ⟨a, b, c, d, hg⟩ : ∃ a b c d, g k = [a, b, c, d] := by
      match hgk : g k, hk with
      | [a, b, c, d], _ => exact ⟨a, b, c, d, rfl⟩
    by_cases hks : k = s
    · subst hks
      rw [List.indexOf_cons_self, tangent_at_natCast, List.flatMap_cons, hg]
      simp
    · have hs' : s ∈ rest := by
        rcases List.mem_cons.1 hs with h | h
        · exact absurd h.symm hks
        · exact h
      rw [List.indexOf_cons_ne _ hks, tangent_at_natCast, List.flatMap_cons, hg]
      have := ih (fun k' hk' => hlen k' (List.mem_cons_of_mem _ hk')) hs'
      rw [tangent_at_natCast] at this
      rw [← this]
      have shift : ∀ j : Nat, ([a, b, c, d] ++ rest.flatMap g)[4 * (List.indexOf s rest).succ + j]? =
          (rest.flatMap g)[4 * List.indexOf s rest + j]? := by
        intro j
        have e : 4 * (List.indexOf s rest).succ + j = 4 * List.indexOf s rest + j + 3 + 1 := by
          omega
        rw [e]
        simp only [List.cons_append, List.nil_append, List.getElem?_cons_succ]
      have h0 := shift 0
      simp only [Nat.add_zero] at h0
      rw [h0, shift 1, shift 2, shift 3]

theorem tangent_of_SrcOk {W : Working} {s : Int} (h : SrcOk W true s) :
    tangent_at W.tangents s = some (W.tangent s) ∧ (W.tangent s).length = 4 := by
  have e : tangent_at W.tangents s = some (W.tangent s) := getD_of_isSome (h.2.2.2 rfl) _
  exact ⟨e, tangent_at_length e⟩

theorem expected_side_reads_back (W : Working) (bake_tangents : Bool) (srcs : List Int)
    (hok : ∀ s ∈ srcs, SrcOk W bake_tangents s) :
    side_reads_back W bake_tangents (expected_side W bake_tangents srcs) srcs := by
  refine ⟨by simp [expected_side], ?_⟩
  intro n hn
  have hsrc : srcs[n] ∈ srcs := List.getElem_mem hn
  have hkey : srcs[n] ∈ distinct_sources srcs := mem_distinct_sources.2 hsrc
  have hs := hok _ hsrc
  refine ⟨(((distinct_sources srcs).indexOf srcs[n] : Nat) : Int), ?_, ?_, ?_, ?_⟩
  · simp [expected_side, List.getElem?_eq_getElem hn]
  · exact ⟨W.position srcs[n], at?_map_indexOf _ _ hkey, position_of_SrcOk hs⟩
  · exact ⟨W.uv srcs[n], at?_map_indexOf _ _ hkey, getD_of_isSome hs.2.2.1 _⟩
  · intro hb
    subst hb
    refine ⟨W.tangent srcs[n], ?_, (tangent_of_SrcOk hs).1⟩
    simp only [expected_side, if_true]
    exact tangent_at_flatMap_indexOf W.tangent _
      (fun k hk => (tangent_of_SrcOk (hok k (mem_distinct_sources.1 hk))).2) hkey

theorem expected_surface_reads_back (W : Working) (bake_tangents : Bool) (material_id : Nat)
    (srcs : List Int) (hok : ∀ s ∈ srcs, SrcOk W bake_tangents s) :
    surface_reads_back W bake_tangents (expected_surface W bake_tangents material_id srcs)
      srcs := by
  refine ⟨by simp [expected_surface], ?_⟩
  intro n hn
  have hsrc : srcs[n] ∈ srcs := List.getElem_mem hn
  have hkey : srcs[n] ∈ distinct_sources srcs := mem_distinct_sources.2 hsrc
  have hs := hok _ hsrc
  refine ⟨(((distinct_sources srcs).indexOf srcs[n] : Nat) : Int), ?_, ?_, ?_, ?_, ?_⟩
  · simp [expected_surface, List.getElem?_eq_getElem hn]
  · exact ⟨W.position srcs[n], at?_map_indexOf _ _ hkey, position_of_SrcOk hs⟩
  · exact ⟨W.normal srcs[n], at?_map_indexOf _ _ hkey, getD_of_isSome hs.2.1 _⟩
  · exact ⟨W.uv srcs[n], at?_map_indexOf _ _ hkey, getD_of_isSome hs.2.2.1 _⟩
  · intro hb
    subst hb
    refine ⟨W.tangent srcs[n], ?_, (tangent_of_SrcOk hs).1⟩
    simp only [expected_surface, if_true]
    exact tangent_at_flatMap_indexOf W.tangent _
      (fun k hk => (tangent_of_SrcOk (hok k (mem_distinct_sources.1 hk))).2) hkey

/-- C5: for a surface that `bake_mesh_geometry` bakes into a cleared model, the
working arrays `W` of the triangle loop are the rotated positions, normals and
(supplied) tangents and the UVs of the source surface, and for the interior
surface and each of the six side surfaces, reading the index buffer in order
and looking each index up in the destination's positions and uvs (normals for
the interior surface, the four tangent floats at 4 * index when tangents are
baked) gives exactly the working position, UV, normal and tangent of the source
indices of the triangles routed to that destination, in source order. -/
theorem C5_baked_geometry_reads_back {σ μ : Type} (env : Env σ μ)
    (surfaces : List (Option SurfaceArrays)) (materials : List μ) (baked_data : BakedModel)
    (bake_tangents : Bool) (material_indexer : σ) (ortho_rotation : Nat) (tol : ℚ)
    (hclr : baked_data.model.Cleared) (hmax : surfaces.length ≤ MAX_SURFACES)
    (hmat : surfaces.length ≤ materials.length)
    (hcons : SurfacesConsistent env bake_tangents surfaces)
    (i : Nat) (arr : SurfaceArrays) (hi : surfaces[i]? = some (some arr))
    (hacc : Accepted env bake_tangents arr) :
    ∃ bd' s' W surface, bake_mesh_geometry env surfaces materials baked_data bake_tangents
        material_indexer ortho_rotation tol = some (bd', s') ∧
      working_arrays env bake_tangents ortho_rotation arr = some W ∧
      W.positions = (rotation_step env ortho_rotation arr.vertex arr.normal arr.tangent).1 ∧
      W.normals = (rotation_step env ortho_rotation arr.vertex arr.normal arr.tangent).2.1 ∧
      W.uvs = (if arr.tex_uv.length = 0 then
          List.replicate arr.vertex.length (⟨0, 0⟩ : Vector2f) else arr.tex_uv) ∧
      (arr.tangent.length ≠ 0 → W.tangents =
        (rotation_step env ortho_rotation arr.vertex arr.normal arr.tangent).2.2) ∧
      bd'.model.surfaces[i]? = some surface ∧
      surface_reads_back W bake_tangents surface (routed env.sides tol W arr.index none) ∧
      ∀ k, k < SIDE_COUNT → ∃ side_surface, bd'.model.side k i = some side_surface ∧
        side_reads_back W bake_tangents side_surface
          (routed env.sides tol W arr.index (some k)) := by
  obtain ⟨bd', s', W, mid, hrun, hW, hok, hsurf, hsides⟩ := baked_accepted_slot env surfaces
    materials baked_data bake_tangents material_indexer ortho_rotation tol hclr hmax hmat hcons
    i arr hi hacc
  obtain ⟨hlt, hget⟩ := List.getElem?_eq_some.1 hi
  have hmem : some arr ∈ surfaces := hget ▸ List.getElem_mem hlt
  obtain ⟨W', hW', hp, hn, hu, ht, _⟩ :=
    working_arrays_spec env bake_tangents ortho_rotation arr hacc (hcons arr hmem hacc)
  have hWW : W' = W := Option.some.inj (hW'.symm.trans hW)
  subst hWW
  have hrouted : ∀ d, ∀ s ∈ routed env.sides tol W' arr.index d, SrcOk W' bake_tangents s :=
    fun d s hs => hok s (routed_subset env.sides tol W' arr.index d s hs)
  refine ⟨bd', s', W', _, hrun, hW, hp, hn, hu, ht, hsurf,
    expected_surface_reads_back W' bake_tangents mid _ (hrouted none), ?_⟩
  intro k hk
  exact ⟨_, hsides k hk, expected_side_reads_back W' bake_tangents _ (hrouted (some k))⟩

theorem example_lit_surface_consistent (bake_tangents : Bool) :
    SurfacesConsistent example_env bake_tangents [some example_lit_surface] := by
  intro arr harr
  simp only [List.mem_singleton, Option.some.injEq] at harr
  subst harr
  cases bake_tangents <;> decide

/-- Witness of C5: the example surface with UVs and tangents, baked alone with
tangent baking enabled, reads back from every destination. -/
theorem C5_baked_geometry_reads_back_witness :
    ∃ bd' s' W surface, bake_mesh_geometry example_env [some example_lit_surface] [7]
        example_cleared true [] 0 (1 / 1000) = some (bd', s') ∧
      working_arrays example_env true 0 example_lit_surface = some W ∧
      W.positions = (rotation_step example_env 0 example_lit_surface.vertex
        example_lit_surface.normal example_lit_surface.tangent).1 ∧
      W.normals = (rotation_step example_env 0 example_lit_surface.vertex
        example_lit_surface.normal example_lit_surface.tangent).2.1 ∧
      W.uvs = (if example_lit_surface.tex_uv.length = 0 then
          List.replicate example_lit_surface.vertex.length (⟨0, 0⟩ : Vector2f)
        else example_lit_surface.tex_uv) ∧
      (example_lit_surface.tangent.length ≠ 0 → W.tangents =
        (rotation_step example_env 0 example_lit_surface.vertex example_lit_surface.normal
          example_lit_surface.tangent).2.2) ∧
      bd'.model.surfaces[0]? = some surface ∧
      surface_reads_back W true surface
        (routed example_env.sides (1 / 1000) W example_lit_surface.index none) ∧
      ∀ k, k < SIDE_COUNT → ∃ side_surface, bd'.model.side k 0 = some side_surface ∧
        side_reads_back W true side_surface
          (routed example_env.sides (1 / 1000) W example_lit_surface.index (some k)) :=
  C5_baked_geometry_reads_back example_env [some example_lit_surface] [7] example_cleared
    true [] 0 (1 / 1000) (clear_Cleared _) (by decide) (by decide)
    (example_lit_surface_consistent true) 0 example_lit_surface rfl (by decide)

theorem distinct_sources_length (srcs : List Int) :
    (distinct_sources srcs).length = srcs.toFinset.card := by
  rw [← List.toFinset_card_of_nodup (distinct_sources_nodup srcs)]
  congr 1
  ext x
  simp [mem_distinct_sources]

theorem expected_dedup_exact (srcs : List Int) :
    dedup_exact ((distinct_sources srcs).map (fun _ => (⟨0, 0, 0⟩ : Vector3f)))
      (srcs.map (fun s => (((distinct_sources srcs).indexOf s : Nat) : Int))) srcs := by
  refine ⟨by simp [distinct_sources_length], by simp, ?_⟩
  intro n1 n2 h1 h2
  have hk1 : srcs[n1] ∈ distinct_sources srcs := mem_distinct_sources.2 (List.getElem_mem h1)
  have hk2 : srcs[n2] ∈ distinct_sources srcs := mem_distinct_sources.2 (List.getElem_mem h2)
  simp only [List.getElem?_map, List.getElem?_eq_getElem h1, List.getElem?_eq_getElem h2,
    Option.map_some', Option.some.injEq, Nat.cast_inj]
  exact List.indexOf_inj hk1 hk2

theorem expected_side_dedup_exact (W : Working) (bake_tangents : Bool) (srcs : List Int) :
    dedup_exact (expected_side W bake_tangents srcs).positions
      (expected_side W bake_tangents srcs).indices srcs := by
  have h := expected_dedup_exact srcs
  refine ⟨?_, h.2.1, h.2.2⟩
  simp [expected_side, distinct_sources_length]

theorem expected_surface_dedup_exact (W : Working) (bake_tangents : Bool) (material_id : Nat)
    (srcs : List Int) :
    dedup_exact (expected_surface W bake_tangents material_id srcs).positions
      (expected_surface W bake_tangents material_id srcs).indices srcs := by
  have h := expected_dedup_exact srcs
  refine ⟨?_, h.2.1, h.2.2⟩
  simp [expected_surface, distinct_sources_length]

/-- C6: for a surface that `bake_mesh_geometry` bakes into a cleared model, in
the interior surface and in each of the six side surfaces the number of
vertices equals the number of distinct source indices in the triangles routed
to that destination, and two entries of the destination's index buffer are
equal exactly when they come from the same source index; the interior surface
stores one normal and one UV, a side surface one UV, per vertex. -/
theorem C6_deduplication_exact {σ μ : Type} (env : Env σ μ)
    (surfaces : List (Option SurfaceArrays)) (materials : List μ) (baked_data : BakedModel)
    (bake_tangents : Bool) (material_indexer : σ) (ortho_rotation : Nat) (tol : ℚ)
    (hclr : baked_data.model.Cleared) (hmax : surfaces.length ≤ MAX_SURFACES)
    (hmat : surfaces.length ≤ materials.length)
    (hcons : SurfacesConsistent env bake_tangents surfaces)
    (i : Nat) (arr : SurfaceArrays) (hi : surfaces[i]? = some (some arr))
    (hacc : Accepted env bake_tangents arr) :
    ∃ bd' s' W surface, bake_mesh_geometry env surfaces materials baked_data bake_tangents
        material_indexer ortho_rotation tol = some (bd', s') ∧
      working_arrays env bake_tangents ortho_rotation arr = some W ∧
      bd'.model.surfaces[i]? = some surface ∧
      dedup_exact surface.positions surface.indices (routed env.sides tol W arr.index none) ∧
      surface.normals.length = surface.positions.length ∧
      surface.uvs.length = surface.positions.length ∧
      ∀ k, k < SIDE_COUNT → ∃ side_surface, bd'.model.side k i = some side_surface ∧
        dedup_exact side_surface.positions side_surface.indices
          (routed env.sides tol W arr.index (some k)) ∧
        side_surface.uvs.length = side_surface.positions.length := by
  obtain ⟨bd', s', W, mid, hrun, hW, _, hsurf, hsides⟩ := baked_accepted_slot env surfaces
    materials baked_data bake_tangents material_indexer ortho_rotation tol hclr hmax hmat hcons
    i arr hi hacc
  refine ⟨bd', s', W, _, hrun, hW, hsurf, expected_surface_dedup_exact W bake_tangents mid _,
    by simp [expected_surface], by simp [expected_surface], ?_⟩
  intro k hk
  exact ⟨_, hsides k hk, expected_side_dedup_exact W bake_tangents _, by simp [expected_side]⟩

/-- Witness of C6: the example surface baked alone. -/
theorem C6_deduplication_exact_witness :
    ∃ bd' s' W surface, bake_mesh_geometry example_env [some example_surface] [7]
        example_cleared false [] 0 (1 / 1000) = some (bd', s') ∧
      working_arrays example_env false 0 example_surface = some W ∧
      bd'.model.surfaces[0]? = some surface ∧
      dedup_exact surface.positions surface.indices
        (routed example_env.sides (1 / 1000) W example_surface.index none) ∧
      surface.normals.length = surface.positions.length ∧
      surface.uvs.length = surface.positions.length ∧
      ∀ k, k < SIDE_COUNT → ∃ side_surface, bd'.model.side k 0 = some side_surface ∧
        dedup_exact side_surface.positions side_surface.indices
          (routed example_env.sides (1 / 1000) W example_surface.index (some k)) ∧
        side_surface.uvs.length = side_surface.positions.length :=
  C6_deduplication_exact example_env [some example_surface] [7] example_cleared
    false [] 0 (1 / 1000) (clear_Cleared _) (by decide) (by decide)
    (example_surface_consistent false rfl) 0 example_surface rfl (by decide)

/-! ## Claims on rejected surfaces -/

/-- C8: for `vertex_count >= 0`, `validate_indices` returns true exactly when
every index `i` satisfies `0 <= i < vertex_count`; and when it returns false
for a surface, the pass of the surface loop for that surface returns the baked
model and the indexer as they were: no vertex and no index is added to any
destination. -/
theorem C8_invalid_index_rejected {σ μ : Type} (indices : List Int) (vertex_count : Int)
    (h : 0 ≤ vertex_count) :
    (validate_indices indices vertex_count = true ↔
      ∀ i ∈ indices, 0 ≤ i ∧ i < vertex_count) ∧
    ∀ (env : Env σ μ) (materials : List μ) (bake_tangents : Bool) (ortho_rotation : Nat)
      (tol : ℚ) (surface_index : Nat) (arr : SurfaceArrays) (baked_data : BakedModel)
      (material_indexer : σ),
      arr.index = indices → (arr.vertex.length : Int) = vertex_count →
      validate_indices indices vertex_count = false →
      bake_surface env materials bake_tangents ortho_rotation tol surface_index (some arr)
        baked_data material_indexer = some (baked_data, material_indexer) := by
  refine ⟨validate_indices_iff indices vertex_count h, ?_⟩
  intro env materials bake_tangents ortho_rotation tol surface_index arr baked_data
    material_indexer hidx hcount hfalse
  apply bake_surface_not_validated
  rintro ⟨_, _, h3⟩
  rw [hidx, hcount, hfalse] at h3
  exact Bool.noConfusion h3

/-- Witness of C8: index 5 is out of range for three positions, and the surface
is skipped without any call of the indexer. -/
theorem C8_invalid_index_rejected_witness :
    (validate_indices [0, 1, 5] 3 = true ↔ ∀ i ∈ [0, 1, 5], (0 : Int) ≤ i ∧ i < 3) ∧
    bake_surface counting_env [7] false 0 (1 / 1000) 0
      (some { short_uv_surface with index := [0, 1, 5] }) example_cleared 0 =
      some (example_cleared, 0) :=
  ⟨(C8_invalid_index_rejected (σ := Nat) (μ := Nat) [0, 1, 5] 3 (by decide)).1,
    (C8_invalid_index_rejected [0, 1, 5] 3 (by decide)).2 counting_env [7] false 0 (1 / 1000) 0
      { short_uv_surface with index := [0, 1, 5] } example_cleared 0 rfl rfl (by decide)⟩

/-- C9: a surface with an empty index buffer, an index count that is not a
multiple of 3, no normals, or a normal count different from its position count
is skipped: the pass of the surface loop for it returns the model (interior and
side surfaces of every surface index, material ids included) unchanged, and the
indexer state unchanged whatever `get_or_create_index` does, so the indexer is
not called. -/
theorem C9_malformed_surface_skipped {σ μ : Type} (env : Env σ μ) (materials : List μ)
    (bake_tangents : Bool) (ortho_rotation : Nat) (tol : ℚ) (surface_index : Nat)
    (arr : SurfaceArrays) (baked_data : BakedModel) (material_indexer : σ)
    (hbad : arr.index.length = 0 ∨ arr.index.length % 3 ≠ 0 ∨ arr.normal.length = 0 ∨
      arr.normal.length ≠ arr.vertex.length) :
    ∃ bd', bake_surface env materials bake_tangents ortho_rotation tol surface_index (some arr)
        baked_data material_indexer = some (bd', material_indexer) ∧
      bd'.model = baked_data.model ∧
      bd'.cutout_sides_enabled = baked_data.cutout_sides_enabled := by
  have hacc : ¬ Accepted env bake_tangents arr := by
    rintro ⟨h1, h2, _, h4, h5, _⟩
    rcases hbad with h | h | h | h
    · exact h1 h
    · exact h h2
    · exact h4 h
    · exact h h5.symm
  by_cases hv : Validated arr
  · exact ⟨_, bake_surface_validated_not_accepted env materials bake_tangents ortho_rotation
      tol surface_index arr baked_data material_indexer hv hacc, rfl, rfl⟩
  · exact ⟨_, bake_surface_not_validated env materials bake_tangents ortho_rotation
      tol surface_index arr baked_data material_indexer hv, rfl, rfl⟩

/-- Witness of C9: a surface without normals is skipped, and the indexer that
counts its calls still shows none. -/
theorem C9_malformed_surface_skipped_witness :
    ∃ bd', bake_surface counting_env [7] false 0 (1 / 1000) 0
        (some { example_surface with normal := [] }) example_cleared 0 = some (bd', 0) ∧
      bd'.model = example_cleared.model ∧
      bd'.cutout_sides_enabled = example_cleared.cutout_sides_enabled :=
  C9_malformed_surface_skipped counting_env [7] false 0 (1 / 1000) 0
    { example_surface with normal := [] } example_cleared 0 (Or.inr (Or.inr (Or.inl rfl)))

/-! ## Claim on the independence of the surfaces -/

theorem slot_surface_geometry {σ μ : Type} (env : Env σ μ) (bake_tangents : Bool)
    (ortho_rotation : Nat) (tol : ℚ) (arrays : Option SurfaceArrays) (mid mid' : Nat) :
    (slot_surface env bake_tangents ortho_rotation tol arrays mid).positions =
      (slot_surface env bake_tangents ortho_rotation tol arrays mid').positions ∧
    (slot_surface env bake_tangents ortho_rotation tol arrays mid).normals =
      (slot_surface env bake_tangents ortho_rotation tol arrays mid').normals ∧
    (slot_surface env bake_tangents ortho_rotation tol arrays mid).uvs =
      (slot_surface env bake_tangents ortho_rotation tol arrays mid').uvs ∧
    (slot_surface env bake_tangents ortho_rotation tol arrays mid).tangents =
      (slot_surface env bake_tangents ortho_rotation tol arrays mid').tangents ∧
    (slot_surface env bake_tangents ortho_rotation tol arrays mid).indices =
      (slot_surface env bake_tangents ortho_rotation tol arrays mid').indices := by
  unfold slot_surface
  cases slot_working env bake_tangents ortho_rotation arrays with
  | none => exact ⟨rfl, rfl, rfl, rfl, rfl⟩
  | some p => exact ⟨rfl, rfl, rfl, rfl, rfl⟩

/-- C10, as stated, fails: with the same first surface and the same
configuration, the bake of a list whose second surface is absent produces the
quad of the first surface on side 0, while the bake of a list whose second
surface has a UV array with one entry for three positions reads `uvs[1]`
outside that array and aborts, producing no geometry for the first surface
either. -/
theorem C10_counterexample :
    (bake_mesh_geometry example_env [some example_surface, none] [7, 7] example_cleared
        false [] 0 (1 / 1000)).map
      (fun r => (r.1.model.side 0 0).map (fun s => s.indices)) =
      some (some [0, 1, 2, 0, 2, 3]) ∧
    bake_mesh_geometry example_env [some example_surface, some short_uv_surface] [7, 7]
      example_cleared false [] 0 (1 / 1000) = none := by
  constructor <;> decide!

/-- C10, amended: for two lists of at most `MAX_SURFACES` surfaces baked into
cleared models with the same configuration, in which every surface that reaches
the triangle loop is read inside its arrays (a supplied UV array has an entry
for each of its indices; when tangents are baked the tangent array has four
floats for each of its indices, or is absent in a build that generates
tangents), both bakes complete, and if the two lists have the same surface at
index `i` then the interior surface at `i` has the same positions, normals,
uvs, tangents and indices in both results and each of the six side surfaces at
`i` is the same in both results, whatever the other surfaces (valid or skipped
by a guard), the materials and the indexer states are. -/
theorem C10_surface_geometry_independent {σ μ : Type} (env : Env σ μ)
    (surfaces surfaces' : List (Option SurfaceArrays)) (materials materials' : List μ)
    (baked_data baked_data' : BakedModel) (bake_tangents : Bool)
    (material_indexer material_indexer' : σ) (ortho_rotation : Nat) (tol : ℚ)
    (hclr : baked_data.model.Cleared) (hclr' : baked_data'.model.Cleared)
    (hmax : surfaces.length ≤ MAX_SURFACES) (hmax' : surfaces'.length ≤ MAX_SURFACES)
    (hmat : surfaces.length ≤ materials.length) (hmat' : surfaces'.length ≤ materials'.length)
    (hcons : SurfacesConsistent env bake_tangents surfaces)
    (hcons' : SurfacesConsistent env bake_tangents surfaces')
    (i : Nat) (hi : i < surfaces.length) (hi' : i < surfaces'.length)
    (hsame : surfaces[i] = surfaces'[i]) :
    ∃ r r', bake_mesh_geometry env surfaces materials baked_data bake_tangents
        material_indexer ortho_rotation tol = some r ∧
      bake_mesh_geometry env surfaces' materials' baked_data' bake_tangents
        material_indexer' ortho_rotation tol = some r' ∧
      (∃ a a', r.1.model.surfaces[i]? = some a ∧ r'.1.model.surfaces[i]? = some a' ∧
        a.positions = a'.positions ∧ a.normals = a'.normals ∧ a.uvs = a'.uvs ∧
        a.tangents = a'.tangents ∧ a.indices = a'.indices) ∧
      ∀ k, k < SIDE_COUNT → ∃ b, r.1.model.side k i = some b ∧ r'.1.model.side k i = some b := by
  obtain ⟨bd1, s1, hrun1, _, hslots1⟩ := bake_mesh_geometry_spec env surfaces materials
    baked_data bake_tangents material_indexer ortho_rotation tol hclr hmax hmat hcons
  obtain ⟨bd2, s2, hrun2, _, hslots2⟩ := bake_mesh_geometry_spec env surfaces' materials'
    baked_data' bake_tangents material_indexer' ortho_rotation tol hclr' hmax' hmat' hcons'
  obtain ⟨⟨mid1, hsurf1⟩, hsides1⟩ := hslots1 i hi
  obtain ⟨⟨mid2, hsurf2⟩, hsides2⟩ := hslots2 i hi'
  rw [← hsame] at hsurf2 hsides2
  obtain ⟨e1, e2, e3, e4, e5⟩ := slot_surface_geometry env bake_tangents ortho_rotation tol
    surfaces[i] mid1 mid2
  exact ⟨(bd1, s1), (bd2, s2), hrun1, hrun2, ⟨_, _, hsurf1, hsurf2, e1, e2, e3, e4, e5⟩,
    fun k hk => ⟨_, hsides1 k hk, hsides2 k hk⟩⟩

/-- Witness of C10 (amended): the example surface gives the same geometry at
index 0 whether it is followed by a surface without normals or by the example
surface with UVs and tangents. -/
theorem C10_surface_geometry_independent_witness :
    ∃ r r', bake_mesh_geometry example_env
        [some example_surface, some { example_surface with normal := [] }] [7, 8]
        example_cleared false [] 0 (1 / 1000) = some r ∧
      bake_mesh_geometry example_env [some example_surface, some example_lit_surface] [3, 3]
        example_cleared false [5] 0 (1 / 1000) = some r' ∧
      (∃ a a', r.1.model.surfaces[0]? = some a ∧ r'.1.model.surfaces[0]? = some a' ∧
        a.positions = a'.positions ∧ a.normals = a'.normals ∧ a.uvs = a'.uvs ∧
        a.tangents = a'.tangents ∧ a.indices = a'.indices) ∧
      ∀ k, k < SIDE_COUNT → ∃ b, r.1.model.side k 0 = some b ∧ r'.1.model.side k 0 = some b :=
  C10_surface_geometry_independent example_env
    [some example_surface, some { example_surface with normal := [] }]
    [some example_surface, some example_lit_surface] [7, 8] [3, 3] example_cleared
    example_cleared false [] [5] 0 (1 / 1000) (clear_Cleared _) (clear_Cleared _)
    (by decide) (by decide) (by decide) (by decide)
    (by
      intro arr harr
      simp only [List.mem_cons, Option.some.injEq, List.mem_singleton, List.not_mem_nil,
        or_false] at harr
      rcases harr with h | h <;> subst h <;> decide)
    (by
      intro arr harr
      simp only [List.mem_cons, Option.some.injEq, List.mem_singleton, List.not_mem_nil,
        or_false] at harr
      rcases harr with h | h <;> subst h <;> decide)
    0 (by decide) (by decide) rfl

/-! ## Corners of the cube -/

theorem mem_cube_corners {p : Vector3f} (h : p ∈ cube_corners) :
    ∃ bx bY bz, p = corner bx bY bz := by
  simp only [cube_corners, List.mem_cons, List.mem_singleton, List.not_mem_nil, or_false] at h
  rcases h with h | h | h | h | h | h | h | h <;> exact ⟨_, _, _, h⟩

theorem corner_inj {bx bY bz cx cY cz : Bool} (h : corner bx bY bz = corner cx cY cz) :
    bx = cx ∧ bY = cY ∧ bz = cz := by
  simp only [corner, Vector3f.mk.injEq] at h
  revert h
  cases bx <;> cases bY <;> cases bz <;> cases cx <;> cases cY <;> cases cz <;> simp

theorem on_plane_corner (f : Face) (bx bY bz : Bool) :
    f.coord (corner bx bY bz) = f.plane ↔ f.has_corner bx bY bz = true := by
  cases f <;> cases bx <;> cases bY <;> cases bz <;>
    simp [Face.coord, Face.plane, Face.has_corner, corner]

theorem near_corner (f : Face) (bx bY bz : Bool) {tol : ℚ} (htol : tol < 1 / 2) :
    f.near (corner bx bY bz) tol = f.has_corner bx bY bz := by
  have h1 : ¬ ((1 : ℚ) < tol) := by linarith
  cases f <;> cases bx <;> cases bY <;> cases bz <;>
    simp [Face.near, Face.coord, Face.plane, Face.has_corner, corner, is_equal_approx, h1]

theorem three_corners_one_face :
    ∀ (f g : Face) (a1 a2 a3 b1 b2 b3 c1 c2 c3 : Bool),
      f.has_corner a1 a2 a3 = true → f.has_corner b1 b2 b3 = true →
      f.has_corner c1 c2 c3 = true →
      g.has_corner a1 a2 a3 = true → g.has_corner b1 b2 b3 = true →
      g.has_corner c1 c2 c3 = true →
      (a1, a2, a3) ≠ (b1, b2, b3) → (a1, a2, a3) ≠ (c1, c2, c3) →
      (b1, b2, b3) ≠ (c1, c2, c3) → g = f := by
  intro f g
  cases f <;> cases g <;> decide

theorem face_corners_length (f : Face) : f.corners.length = 4 := by
  cases f <;> rfl

theorem mem_face_corners (f : Face) (bx bY bz : Bool) (h : f.has_corner bx bY bz = true) :
    corner bx bY bz ∈ f.corners := by
  cases f <;> cases bx <;> cases bY <;> cases bz <;>
    first
      | exact Bool.noConfusion h
      | simp [Face.corners]

theorem at?_eq_some {α : Type} {xs : List α} {i : Int} {a : α} (h : at? xs i = some a) :
    0 ≤ i ∧ ∃ hlt : i.toNat < xs.length, xs[i.toNat] = a := by
  unfold at? at h
  split at h
  · exact Option.noConfusion h
  · rename_i hneg
    exact ⟨by omega, List.getElem?_eq_some.1 h⟩

theorem at?_inj_of_nodup {α : Type} {xs : List α} (hn : xs.Nodup) {i j : Int} {a : α}
    (hi : at? xs i = some a) (hj : at? xs j = some a) : i = j := by
  obtain ⟨hi0, hil, hia⟩ := at?_eq_some hi
  obtain ⟨hj0, hjl, hja⟩ := at?_eq_some hj
  have : i.toNat = j.toNat := (List.Nodup.getElem_inj_iff hn).1 (hia.trans hja.symm)
  omega

theorem cube_corners_nodup : cube_corners.Nodup := by
  have h : ∀ a b c d e f : Bool, corner a b c = corner d e f ↔ (a = d ∧ b = e ∧ c = f) :=
    fun a b c d e f => ⟨corner_inj, fun ⟨h1, h2, h3⟩ => by rw [h1, h2, h3]⟩
  simp [cube_corners, h]

theorem Working.position_eq {W : Working} {i : Int} {p : Vector3f}
    (h : at? W.positions i = some p) : W.position i = p := by
  unfold Working.position
  rw [h]
  rfl

theorem classify_on_face {cs : CubeSides} (hv : cs.Valid) (W : Working)
    (hP : W.positions.Nodup) (hC : ∀ p ∈ W.positions, p ∈ cube_corners) {tol : ℚ}
    (htol : tol < 1 / 2) {f : Face} {i0 i1 i2 : Int}
    (ht : TriangleOnFace W.positions f i0 i1 i2) :
    classify cs tol W i0 i1 i2 = some (cs.index f) := by
  obtain ⟨h01, h02, h12, hon⟩ := ht
  obtain ⟨p0, hp0, hf0⟩ := hon i0 (by simp)
  obtain ⟨p1, hp1, hf1⟩ := hon i1 (by simp)
  obtain ⟨p2, hp2, hf2⟩ := hon i2 (by simp)
  have hmem : ∀ {i : Int} {p : Vector3f}, at? W.positions i = some p → p ∈ W.positions := by
    intro i p h
    obtain ⟨_, hl, he⟩ := at?_eq_some h
    exact he ▸ List.getElem_mem hl
  obtain ⟨a1, a2, a3, ea⟩ := mem_cube_corners (hC p0 (hmem hp0))
  obtain ⟨b1, b2, b3, eb⟩ := mem_cube_corners (hC p1 (hmem hp1))
  obtain ⟨c1, c2, c3, ec⟩ := mem_cube_corners (hC p2 (hmem hp2))
  have hab : (a1, a2, a3) ≠ (b1, b2, b3) := by
    intro h
    simp only [Prod.mk.injEq] at h
    obtain ⟨e1, e2, e3⟩ := h
    apply h01
    apply at?_inj_of_nodup hP hp0
    rw [hp1, eb, ea, e1, e2, e3]
  have hac : (a1, a2, a3) ≠ (c1, c2, c3) := by
    intro h
    simp only [Prod.mk.injEq] at h
    obtain ⟨e1, e2, e3⟩ := h
    apply h02
    apply at?_inj_of_nodup hP hp0
    rw [hp2, ec, ea, e1, e2, e3]
  have hbc : (b1, b2, b3) ≠ (c1, c2, c3) := by
    intro h
    simp only [Prod.mk.injEq] at h
    obtain ⟨e1, e2, e3⟩ := h
    apply h12
    apply at?_inj_of_nodup hP hp1
    rw [hp2, ec, eb, e1, e2, e3]
  subst ea eb ec
  rw [on_plane_corner] at hf0 hf1 hf2
  unfold classify
  rw [Working.position_eq hp0, Working.position_eq hp1, Working.position_eq hp2]
  apply get_triangle_side_of_mask (hv.index_lt f)
  apply triangle_mask_of_unique hv
  · simp [Face.common, near_corner _ _ _ _ htol, hf0, hf1, hf2]
  · intro g hg
    simp only [Face.common, near_corner _ _ _ _ htol, Bool.and_eq_true] at hg
    exact three_corners_one_face f g a1 a2 a3 b1 b2 b3 c1 c2 c3 hf0 hf1 hf2 hg.1.1 hg.1.2 hg.2
      hab hac hbc

theorem routed_cube {cs : CubeSides} (hv : cs.Valid) (W : Working)
    (hP : W.positions.Nodup) (hC : ∀ p ∈ W.positions, p ∈ cube_corners) {tol : ℚ}
    (htol : tol < 1 / 2) :
    ∀ (indices : List Int) (faces : List Face), TrianglesOnFaces W.positions indices faces →
      routed cs tol W indices none = [] ∧
      (∀ f, routed_count cs tol W indices (some (cs.index f)) = faces.count f) ∧
      (∀ f s, s ∈ routed cs tol W indices (some (cs.index f)) →
        ∃ p, at? W.positions s = some p ∧ f.coord p = f.plane) ∧
      (∀ s ∈ indices, ∃ p, at? W.positions s = some p) ∧
      indices.length = 3 * faces.length
  | i0 :: i1 :: i2 :: rest, f :: fs, h => by
    obtain ⟨ht, hrest⟩ := h
    obtain ⟨ih1, ih2, ih3, ih4, ih5⟩ := routed_cube hv W hP hC htol rest fs hrest
    have hc := classify_on_face hv W hP hC htol ht
    refine ⟨?_, ?_, ?_, ?_, ?_⟩
    · simp [routed, hc, ih1]
    · intro g
      simp only [routed_count, hc, ih2 g, List.count_cons, Option.some.injEq]
      by_cases hfg : f = g
      · subst hfg; simp; omega
      · have : cs.index f ≠ cs.index g := fun e => hfg (hv.index_inj e)
        simp [this, hfg]
    · intro g s hs
      simp only [routed, hc, Option.some.injEq, List.mem_append] at hs
      rcases hs with hs | hs
      · by_cases hfg : f = g
        · subst hfg
          simp only [if_true] at hs
          exact ht.2.2.2 s hs
        · have : cs.index f ≠ cs.index g := fun e => hfg (hv.index_inj e)
          simp [this] at hs
      · exact ih3 g s hs
    · intro s hs
      simp only [List.mem_cons] at hs
      rcases hs with hs | hs | hs | hs
      · obtain ⟨p, hp, _⟩ := ht.2.2.2 i0 (by simp); exact ⟨p, hs ▸ hp⟩
      · obtain ⟨p, hp, _⟩ := ht.2.2.2 i1 (by simp); exact ⟨p, hs ▸ hp⟩
      · obtain ⟨p, hp, _⟩ := ht.2.2.2 i2 (by simp); exact ⟨p, hs ▸ hp⟩
      · exact ih4 s hs
    · simp only [List.length_cons, ih5]; omega
  | [], [], _ => by simp [routed, routed_count]
  | [], _ :: _, h => by simp [TrianglesOnFaces] at h
  | [_], _, h => by simp [TrianglesOnFaces] at h
  | [_, _], _, h => by simp [TrianglesOnFaces] at h
  | _ :: _ :: _ :: _, [], h => by simp [TrianglesOnFaces] at h

theorem rotation_step_identity {σ μ : Type} (env : Env σ μ) (positions normals : List Vector3f)
    (tangents : List ℚ) :
    rotation_step env env.ORTHOGONAL_BASIS_IDENTITY_INDEX positions normals tangents =
      (positions, normals, tangents) := by
  unfold rotation_step
  rw [if_neg (not_not.2 rfl)]

theorem CubeMesh.accepted {σ μ : Type} (env : Env σ μ) (bake_tangents : Bool)
    {arr : SurfaceArrays} {faces : List Face} (hcube : CubeMesh arr faces)
    (htan : ¬ (env.TOOLS_ENABLED = true ∧ arr.tangent.length = 0 ∧ bake_tangents = true ∧
      arr.tex_uv.length = 0)) : Accepted env bake_tangents arr := by
  have hP : arr.vertex.Nodup := hcube.corners.nodup_iff.2 cube_corners_nodup
  have hlen : arr.vertex.length = 8 := hcube.corners.length_eq
  obtain ⟨_, _, _, hvalid, hl⟩ := @routed_cube CubeSides.canonical (by decide)
    ⟨arr.vertex, [], [], []⟩ hP (fun p hp => hcube.corners.subset hp) 0
    (show (0 : ℚ) < 1 / 2 by norm_num) arr.index faces hcube.triangles
  have hfaces : 0 < faces.length := by
    have : Face.negX ∈ faces := List.count_pos_iff.1 (by rw [hcube.two_per_face]; decide)
    exact List.length_pos_of_mem this
  refine ⟨by omega, by omega, ?_, ?_, ?_, htan⟩
  · rw [validate_indices_iff _ _ (by omega)]
    intro i hi
    obtain ⟨p, hp⟩ := hvalid i hi
    obtain ⟨h0, hlt, _⟩ := at?_eq_some hp
    constructor
    · exact h0
    · have : i.toNat < arr.vertex.length := hlt
      omega
  · rw [hcube.normals, hlen]; decide
  · exact hcube.normals.symm

/-! ## Claim on the closed cube -/

/-- C7, as stated, fails: the claim fixes the rotation and the tolerance but
not the tangent mode, and with tangent baking enabled (in a tools build) the
example cube, which supplies neither tangents nor UVs, is skipped: the side
surface of side 0 has no index and no vertex. -/
theorem C7_counterexample :
    (bake_mesh_geometry example_env [some example_cube] [7] example_cleared true []
        example_env.ORTHOGONAL_BASIS_IDENTITY_INDEX (1 / 100)).map
      (fun r => (r.1.model.side 0 0).map (fun s => (s.indices.length, s.positions.length))) =
      some (some (0, 0)) := by
  decide!

/-- C7, amended: baking a closed unit-cube mesh given as one surface (the eight
cube corners as shared positions, a normal per position, twelve triangles, two
per cube face, each using three different corners of its face) into a model
without geometry, with the identity rotation and a tolerance below 1/2,
completes and yields, for each of the six sides, a side surface with 6 indices
and at least one and at most 4 vertices, and an interior surface without
vertices and without indices, provided the surface is read inside its arrays
(`hcons`: the UV array is empty or has an entry for every index, and when
tangents are baked the tangent array has four floats for every index, or is
absent in a build that defines `TOOLS_ENABLED`) and is not skipped for lack of
both tangents and UVs (`htan`). With tangent baking enabled this leaves two
cases: a tangent array with four floats for every index, or no tangent array, a
build that defines `TOOLS_ENABLED` and a UV array that is not empty. -/
theorem C7_closed_cube_mesh {σ μ : Type} (env : Env σ μ) (hv : env.sides.Valid)
    (arr : SurfaceArrays) (faces : List Face) (hcube : CubeMesh arr faces) (material : μ)
    (baked_data : BakedModel) (hclr : baked_data.model.Cleared) (bake_tangents : Bool)
    (hcons : Consistent env bake_tangents arr)
    (htan : ¬ (env.TOOLS_ENABLED = true ∧ arr.tangent.length = 0 ∧ bake_tangents = true ∧
      arr.tex_uv.length = 0))
    (material_indexer : σ) (tol : ℚ) (htol : tol < 1 / 2) :
    ∃ bd' s', bake_mesh_geometry env [some arr] [material] baked_data bake_tangents
        material_indexer env.ORTHOGONAL_BASIS_IDENTITY_INDEX tol = some (bd', s') ∧
      (∀ k, k < SIDE_COUNT → ∃ side_surface, bd'.model.side k 0 = some side_surface ∧
        side_surface.indices.length = 6 ∧ 0 < side_surface.positions.length ∧
        side_surface.positions.length ≤ 4) ∧
      ∃ surface, bd'.model.surfaces[0]? = some surface ∧ surface.positions = [] ∧
        surface.indices = [] := by
  have hacc := hcube.accepted env bake_tangents htan
  have hcons' : SurfacesConsistent env bake_tangents [some arr] := by
    intro a ha
    simp only [List.mem_singleton, Option.some.injEq] at ha
    rw [ha]; exact fun _ => hcons
  obtain ⟨bd', s', W, mid, hrun, hW, _, hsurf, hsides⟩ := baked_accepted_slot env [some arr]
    [material] baked_data bake_tangents material_indexer env.ORTHOGONAL_BASIS_IDENTITY_INDEX tol
    hclr (by simp [MAX_SURFACES]) (by simp) hcons' 0 arr rfl hacc
  obtain ⟨W', hW', hpos, _⟩ := working_arrays_spec env bake_tangents
    env.ORTHOGONAL_BASIS_IDENTITY_INDEX arr hacc hcons
  have hWW : W' = W := Option.some.inj (hW'.symm.trans hW)
  subst hWW
  rw [rotation_step_identity] at hpos
  have hP : W'.positions.Nodup := by
    rw [hpos]; exact hcube.corners.nodup_iff.2 cube_corners_nodup
  have hC : ∀ p ∈ W'.positions, p ∈ cube_corners := by
    rw [hpos]; exact fun p hp => hcube.corners.subset hp
  obtain ⟨hnone, hcount, hon, _, _⟩ := routed_cube hv W' hP hC htol arr.index faces
    (by rw [hpos]; exact hcube.triangles)
  refine ⟨bd', s', hrun, ?_, ?_⟩
  · intro k hk
    obtain ⟨f, hf⟩ := hv.exists_index hk
    subst hf
    have hlen : (routed env.sides tol W' arr.index (some (env.sides.index f))).length = 6 := by
      rw [routed_length, hcount f, hcube.two_per_face f]
    refine ⟨_, hsides _ hk, ?_, ?_, ?_⟩
    · simpa [expected_side] using hlen
    · simp only [expected_side, List.length_map]
      match hr : routed env.sides tol W' arr.index (some (env.sides.index f)), hlen with
      | s :: rest, _ =>
        have : s ∈ distinct_sources (s :: rest) := mem_distinct_sources.2 (by simp)
        exact List.length_pos_of_mem this
    · have hkeys : ∀ s ∈ distinct_sources
          (routed env.sides tol W' arr.index (some (env.sides.index f))),
          ∃ p, at? W'.positions s = some p ∧ f.coord p = f.plane :=
        fun s hs => hon f s (mem_distinct_sources.1 hs)
      have hnodup : ((distinct_sources
          (routed env.sides tol W' arr.index (some (env.sides.index f)))).map
          W'.position).Nodup := by
        apply List.Nodup.map_on _ (distinct_sources_nodup _)
        intro x hx y hy hxy
        obtain ⟨px, hpx, _⟩ := hkeys x hx
        obtain ⟨pY, hpy, _⟩ := hkeys y hy
        rw [Working.position_eq hpx, Working.position_eq hpy] at hxy
        exact at?_inj_of_nodup hP hpx (hxy ▸ hpy)
      have hsub : (distinct_sources
          (routed env.sides tol W' arr.index (some (env.sides.index f)))).map W'.position ⊆
          f.corners := by
        intro p hp
        obtain ⟨s, hs, rfl⟩ := List.mem_map.1 hp
        obtain ⟨q, hq, hfq⟩ := hkeys s hs
        rw [Working.position_eq hq]
        have hqm : q ∈ W'.positions := by
          obtain ⟨_, hl, he⟩ := at?_eq_some hq
          exact he ▸ List.getElem_mem hl
        obtain ⟨bx, bY, bz, rfl⟩ := mem_cube_corners (hC q hqm)
        exact mem_face_corners f bx bY bz ((on_plane_corner f bx bY bz).1 hfq)
      have := (List.subperm_of_subset hnodup hsub).length_le
      rw [face_corners_length] at this
      simpa [expected_side] using this
  · refine ⟨_, hsurf, ?_, ?_⟩
    · simp [expected_surface, hnone, distinct_sources]
    · simp [expected_surface, hnone]

theorem example_cube_mesh : CubeMesh example_cube example_cube_faces := by
  refine ⟨List.Perm.refl _, rfl, ?_, ?_⟩
  · simp only [example_cube, example_cube_faces, TrianglesOnFaces, TriangleOnFace, and_true]
    simp [at?, cube_corners, corner, Face.coord, Face.plane]
  · intro f
    cases f <;> rfl

/-- Witness of C7: the example cube baked with tolerance 1/100. -/
theorem C7_closed_cube_mesh_witness :
    ∃ bd' s', bake_mesh_geometry example_env [some example_cube] [7] example_cleared false
        [] example_env.ORTHOGONAL_BASIS_IDENTITY_INDEX (1 / 100) = some (bd', s') ∧
      (∀ k, k < SIDE_COUNT → ∃ side_surface, bd'.model.side k 0 = some side_surface ∧
        side_surface.indices.length = 6 ∧ 0 < side_surface.positions.length ∧
        side_surface.positions.length ≤ 4) ∧
      ∃ surface, bd'.model.surfaces[0]? = some surface ∧ surface.positions = [] ∧
        surface.indices = [] :=
  C7_closed_cube_mesh example_env (by decide) example_cube example_cube_faces example_cube_mesh
    7 example_cleared (clear_Cleared _) false (by decide) (by decide) [] (1 / 100)
    (by norm_num)

/-! ## The whole state after one surface -/

theorem OptAccepted.validated {σ μ : Type} {env : Env σ μ} {bake_tangents : Bool}
    {arrays : Option SurfaceArrays} (h : OptAccepted env bake_tangents arrays) :
    OptValidated arrays := by
  cases arrays with
  | none => exact h
  | some arr => exact ⟨h.1, h.2.1, h.2.2.1⟩

theorem slot_working_of_not_accepted {σ μ : Type} (env : Env σ μ) (bake_tangents : Bool)
    (ortho_rotation : Nat) {arrays : Option SurfaceArrays}
    (h : ¬ OptAccepted env bake_tangents arrays) :
    slot_working env bake_tangents ortho_rotation arrays = none := by
  cases arrays with
  | none => rfl
  | some arr =>
    have h' : ¬ Accepted env bake_tangents arr := h
    simp [slot_working, h']

theorem bake_surface_full {σ μ : Type} (env : Env σ μ) (materials : List μ)
    (bake_tangents : Bool) (ortho_rotation : Nat) (tol : ℚ) (surface_index : Nat)
    (arrays : Option SurfaceArrays) (baked_data : BakedModel) (material_indexer : σ)
    (material : μ) (old : Nat)
    (hcons : ∀ arr, arrays = some arr → Accepted env bake_tangents arr →
      Consistent env bake_tangents arr)
    (hshape : baked_data.model.Shaped) (hsi : surface_index < MAX_SURFACES)
    (hold : baked_data.model.surfaces[surface_index]? = some (Surface.cleared old))
    (hsides : ∀ k, k < SIDE_COUNT →
      baked_data.model.side k surface_index = some SideSurface.cleared)
    (hmat : materials[surface_index]? = some material) :
    ∃ bd', bake_surface env materials bake_tangents ortho_rotation tol surface_index arrays
        baked_data material_indexer =
        some (bd', if OptAccepted env bake_tangents arrays then
          (env.get_or_create_index material_indexer material).2 else material_indexer) ∧
      bd'.empty = (if OptValidated arrays then false else baked_data.empty) ∧
      bd'.cutout_sides_enabled = baked_data.cutout_sides_enabled ∧
      bd'.model.Shaped ∧ bd'.model.surface_count = baked_data.model.surface_count ∧
      bd'.model.surfaces[surface_index]? =
        some (slot_surface env bake_tangents ortho_rotation tol arrays
          (if OptAccepted env bake_tangents arrays then
            (env.get_or_create_index material_indexer material).1 else old)) ∧
      (∀ k, k < SIDE_COUNT → bd'.model.side k surface_index =
        some (slot_side env bake_tangents ortho_rotation tol arrays k)) ∧
      ∀ i, i ≠ surface_index → bd'.model.surfaces[i]? = baked_data.model.surfaces[i]? ∧
        ∀ k, bd'.model.side k i = baked_data.model.side k i := by
  have hlt : surface_index < materials.length := (List.getElem?_eq_some.1 hmat).1
  obtain ⟨bd', s', hrun, hshape', hcount, _, hside, hframe⟩ := bake_surface_slot env materials
    bake_tangents ortho_rotation tol surface_index arrays baked_data material_indexer hcons
    hshape hsi ⟨⟨old, hold⟩, hsides⟩ hlt
  by_cases hacc : OptAccepted env bake_tangents arrays
  · have hval : OptValidated arrays := hacc.validated
    rw [if_pos hacc, if_pos hacc, if_pos hval]
    cases arrays with
    | none => exact absurd hacc (fun h => h)
    | some arr =>
      have hacc' : Accepted env bake_tangents arr := hacc
      obtain ⟨W, m', hW, hrun2, _, hsurf, _, _⟩ := bake_surface_accepted_spec env
        materials bake_tangents ortho_rotation tol surface_index arr baked_data material_indexer
        material hacc' (hcons arr rfl hacc') hshape hsi ⟨⟨old, hold⟩, hsides⟩ hmat
      have hsw : slot_working env bake_tangents ortho_rotation (some arr) =
          some (W, arr.index) := by
        simp [slot_working, hacc', hW]
      have e := Option.some.inj (hrun.symm.trans hrun2)
      have e1 : bd' = { baked_data with empty := false, model := m' } := congrArg Prod.fst e
      have e2 : s' = (env.get_or_create_index material_indexer material).2 := congrArg Prod.snd e
      refine ⟨bd', ?_, ?_, ?_, hshape', hcount, ?_, hside, hframe⟩
      · rw [hrun, e2]
      · rw [e1]
      · rw [e1]
      · rw [e1]
        show m'.surfaces[surface_index]? = _
        rw [hsurf, List.getElem?_set_self (by rw [hshape.1]; exact hsi)]
        simp only [slot_surface, hsw]
  · rw [if_neg hacc, if_neg hacc]
    have hsw := slot_working_of_not_accepted env bake_tangents ortho_rotation hacc
    have fin : ∀ (e : Bool), e = (if OptValidated arrays then false else baked_data.empty) →
        bake_surface env materials bake_tangents ortho_rotation tol surface_index arrays
          baked_data material_indexer = some ({ baked_data with empty := e }, material_indexer) →
        ∃ bd', bake_surface env materials bake_tangents ortho_rotation tol surface_index arrays
            baked_data material_indexer = some (bd', material_indexer) ∧
          bd'.empty = (if OptValidated arrays then false else baked_data.empty) ∧
          bd'.cutout_sides_enabled = baked_data.cutout_sides_enabled ∧
          bd'.model.Shaped ∧ bd'.model.surface_count = baked_data.model.surface_count ∧
          bd'.model.surfaces[surface_index]? =
            some (slot_surface env bake_tangents ortho_rotation tol arrays old) ∧
          (∀ k, k < SIDE_COUNT → bd'.model.side k surface_index =
            some (slot_side env bake_tangents ortho_rotation tol arrays k)) ∧
          ∀ i, i ≠ surface_index → bd'.model.surfaces[i]? = baked_data.model.surfaces[i]? ∧
            ∀ k, bd'.model.side k i = baked_data.model.side k i := by
      intro e he hrun2
      refine ⟨_, hrun2, he, rfl, hshape, rfl, ?_, ?_, fun i _ => ⟨rfl, fun k => rfl⟩⟩
      · simp only [slot_surface, hsw]; exact hold
      · intro k hk
        simp only [slot_side, hsw]; exact hsides k hk
    cases arrays with
    | none =>
      have hv' : ¬ OptValidated none := fun h => h
      exact fin baked_data.empty (by rw [if_neg hv']) (bake_surface_none _ _ _ _ _ _ _ _)
    | some arr =>
      have hacc' : ¬ Accepted env bake_tangents arr := hacc
      by_cases hv : Validated arr
      · have hv' : OptValidated (some arr) := hv
        exact fin false (by rw [if_pos hv']) (bake_surface_validated_not_accepted env materials
          bake_tangents ortho_rotation tol surface_index arr baked_data material_indexer hv hacc')
      · have hv' : ¬ OptValidated (some arr) := hv
        exact fin baked_data.empty (by rw [if_neg hv']) (bake_surface_not_validated env materials
          bake_tangents ortho_rotation tol surface_index arr baked_data material_indexer hv)

/-! ## The whole state after the surface loop -/

theorem empty_after_cons (arrays : Option SurfaceArrays) (rest : List (Option SurfaceArrays))
    (empty : Bool) :
    empty_after (arrays :: rest) empty =
      empty_after rest (if OptValidated arrays then false else empty) := by
  unfold empty_after
  by_cases h : OptValidated arrays
  · simp [h]
  · simp [h]

theorem material_id_after_zero {σ μ : Type} (env : Env σ μ) (bake_tangents : Bool)
    (p : Option SurfaceArrays × μ) (pairs : List (Option SurfaceArrays × μ)) (s : σ) (old : Nat) :
    material_id_after env bake_tangents (p :: pairs) s old 0 =
      if OptAccepted env bake_tangents p.1 then (env.get_or_create_index s p.2).1 else old := by
  simp [material_id_after, indexer_after]

theorem material_id_after_succ {σ μ : Type} (env : Env σ μ) (bake_tangents : Bool)
    (p : Option SurfaceArrays × μ) (pairs : List (Option SurfaceArrays × μ)) (s : σ) (old : Nat)
    (i : Nat) :
    material_id_after env bake_tangents (p :: pairs) s old (i + 1) =
      material_id_after env bake_tangents pairs
        (if OptAccepted env bake_tangents p.1 then (env.get_or_create_index s p.2).2 else s)
        old i := by
  simp [material_id_after, indexer_after]

theorem bake_surfaces_from_full {σ μ : Type} (env : Env σ μ) (materials : List μ)
    (bake_tangents : Bool) (ortho_rotation : Nat) (tol : ℚ) :
    ∀ (rest : List (Option SurfaceArrays)) (j : Nat) (bd : BakedModel) (s : σ),
      j + rest.length ≤ MAX_SURFACES → j + rest.length ≤ materials.length →
      SurfacesConsistent env bake_tangents rest → bd.model.Shaped →
      (∀ i, j ≤ i → i < j + rest.length → bd.model.SlotCleared i) →
      ∃ bd', bake_surfaces_from env materials bake_tangents ortho_rotation tol j rest (bd, s) =
          some (bd', indexer_after env bake_tangents (rest.zip (materials.drop j)) s) ∧
        bd'.empty = empty_after rest bd.empty ∧
        bd'.cutout_sides_enabled = bd.cutout_sides_enabled ∧
        bd'.model.Shaped ∧ bd'.model.surface_count = bd.model.surface_count ∧
        (∀ i (hi : i < rest.length) (old : Nat),
          bd.model.surfaces[j + i]? = some (Surface.cleared old) →
          bd'.model.surfaces[j + i]? =
            some (slot_surface env bake_tangents ortho_rotation tol rest[i]
              (material_id_after env bake_tangents (rest.zip (materials.drop j)) s old i))) ∧
        (∀ i (hi : i < rest.length), ∀ k, k < SIDE_COUNT → bd'.model.side k (j + i) =
            some (slot_side env bake_tangents ortho_rotation tol rest[i] k)) ∧
        ∀ i, (i < j ∨ j + rest.length ≤ i) →
          bd'.model.surfaces[i]? = bd.model.surfaces[i]? ∧
          ∀ k, bd'.model.side k i = bd.model.side k i := by
  intro rest
  induction rest with
  | nil =>
    intro j bd s _ _ _ hshape _
    refine ⟨bd, rfl, ?_, rfl, hshape, rfl, fun i hi => absurd hi (by simp),
      fun i hi => absurd hi (by simp), fun i _ => ⟨rfl, fun k => rfl⟩⟩
    simp [empty_after]
  | cons arr rest ih =>
    intro j bd s hmax hmat hcons hshape hclr
    simp only [List.length_cons] at hmax hmat hclr
    have hj : j < materials.length := by omega
    have hdrop : materials.drop j = materials[j] :: materials.drop (j + 1) :=
      List.drop_eq_getElem_cons hj
    obtain ⟨⟨old0, hold0⟩, hsides0⟩ := hclr j (le_refl j) (by omega)
    obtain ⟨bd1, hrun1, hempty1, hcut1, hshape1, hcount1, hsurf1, hside1, hframe1⟩ :=
      bake_surface_full env materials bake_tangents ortho_rotation tol j arr bd s materials[j]
        old0 (fun a ha => hcons a (by rw [← ha]; exact List.mem_cons_self _ _)) hshape (by omega)
        hold0 hsides0 (List.getElem?_eq_getElem hj)
    have hclr1 : ∀ i, j + 1 ≤ i → i < j + 1 + rest.length → bd1.model.SlotCleared i := by
      intro i h1 h2
      obtain ⟨hs, hk⟩ := hframe1 i (by omega)
      obtain ⟨⟨mid, hmid⟩, hsides⟩ := hclr i (by omega) (by omega)
      exact ⟨⟨mid, by rw [hs]; exact hmid⟩, fun k hk' => by rw [hk k]; exact hsides k hk'⟩
    obtain ⟨bd2, hrun2, hempty2, hcut2, hshape2, hcount2, hsurf2, hside2, hframe2⟩ :=
      ih (j + 1) bd1
        (if OptAccepted env bake_tangents arr then (env.get_or_create_index s materials[j]).2
          else s)
        (by omega) (by omega) (fun a ha => hcons a (List.mem_cons_of_mem _ ha)) hshape1 hclr1
    refine ⟨bd2, ?_, ?_, hcut2.trans hcut1, hshape2, hcount2.trans hcount1, ?_, ?_, ?_⟩
    · simp only [bake_surfaces_from, Option.bind_eq_bind, hrun1, Option.some_bind, hrun2, hdrop,
        List.zip_cons_cons, indexer_after]
    · rw [hempty2, hempty1, empty_after_cons]
    · intro i hi old hold
      cases i with
      | zero =>
        obtain ⟨hs, _⟩ := hframe2 j (Or.inl (by omega))
        have hold' : old = old0 := by
          have h := hold0.symm.trans hold
          have := congrArg Surface.material_id (Option.some.inj h)
          exact this.symm
        simp only [Nat.add_zero, List.getElem_cons_zero, hdrop, List.zip_cons_cons,
          material_id_after_zero]
        rw [hs, hsurf1, hold']
      | succ i =>
        have hi' : i < rest.length := by simpa using hi
        have e : j + (i + 1) = j + 1 + i := by omega
        have hold1 : bd1.model.surfaces[j + 1 + i]? = some (Surface.cleared old) := by
          rw [(hframe1 (j + 1 + i) (by omega)).1, ← e]; exact hold
        have := hsurf2 i hi' old hold1
        simp only [List.getElem_cons_succ, e, hdrop, List.zip_cons_cons, material_id_after_succ]
        exact this
    · intro i hi k hk
      cases i with
      | zero =>
        obtain ⟨_, hk2⟩ := hframe2 j (Or.inl (by omega))
        simp only [Nat.add_zero, List.getElem_cons_zero]
        rw [hk2 k]; exact hside1 k hk
      | succ i =>
        have hi' : i < rest.length := by simpa using hi
        have e : j + (i + 1) = j + 1 + i := by omega
        simp only [List.getElem_cons_succ, e]
        exact hside2 i hi' k hk
    · intro i hi
      simp only [List.length_cons] at hi
      obtain ⟨hs2, hk2⟩ := hframe2 i (by omega)
      obtain ⟨hs1, hk1⟩ := hframe1 i (by omega)
      exact ⟨hs2.trans hs1, fun k => (hk2 k).trans (hk1 k)⟩

/-- The whole result of `bake_mesh_geometry` on a model without geometry: the
indexer state, the flags, and every destination of every surface index. -/
theorem bake_mesh_geometry_full {σ μ : Type} (env : Env σ μ)
    (surfaces : List (Option SurfaceArrays)) (materials : List μ) (baked_data : BakedModel)
    (bake_tangents : Bool) (material_indexer : σ) (ortho_rotation : Nat) (tol : ℚ)
    (hclr : baked_data.model.Cleared) (hmax : surfaces.length ≤ MAX_SURFACES)
    (hmat : surfaces.length ≤ materials.length)
    (hcons : SurfacesConsistent env bake_tangents surfaces) :
    ∃ bd', bake_mesh_geometry env surfaces materials baked_data bake_tangents
        material_indexer ortho_rotation tol =
        some (bd', indexer_after env bake_tangents (surfaces.zip materials) material_indexer) ∧
      bd'.empty = empty_after surfaces baked_data.empty ∧
      bd'.cutout_sides_enabled = baked_data.cutout_sides_enabled ∧
      bd'.model.Shaped ∧ bd'.model.surface_count = surfaces.length ∧
      (∀ i (hi : i < surfaces.length) (old : Nat),
        baked_data.model.surfaces[i]? = some (Surface.cleared old) →
        bd'.model.surfaces[i]? =
          some (slot_surface env bake_tangents ortho_rotation tol surfaces[i]
            (material_id_after env bake_tangents (surfaces.zip materials) material_indexer
              old i))) ∧
      (∀ i (hi : i < surfaces.length), ∀ k, k < SIDE_COUNT → bd'.model.side k i =
          some (slot_side env bake_tangents ortho_rotation tol surfaces[i] k)) ∧
      ∀ i, surfaces.length ≤ i →
        bd'.model.surfaces[i]? = baked_data.model.surfaces[i]? ∧
        ∀ k, bd'.model.side k i = baked_data.model.side k i := by
  have hclr' : ({ baked_data.model with surface_count := surfaces.length } : Model).Cleared :=
    hclr
  obtain ⟨bd', hrun, hempty, hcut, hshape, hcount, hsurf, hside, hframe⟩ :=
    bake_surfaces_from_full env materials bake_tangents ortho_rotation tol surfaces 0
      { baked_data with model := { baked_data.model with surface_count := surfaces.length } }
      material_indexer (by omega) (by omega) hcons hclr'.1
      (fun i _ hi => hclr'.slot (by omega))
  refine ⟨bd', ?_, hempty, hcut, hshape, hcount, ?_, ?_, ?_⟩
  · simpa [bake_mesh_geometry] using hrun
  · intro i hi old hold
    have := hsurf i hi old (by simpa using hold)
    simpa using this
  · intro i hi k hk
    have := hside i hi k hk
    simpa using this
  · intro i hi
    have := hframe i (Or.inr (by omega))
    simpa using this

/-! ## Claims on the empty flag and on the surface count -/

theorem cleared_old {m : Model} (h : m.Cleared) {i : Nat} (hi : i < MAX_SURFACES) :
    ∃ old, m.surfaces[i]? = some (Surface.cleared old) := (h.slot hi).1

theorem slot_cleared_of_not_accepted {σ μ : Type} (env : Env σ μ) (bake_tangents : Bool)
    (ortho_rotation : Nat) (tol : ℚ) {arrays : Option SurfaceArrays}
    (h : ¬ OptAccepted env bake_tangents arrays) {m : Model} {i : Nat} {mid : Nat}
    (hsurf : m.surfaces[i]? =
      some (slot_surface env bake_tangents ortho_rotation tol arrays mid))
    (hside : ∀ k, k < SIDE_COUNT → m.side k i =
      some (slot_side env bake_tangents ortho_rotation tol arrays k)) :
    m.SlotCleared i := by
  have hsw := slot_working_of_not_accepted env bake_tangents ortho_rotation h
  refine ⟨⟨mid, ?_⟩, fun k hk => ?_⟩
  · rw [hsurf]; simp only [slot_surface, hsw]
  · rw [hside k hk]; simp only [slot_side, hsw]

theorem missing_not_validated {missing : SurfaceArrays} (h : missing.index.length = 0) :
    ¬ OptValidated (some missing) := fun hv => hv.1 h

theorem missing_not_accepted {σ μ : Type} (env : Env σ μ) (bake_tangents : Bool)
    {missing : SurfaceArrays} (h : missing.index.length = 0) :
    ¬ OptAccepted env bake_tangents (some missing) := fun hacc => hacc.1 h

/-- C11: baking into a cleared model whose empty flag is true, a surface with
an empty index buffer (whatever its positions) is skipped (its destinations
stay without geometry and the indexer is not called for it). If it is the only surface the
empty flag is true after the bake; if another surface of the same model reaches
the triangle loop and is baked, the empty flag is false after the bake and that
surface has its expected geometry, whether the surface without index buffer
comes first or second. -/
theorem C11_missing_index_buffer {σ μ : Type} (env : Env σ μ) (missing other : SurfaceArrays)
    (m0 m1 : μ) (baked_data : BakedModel) (bake_tangents : Bool) (material_indexer : σ)
    (ortho_rotation : Nat) (tol : ℚ)
    (hclr : baked_data.model.Cleared) (hempty : baked_data.empty = true)
    (hidx : missing.index.length = 0)
    (hacc : Accepted env bake_tangents other) (hcons : Consistent env bake_tangents other) :
    (∃ bd', bake_mesh_geometry env [some missing] [m0] baked_data bake_tangents
        material_indexer ortho_rotation tol = some (bd', material_indexer) ∧
      bd'.empty = true ∧ bd'.model.SlotCleared 0) ∧
    (∃ bd', bake_mesh_geometry env [some missing, some other] [m0, m1] baked_data bake_tangents
        material_indexer ortho_rotation tol =
        some (bd', (env.get_or_create_index material_indexer m1).2) ∧
      bd'.empty = false ∧ bd'.model.SlotCleared 0 ∧
      bd'.model.surfaces[1]? = some (slot_surface env bake_tangents ortho_rotation tol
        (some other) (env.get_or_create_index material_indexer m1).1) ∧
      ∀ k, k < SIDE_COUNT → bd'.model.side k 1 =
        some (slot_side env bake_tangents ortho_rotation tol (some other) k)) ∧
    (∃ bd', bake_mesh_geometry env [some other, some missing] [m0, m1] baked_data bake_tangents
        material_indexer ortho_rotation tol =
        some (bd', (env.get_or_create_index material_indexer m0).2) ∧
      bd'.empty = false ∧ bd'.model.SlotCleared 1 ∧
      bd'.model.surfaces[0]? = some (slot_surface env bake_tangents ortho_rotation tol
        (some other) (env.get_or_create_index material_indexer m0).1) ∧
      ∀ k, k < SIDE_COUNT → bd'.model.side k 0 =
        some (slot_side env bake_tangents ortho_rotation tol (some other) k)) := by
  have hnv := missing_not_validated hidx
  have hna := missing_not_accepted env bake_tangents hidx
  have hoa : OptAccepted env bake_tangents (some other) := hacc
  have hov : OptValidated (some other) := hoa.validated
  obtain ⟨old0, hold0⟩ := cleared_old hclr (i := 0) (by decide)
  obtain ⟨old1, hold1⟩ := cleared_old hclr (i := 1) (by decide)
  have hc : ∀ l : List (Option SurfaceArrays), (∀ a ∈ l, a = some missing ∨ a = some other) →
      SurfacesConsistent env bake_tangents l := by
    intro l hl arr harr harracc
    rcases hl _ harr with h | h
    · rw [Option.some.inj h] at harracc
      exact absurd harracc hna
    · rw [Option.some.inj h]; exact hcons
  refine ⟨?_, ?_, ?_⟩
  · obtain ⟨bd', hrun, he, _, _, _, hsurf, hside, _⟩ := bake_mesh_geometry_full env
      [some missing] [m0] baked_data bake_tangents material_indexer ortho_rotation tol hclr
      (by simp [MAX_SURFACES]) (by simp) (hc _ (by simp))
    refine ⟨bd', ?_, ?_, ?_⟩
    · rw [hrun]; simp [indexer_after, hna]
    · rw [he, hempty]; simp [empty_after, hnv]
    · exact slot_cleared_of_not_accepted env bake_tangents ortho_rotation tol hna
        (hsurf 0 (by simp) old0 hold0) (hside 0 (by simp))
  · obtain ⟨bd', hrun, he, _, _, _, hsurf, hside, _⟩ := bake_mesh_geometry_full env
      [some missing, some other] [m0, m1] baked_data bake_tangents material_indexer
      ortho_rotation tol hclr (by simp [MAX_SURFACES]) (by simp) (hc _ (by simp))
    refine ⟨bd', ?_, ?_, ?_, ?_, ?_⟩
    · rw [hrun]; simp [indexer_after, hna, hoa]
    · rw [he]; simp [empty_after, hov]
    · exact slot_cleared_of_not_accepted env bake_tangents ortho_rotation tol hna
        (hsurf 0 (by simp) old0 hold0) (hside 0 (by simp))
    · have := hsurf 1 (by simp) old1 hold1
      simpa [material_id_after, indexer_after, hna, hoa] using this
    · exact hside 1 (by simp)
  · obtain ⟨bd', hrun, he, _, _, _, hsurf, hside, _⟩ := bake_mesh_geometry_full env
      [some other, some missing] [m0, m1] baked_data bake_tangents material_indexer
      ortho_rotation tol hclr (by simp [MAX_SURFACES]) (by simp) (hc _ (by simp))
    refine ⟨bd', ?_, ?_, ?_, ?_, ?_⟩
    · rw [hrun]; simp [indexer_after, hna, hoa]
    · rw [he]; simp [empty_after, hov]
    · exact slot_cleared_of_not_accepted env bake_tangents ortho_rotation tol hna
        (hsurf 1 (by simp) old1 hold1) (hside 1 (by simp))
    · have := hsurf 0 (by simp) old0 hold0
      simpa [material_id_after, indexer_after, hna, hoa] using this
    · exact hside 0 (by simp)

/-- Witness of C11: the example surface stripped of its index buffer, alone and
next to the example surface itself, in both orders. -/
theorem C11_missing_index_buffer_witness :
    (∃ bd', bake_mesh_geometry example_env [some missing_index_surface] [7] example_cleared
        false [] 0 (1 / 1000) = some (bd', []) ∧
      bd'.empty = true ∧ bd'.model.SlotCleared 0) ∧
    (∃ bd', bake_mesh_geometry example_env [some missing_index_surface, some example_surface]
        [7, 8] example_cleared false [] 0 (1 / 1000) =
        some (bd', (example_env.get_or_create_index [] 8).2) ∧
      bd'.empty = false ∧ bd'.model.SlotCleared 0 ∧
      bd'.model.surfaces[1]? = some (slot_surface example_env false 0 (1 / 1000)
        (some example_surface) (example_env.get_or_create_index [] 8).1) ∧
      ∀ k, k < SIDE_COUNT → bd'.model.side k 1 =
        some (slot_side example_env false 0 (1 / 1000) (some example_surface) k)) ∧
    (∃ bd', bake_mesh_geometry example_env [some example_surface, some missing_index_surface]
        [7, 8] example_cleared false [] 0 (1 / 1000) =
        some (bd', (example_env.get_or_create_index [] 7).2) ∧
      bd'.empty = false ∧ bd'.model.SlotCleared 1 ∧
      bd'.model.surfaces[0]? = some (slot_surface example_env false 0 (1 / 1000)
        (some example_surface) (example_env.get_or_create_index [] 7).1) ∧
      ∀ k, k < SIDE_COUNT → bd'.model.side k 0 =
        some (slot_side example_env false 0 (1 / 1000) (some example_surface) k)) :=
  C11_missing_index_buffer example_env missing_index_surface example_surface 7 8 example_cleared
    false [] 0 (1 / 1000) (clear_Cleared _) rfl (by decide) (by decide) (by decide)

theorem bake_surface_empty_true {σ μ : Type} (env : Env σ μ) (materials : List μ)
    (bake_tangents : Bool) (ortho_rotation : Nat) (tol : ℚ) (surface_index : Nat)
    (arrays : Option SurfaceArrays) (bd bd' : BakedModel) (s s' : σ)
    (hrun : bake_surface env materials bake_tangents ortho_rotation tol surface_index arrays
      bd s = some (bd', s'))
    (hempty : bd'.empty = true) : bd' = bd ∧ s' = s ∧ ¬ OptValidated arrays := by
  cases arrays with
  | none =>
    rw [bake_surface_none] at hrun
    have e := Option.some.inj hrun
    exact ⟨(congrArg Prod.fst e).symm, (congrArg Prod.snd e).symm, fun h => h⟩
  | some arr =>
    by_cases hv : Validated arr
    · exfalso
      have hne := hv.vertex_ne_zero
      by_cases hacc : Accepted env bake_tangents arr
      · rw [bake_surface_of_accepted env materials bake_tangents ortho_rotation tol
          surface_index arr bd s hacc] at hrun
        simp only [Option.bind_eq_some] at hrun
        obtain ⟨_, _, _, _, _, _, _, _, h⟩ := hrun
        have e := congrArg (fun r => r.1.empty) (Option.some.inj h)
        simp only [hne, decide_False] at e
        rw [hempty] at e
        exact Bool.noConfusion e
      · rw [bake_surface_validated_not_accepted env materials bake_tangents ortho_rotation tol
          surface_index arr bd s hv hacc] at hrun
        have e := congrArg (fun r => r.1.empty) (Option.some.inj hrun)
        simp only at e
        rw [hempty] at e
        exact Bool.noConfusion e
    · rw [bake_surface_not_validated env materials bake_tangents ortho_rotation tol
        surface_index arr bd s hv] at hrun
      have e := Option.some.inj hrun
      exact ⟨(congrArg Prod.fst e).symm, (congrArg Prod.snd e).symm, hv⟩

theorem bake_surfaces_from_empty_true {σ μ : Type} (env : Env σ μ) (materials : List μ)
    (bake_tangents : Bool) (ortho_rotation : Nat) (tol : ℚ) :
    ∀ (rest : List (Option SurfaceArrays)) (j : Nat) (bd bd' : BakedModel) (s s' : σ),
      bake_surfaces_from env materials bake_tangents ortho_rotation tol j rest (bd, s) =
        some (bd', s') →
      bd'.empty = true → bd' = bd ∧ s' = s ∧ ∀ arrays ∈ rest, ¬ OptValidated arrays := by
  intro rest
  induction rest with
  | nil =>
    intro j bd bd' s s' hrun _
    have e := Option.some.inj hrun
    exact ⟨(congrArg Prod.fst e).symm, (congrArg Prod.snd e).symm, fun _ h => absurd h (by simp)⟩
  | cons arr rest ih =>
    intro j bd bd' s s' hrun hempty
    simp only [bake_surfaces_from, Option.bind_eq_bind, Option.bind_eq_some] at hrun
    obtain ⟨⟨bd1, s1⟩, hrun1, hrun2⟩ := hrun
    obtain ⟨e1, e2, hrest⟩ := ih (j + 1) bd1 bd' s1 s' hrun2 hempty
    obtain ⟨f1, f2, hv⟩ := bake_surface_empty_true env materials bake_tangents ortho_rotation
      tol j arr bd bd1 s s1 hrun1 (by rw [← e1]; exact hempty)
    refine ⟨e1.trans f1, e2.trans f2, ?_⟩
    intro a ha
    rcases List.mem_cons.1 ha with h | h
    · rw [h]; exact hv
    · exact hrest a h

theorem bake_surfaces_from_none_validated {σ μ : Type} (env : Env σ μ) (materials : List μ)
    (bake_tangents : Bool) (ortho_rotation : Nat) (tol : ℚ) :
    ∀ (rest : List (Option SurfaceArrays)) (j : Nat) (bd : BakedModel) (s : σ),
      (∀ arrays ∈ rest, ¬ OptValidated arrays) →
      bake_surfaces_from env materials bake_tangents ortho_rotation tol j rest (bd, s) =
        some (bd, s) := by
  intro rest
  induction rest with
  | nil => intro j bd s _; rfl
  | cons arr rest ih =>
    intro j bd s h
    have h1 : bake_surface env materials bake_tangents ortho_rotation tol j arr bd s =
        some (bd, s) := by
      cases arr with
      | none => rfl
      | some a =>
        exact bake_surface_not_validated env materials bake_tangents ortho_rotation tol j a bd s
          (h (some a) (List.mem_cons_self _ _))
    simp only [bake_surfaces_from, Option.bind_eq_bind, h1, Option.some_bind]
    exact ih (j + 1) bd s (fun a ha => h a (List.mem_cons_of_mem _ ha))

theorem Model.Cleared.with_count {m : Model} (h : m.Cleared) (n : Nat) :
    ({ m with surface_count := n } : Model).Cleared := h

/-- C12: the model is marked empty only if nothing was baked. For every input
of `bake_mesh_geometry` (either overload) baked into a model without geometry,
if the empty flag is true after the call then no surface reached the
assignment of the flag, the indexer was not called, and every interior surface
and every side surface of the model still has no vertices and no indices
(`Model.Cleared`). A bake of surfaces none of which reaches the assignment does
return, with the flag as it was. -/
theorem C12_empty_only_if_nothing_baked {σ μ : Type} (env : Env σ μ)
    (surfaces : List (Option SurfaceArrays)) (materials : List μ)
    (config : VoxelBlockyModelMesh μ) (baked_data : BakedModel) (bake_tangents : Bool)
    (material_indexer : σ) (ortho_rotation : Nat) (tol : ℚ) (side_cutout_enabled : Bool)
    (hclr : baked_data.model.Cleared) :
    (∀ bd' s', bake_mesh_geometry env surfaces materials baked_data bake_tangents
        material_indexer ortho_rotation tol = some (bd', s') → bd'.empty = true →
      bd'.model.Cleared ∧ s' = material_indexer ∧ ∀ arrays ∈ surfaces, ¬ OptValidated arrays) ∧
    (∀ bd' s', config.bake_mesh_geometry env baked_data bake_tangents material_indexer tol
        side_cutout_enabled = some (bd', s') → bd'.empty = true →
      bd'.model.Cleared ∧ s' = material_indexer) ∧
    ((∀ arrays ∈ surfaces, ¬ OptValidated arrays) →
      ∃ bd', bake_mesh_geometry env surfaces materials baked_data bake_tangents
          material_indexer ortho_rotation tol = some (bd', material_indexer) ∧
        bd'.empty = baked_data.empty ∧ bd'.model.Cleared) := by
  refine ⟨?_, ?_, ?_⟩
  · intro bd' s' hrun hempty
    obtain ⟨e1, e2, hv⟩ := bake_surfaces_from_empty_true env materials bake_tangents
      ortho_rotation tol surfaces 0 _ bd' _ s' hrun hempty
    refine ⟨?_, e2, hv⟩
    rw [e1]
    exact hclr.with_count _
  · intro bd' s' hrun hempty
    unfold VoxelBlockyModelMesh.bake_mesh_geometry at hrun
    cases hmesh : config.mesh with
    | none =>
      simp only [hmesh] at hrun
      have e := Option.some.inj hrun
      have e1 : bd' = _ := (congrArg Prod.fst e).symm
      have e2 : s' = _ := (congrArg Prod.snd e).symm
      rw [e1]
      exact ⟨hclr, e2⟩
    | some mesh =>
      simp only [hmesh] at hrun
      obtain ⟨e1, e2, _⟩ := bake_surfaces_from_empty_true env _ bake_tangents
        _ tol _ 0 _ bd' _ s' hrun hempty
      refine ⟨?_, e2⟩
      rw [e1]
      exact hclr.with_count _
  · intro hv
    refine ⟨_, bake_surfaces_from_none_validated env materials bake_tangents ortho_rotation tol
      surfaces 0 _ material_indexer hv, rfl, hclr.with_count _⟩

/-- Witness of C12: a model whose only surface has no index buffer, and a model
with a null mesh, end with the empty flag true and without geometry. -/
theorem C12_empty_only_if_nothing_baked_witness :
    example_cleared.model.Cleared ∧
    (∃ bd', bake_mesh_geometry example_env [some missing_index_surface] [7] example_cleared
        true [] 0 (1 / 1000) = some (bd', []) ∧ bd'.empty = true ∧ bd'.model.Cleared) ∧
    (∀ bd' s', (example_config none).bake_mesh_geometry example_env example_cleared true []
        (1 / 1000) true = some (bd', s') → bd'.empty = true → bd'.model.Cleared ∧ s' = []) :=
  ⟨clear_Cleared _,
    (C12_empty_only_if_nothing_baked example_env [some missing_index_surface] [7]
      (example_config none) example_cleared true [] 0 (1 / 1000) true (clear_Cleared _)).2.2
      (by decide),
    (C12_empty_only_if_nothing_baked example_env [some missing_index_surface] [7]
      (example_config none) example_cleared true [] 0 (1 / 1000) true (clear_Cleared _)).2.1⟩

theorem take_min_length {α : Type} (l : List α) (n : Nat) :
    l.take (min l.length n) = l.take n := by
  by_cases h : l.length ≤ n
  · rw [Nat.min_eq_left h, List.take_length, List.take_of_length_le h]
  · rw [Nat.min_eq_right (by omega)]

theorem VoxelBlockyModelMesh.bake_mesh_geometry_some {σ μ : Type} (env : Env σ μ)
    (config : VoxelBlockyModelMesh μ) (mesh : Mesh μ) (baked_data : BakedModel)
    (bake_tangents : Bool) (material_indexer : σ) (tol : ℚ) (side_cutout_enabled : Bool)
    (hmesh : config.mesh = some mesh) :
    config.bake_mesh_geometry env baked_data bake_tangents material_indexer tol
        side_cutout_enabled =
      VoxelBlocky.bake_mesh_geometry env ((mesh.take MAX_SURFACES).map Prod.fst)
        ((mesh.take MAX_SURFACES).map Prod.snd)
        { baked_data with cutout_sides_enabled := side_cutout_enabled } bake_tangents
        material_indexer config.mesh_ortho_rotation_index tol := by
  unfold VoxelBlockyModelMesh.bake_mesh_geometry
  simp only [hmesh, take_min_length]

theorem zip_map_fst_snd {α β : Type} (l : List (α × β)) :
    (l.map Prod.fst).zip (l.map Prod.snd) = l := by
  induction l with
  | nil => rfl
  | cons p l ih => simp [ih]

/-- The whole result of the overload of `bake_mesh_geometry` that takes the
model configuration, for a mesh that is not null, on a model without geometry. -/
theorem config_bake_mesh_geometry_full {σ μ : Type} (env : Env σ μ)
    (config : VoxelBlockyModelMesh μ) (mesh : Mesh μ) (baked_data : BakedModel)
    (bake_tangents : Bool) (material_indexer : σ) (tol : ℚ) (side_cutout_enabled : Bool)
    (hmesh : config.mesh = some mesh) (hclr : baked_data.model.Cleared)
    (hcons : SurfacesConsistent env bake_tangents ((mesh.take MAX_SURFACES).map Prod.fst)) :
    ∃ bd', config.bake_mesh_geometry env baked_data bake_tangents material_indexer tol
        side_cutout_enabled =
        some (bd', indexer_after env bake_tangents (mesh.take MAX_SURFACES) material_indexer) ∧
      bd'.empty = empty_after ((mesh.take MAX_SURFACES).map Prod.fst) baked_data.empty ∧
      bd'.cutout_sides_enabled = side_cutout_enabled ∧
      bd'.model.Shaped ∧ bd'.model.surface_count = min mesh.length MAX_SURFACES ∧
      (∀ i p old, i < MAX_SURFACES → mesh[i]? = some p →
        baked_data.model.surfaces[i]? = some (Surface.cleared old) →
        bd'.model.surfaces[i]? =
          some (slot_surface env bake_tangents config.mesh_ortho_rotation_index tol p.1
            (material_id_after env bake_tangents (mesh.take MAX_SURFACES) material_indexer
              old i))) ∧
      (∀ i p, i < MAX_SURFACES → mesh[i]? = some p → ∀ k, k < SIDE_COUNT →
        bd'.model.side k i =
          some (slot_side env bake_tangents config.mesh_ortho_rotation_index tol p.1 k)) ∧
      ∀ i, min mesh.length MAX_SURFACES ≤ i →
        bd'.model.surfaces[i]? = baked_data.model.surfaces[i]? ∧
        ∀ k, bd'.model.side k i = baked_data.model.side k i := by
  have hlen : ((mesh.take MAX_SURFACES).map Prod.fst).length = min mesh.length MAX_SURFACES := by
    rw [List.length_map, List.length_take, Nat.min_comm]
  obtain ⟨bd', hrun, hempty, hcut, hshape, hcount, hsurf, hside, hframe⟩ :=
    bake_mesh_geometry_full env ((mesh.take MAX_SURFACES).map Prod.fst)
      ((mesh.take MAX_SURFACES).map Prod.snd)
      { baked_data with cutout_sides_enabled := side_cutout_enabled } bake_tangents
      material_indexer config.mesh_ortho_rotation_index tol hclr
      (by rw [hlen]; exact Nat.min_le_right _ _) (by simp) hcons
  rw [zip_map_fst_snd] at hrun hsurf
  have hget : ∀ i p, i < MAX_SURFACES → mesh[i]? = some p →
      ∃ hi : i < ((mesh.take MAX_SURFACES).map Prod.fst).length,
        ((mesh.take MAX_SURFACES).map Prod.fst)[i] = p.1 := by
    intro i p hi hp
    have hl : i < mesh.length := (List.getElem?_eq_some.1 hp).1
    have hi' : i < ((mesh.take MAX_SURFACES).map Prod.fst).length := by
      rw [hlen]; exact Nat.lt_min.2 ⟨hl, hi⟩
    refine ⟨hi', ?_⟩
    have h1 : ((mesh.take MAX_SURFACES).map Prod.fst)[i]? = some p.1 := by
      rw [List.getElem?_map, List.getElem?_take_of_lt hi, hp]; rfl
    rw [List.getElem?_eq_getElem hi'] at h1
    exact Option.some.inj h1
  refine ⟨bd', ?_, hempty, hcut, hshape, hcount.trans hlen, ?_, ?_, ?_⟩
  · rw [config.bake_mesh_geometry_some env mesh baked_data bake_tangents material_indexer tol
      side_cutout_enabled hmesh, hrun]
  · intro i p old hi hp hold
    obtain ⟨hi', hpe⟩ := hget i p hi hp
    have := hsurf i hi' old hold
    rw [hpe] at this
    exact this
  · intro i p hi hp k hk
    obtain ⟨hi', hpe⟩ := hget i p hi hp
    have := hside i hi' k hk
    rw [hpe] at this
    exact this
  · intro i hi
    exact hframe i (by rw [hlen]; exact hi)

/-- C13: `bake_mesh_geometry(config, ...)` on a mesh with `n` surfaces, into a
model without geometry, returns with `surface_count = min n MAX_SURFACES`, which
is at most `MAX_SURFACES = 2`, the length the arrays `surfaces` and each
`sides_surfaces[side]` keep (`Shaped`), so every surface index used is inside
them; the surface indices below that count hold the geometry of the mesh
surfaces with the same index, and the result is that of the mesh cut to its
first `MAX_SURFACES` surfaces, so that later surfaces are never baked. For
`n > MAX_SURFACES` the surface count is exactly `MAX_SURFACES`. -/
theorem C13_surface_count_capped {σ μ : Type} (env : Env σ μ)
    (config : VoxelBlockyModelMesh μ) (mesh : Mesh μ) (baked_data : BakedModel)
    (bake_tangents : Bool) (material_indexer : σ) (tol : ℚ) (side_cutout_enabled : Bool)
    (hmesh : config.mesh = some mesh) (hclr : baked_data.model.Cleared)
    (hcons : SurfacesConsistent env bake_tangents ((mesh.take MAX_SURFACES).map Prod.fst)) :
    MAX_SURFACES = 2 ∧
    ∃ bd' s', config.bake_mesh_geometry env baked_data bake_tangents material_indexer tol
        side_cutout_enabled = some (bd', s') ∧
      bd'.model.surface_count = min mesh.length MAX_SURFACES ∧
      bd'.model.surface_count ≤ MAX_SURFACES ∧
      (MAX_SURFACES < mesh.length → bd'.model.surface_count = MAX_SURFACES) ∧
      bd'.model.Shaped ∧
      (∀ i p, i < bd'.model.surface_count → mesh[i]? = some p →
        (∃ mid, bd'.model.surfaces[i]? =
          some (slot_surface env bake_tangents config.mesh_ortho_rotation_index tol p.1 mid)) ∧
        ∀ k, k < SIDE_COUNT → bd'.model.side k i =
          some (slot_side env bake_tangents config.mesh_ortho_rotation_index tol p.1 k)) ∧
      (∀ i, bd'.model.surface_count ≤ i → i < MAX_SURFACES →
        bd'.model.SlotCleared i) ∧
      { config with mesh := some (mesh.take MAX_SURFACES) }.bake_mesh_geometry env baked_data
        bake_tangents material_indexer tol side_cutout_enabled = some (bd', s') := by
  obtain ⟨bd', hrun, _, _, hshape, hcount, hsurf, hside, hframe⟩ :=
    config_bake_mesh_geometry_full env config mesh baked_data bake_tangents material_indexer tol
      side_cutout_enabled hmesh hclr hcons
  refine ⟨rfl, bd', _, hrun, hcount, ?_, ?_, hshape, ?_, ?_, ?_⟩
  · rw [hcount]; exact Nat.min_le_right _ _
  · intro h
    rw [hcount, Nat.min_eq_right (Nat.le_of_lt h)]
  · intro i p hi hp
    have hi' : i < MAX_SURFACES := by
      rw [hcount] at hi; exact (Nat.lt_min.1 hi).2
    obtain ⟨old, hold⟩ := cleared_old hclr hi'
    exact ⟨⟨_, hsurf i p old hi' hp hold⟩, hside i p hi' hp⟩
  · intro i hi hi'
    obtain ⟨hs, hk⟩ := hframe i (by rw [← hcount]; exact hi)
    obtain ⟨⟨mid, hmid⟩, hsides⟩ := hclr.slot hi'
    exact ⟨⟨mid, by rw [hs]; exact hmid⟩, fun k hk' => by rw [hk k]; exact hsides k hk'⟩
  · rw [VoxelBlockyModelMesh.bake_mesh_geometry_some env _ (mesh.take MAX_SURFACES) baked_data
      bake_tangents material_indexer tol side_cutout_enabled rfl, List.take_take, Nat.min_self,
      ← config.bake_mesh_geometry_some env mesh baked_data bake_tangents material_indexer tol
        side_cutout_enabled hmesh, hrun]

theorem three_surface_mesh_consistent :
    SurfacesConsistent example_env false ((three_surface_mesh.take MAX_SURFACES).map Prod.fst) := by
  intro arr harr
  have h : arr = example_surface ∨ arr = missing_index_surface := by
    simpa [three_surface_mesh, MAX_SURFACES] using harr
  rcases h with h | h <;> subst h <;> decide

/-- Witness of C13: a mesh with three surfaces is baked as its first two. -/
theorem C13_surface_count_capped_witness :
    MAX_SURFACES = 2 ∧
    ∃ bd' s', (example_config (some three_surface_mesh)).bake_mesh_geometry example_env
        example_cleared false [] (1 / 1000) true = some (bd', s') ∧
      bd'.model.surface_count = min three_surface_mesh.length MAX_SURFACES ∧
      bd'.model.surface_count ≤ MAX_SURFACES ∧
      (MAX_SURFACES < three_surface_mesh.length → bd'.model.surface_count = MAX_SURFACES) ∧
      bd'.model.Shaped ∧
      (∀ i p, i < bd'.model.surface_count → three_surface_mesh[i]? = some p →
        (∃ mid, bd'.model.surfaces[i]? = some (slot_surface example_env false
          (example_config (some three_surface_mesh)).mesh_ortho_rotation_index (1 / 1000) p.1
          mid)) ∧
        ∀ k, k < SIDE_COUNT → bd'.model.side k i = some (slot_side example_env false
          (example_config (some three_surface_mesh)).mesh_ortho_rotation_index (1 / 1000) p.1
          k)) ∧
      (∀ i, bd'.model.surface_count ≤ i → i < MAX_SURFACES → bd'.model.SlotCleared i) ∧
      { example_config (some three_surface_mesh) with
        mesh := some (three_surface_mesh.take MAX_SURFACES) }.bake_mesh_geometry example_env
        example_cleared false [] (1 / 1000) true = some (bd', s') :=
  C13_surface_count_capped example_env (example_config (some three_surface_mesh))
    three_surface_mesh example_cleared false [] (1 / 1000) true rfl (clear_Cleared _)
    three_surface_mesh_consistent

/-! ## Rotation of the mesh arrays -/

theorem Vector3f.eq_of_coords {a b : Vector3f} (hx : a.x = b.x) (hy : a.y = b.y)
    (hz : a.z = b.z) : a = b := by
  cases a; cases b
  simp only at hx hy hz
  rw [hx, hy, hz]

theorem add_neg_centre (p : Vector3f) :
    p.add ⟨-(1 / 2), -(1 / 2), -(1 / 2)⟩ = p.sub cube_centre := by
  apply Vector3f.eq_of_coords <;> simp only [Vector3f.add, Vector3f.sub, cube_centre] <;> ring

theorem xform_zero (basis : Basis) : basis.xform ⟨0, 0, 0⟩ = ⟨0, 0, 0⟩ := by
  apply Vector3f.eq_of_coords <;> simp [Basis.xform]

theorem xform_identity (v : Vector3f) : Basis.identity.xform v = v := by
  apply Vector3f.eq_of_coords <;> simp [Basis.xform, Basis.identity]

theorem xform_compose (a b : Basis) (v : Vector3f) :
    (a.compose b).xform v = a.xform (b.xform v) := by
  apply Vector3f.eq_of_coords <;> simp only [Basis.xform, Basis.compose] <;> ring

theorem xform_inverse {b' b : Basis} (h : b'.InverseOf b) (v : Vector3f) :
    b'.xform (b.xform v) = v := by
  rw [← xform_compose, h, xform_identity]

theorem mul_inverse {b' b : Basis} (h : b'.InverseOf b) (vectors : List Vector3f) :
    mul (mul vectors b) b' = vectors := by
  unfold mul
  rw [List.map_map]
  conv_rhs => rw [← List.map_id vectors]
  apply List.map_congr_left
  intro v _
  exact xform_inverse h v

theorem dot_xform_of_orthogonal {b : Basis} (h : b.Orthogonal) (u v : Vector3f) :
    dot (b.xform u) (b.xform v) = dot u v := by
  obtain ⟨hxx, hyy, hzz, hxy, hyz, hzx⟩ := h
  simp only [dot, Basis.xform] at *
  linear_combination (u.x * v.x) * hxx + (u.y * v.y) * hyy + (u.z * v.z) * hzz +
    (u.x * v.y + u.y * v.x) * hxy + (u.y * v.z + u.z * v.y) * hyz +
    (u.z * v.x + u.x * v.z) * hzx

theorem transposed_inverse_of_orthogonal {b : Basis} (h : b.Orthogonal) :
    b.transposed.InverseOf b := by
  obtain ⟨hxx, hyy, hzz, hxy, hyz, hzx⟩ := h
  simp only [dot] at *
  unfold Basis.InverseOf Basis.compose Basis.identity Basis.transposed Basis.xform
  simp only [Basis.mk.injEq, Vector3f.mk.injEq]
  refine ⟨⟨?_, ?_, ?_⟩, ⟨?_, ?_, ?_⟩, ⟨?_, ?_, ?_⟩⟩
  · linear_combination hxx
  · linear_combination hxy
  · linear_combination hzx
  · linear_combination hxy
  · linear_combination hyy
  · linear_combination hyz
  · linear_combination hzx
  · linear_combination hyz
  · linear_combination hzz

theorem sq_sum_zero {a b c : ℚ} (h : a * a + b * b + c * c = 0) : a = 0 ∧ b = 0 ∧ c = 0 := by
  have ha := mul_self_nonneg a
  have hb := mul_self_nonneg b
  have hc := mul_self_nonneg c
  refine ⟨mul_self_eq_zero.1 (by linarith), mul_self_eq_zero.1 (by linarith),
    mul_self_eq_zero.1 (by linarith)⟩

/-- The axes of a proper rotation are right-handed. -/
theorem Basis.Proper.axes {b : Basis} (h : b.Proper) :
    cross b.x b.y = b.z ∧ cross b.y b.z = b.x ∧ cross b.z b.x = b.y := by
  obtain ⟨⟨hxx, hyy, hzz, hxy, hyz, hzx⟩, hdet⟩ := h
  simp only [dot, cross, Basis.determinant] at *
  have h1 := @sq_sum_zero (b.x.y * b.y.z - b.x.z * b.y.y - b.z.x)
    (b.x.z * b.y.x - b.x.x * b.y.z - b.z.y) (b.x.x * b.y.y - b.x.y * b.y.x - b.z.z)
    (by linear_combination (b.y.x * b.y.x + b.y.y * b.y.y + b.y.z * b.y.z) * hxx + hyy -
      (b.x.x * b.y.x + b.x.y * b.y.y + b.x.z * b.y.z) * hxy - 2 * hdet + hzz)
  have h2 := @sq_sum_zero (b.y.y * b.z.z - b.y.z * b.z.y - b.x.x)
    (b.y.z * b.z.x - b.y.x * b.z.z - b.x.y) (b.y.x * b.z.y - b.y.y * b.z.x - b.x.z)
    (by linear_combination (b.z.x * b.z.x + b.z.y * b.z.y + b.z.z * b.z.z) * hyy + hzz -
      (b.y.x * b.z.x + b.y.y * b.z.y + b.y.z * b.z.z) * hyz - 2 * hdet + hxx)
  have h3 := @sq_sum_zero (b.z.y * b.x.z - b.z.z * b.x.y - b.y.x)
    (b.z.z * b.x.x - b.z.x * b.x.z - b.y.y) (b.z.x * b.x.y - b.z.y * b.x.x - b.y.z)
    (by linear_combination (b.x.x * b.x.x + b.x.y * b.x.y + b.x.z * b.x.z) * hzz + hxx -
      (b.z.x * b.x.x + b.z.y * b.x.y + b.z.z * b.x.z) * hzx - 2 * hdet + hyy)
  refine ⟨?_, ?_, ?_⟩
  · apply Vector3f.eq_of_coords
    · linear_combination h1.1
    · linear_combination h1.2.1
    · linear_combination h1.2.2
  · apply Vector3f.eq_of_coords
    · linear_combination h2.1
    · linear_combination h2.2.1
    · linear_combination h2.2.2
  · apply Vector3f.eq_of_coords
    · linear_combination h3.1
    · linear_combination h3.2.1
    · linear_combination h3.2.2

/-- A proper rotation commutes with the cross product. -/
theorem cross_xform_of_proper {b : Basis} (h : b.Proper) (u v : Vector3f) :
    cross (b.xform u) (b.xform v) = b.xform (cross u v) := by
  obtain ⟨hz, hx, hy⟩ := h.axes
  have hzx := congrArg Vector3f.x hz
  have hzy := congrArg Vector3f.y hz
  have hzz := congrArg Vector3f.z hz
  have hxx := congrArg Vector3f.x hx
  have hxy := congrArg Vector3f.y hx
  have hxz := congrArg Vector3f.z hx
  have hyx := congrArg Vector3f.x hy
  have hyy := congrArg Vector3f.y hy
  have hyz := congrArg Vector3f.z hy
  simp only [cross] at hzx hzy hzz hxx hxy hxz hyx hyy hyz
  apply Vector3f.eq_of_coords
  · simp only [cross, Basis.xform]
    linear_combination (u.x * v.y - u.y * v.x) * hzx + (u.y * v.z - u.z * v.y) * hxx +
      (u.z * v.x - u.x * v.z) * hyx
  · simp only [cross, Basis.xform]
    linear_combination (u.x * v.y - u.y * v.x) * hzy + (u.y * v.z - u.z * v.y) * hxy +
      (u.z * v.x - u.x * v.z) * hyy
  · simp only [cross, Basis.xform]
    linear_combination (u.x * v.y - u.y * v.x) * hzz + (u.y * v.z - u.z * v.y) * hxz +
      (u.z * v.x - u.x * v.z) * hyz

theorem xform_scale (b : Basis) (v : Vector3f) (s : ℚ) :
    b.xform (v.scale s) = (b.xform v).scale s := by
  apply Vector3f.eq_of_coords <;> simp only [Basis.xform, Vector3f.scale] <;> ring

theorem dot_scale_left (u v : Vector3f) (s : ℚ) : dot (u.scale s) v = s * dot u v := by
  simp only [dot, Vector3f.scale]; ring

theorem dot_self_pos {v : Vector3f} (h : v ≠ ⟨0, 0, 0⟩) : 0 < dot v v := by
  have hx := mul_self_nonneg v.x
  have hy := mul_self_nonneg v.y
  have hz := mul_self_nonneg v.z
  have hne : dot v v ≠ 0 := by
    intro h0
    simp only [dot] at h0
    obtain ⟨h1, h2, h3⟩ := sq_sum_zero h0
    exact h (Vector3f.eq_of_coords h1 h2 h3)
  have hge : 0 ≤ dot v v := by simp only [dot]; linarith
  exact lt_of_le_of_ne hge (Ne.symm hne)

/-- A proper rotation keeps the stored bitangent sign. -/
theorem rotated_sign_of_proper {b : Basis} (h : b.Proper) (n t : Vector3f) (s : ℚ)
    (hs : s = 1 ∨ s = -1) (hnt : cross n t ≠ ⟨0, 0, 0⟩) : rotated_sign b n t s = s := by
  have hpos := dot_self_pos hnt
  unfold rotated_sign
  rw [cross_xform_of_proper h, xform_scale, dot_scale_left, dot_xform_of_orthogonal h.1]
  unfold sign_nonzero
  rcases hs with hs | hs
  · rw [hs, if_neg (by linarith)]
  · rw [hs, if_pos (by linarith)]

theorem rotate_normals_tangents_normals (basis : Basis) :
    ∀ (normals : List Vector3f) (tangents : List ℚ), tangents.length / 4 = normals.length →
      (rotate_normals_tangents basis normals tangents).1 = normals.map basis.xform := by
  intro normals
  induction normals with
  | nil => intro tangents _; simp [rotate_normals_tangents]
  | cons n rest ih =>
    intro tangents hlen
    match tangents, hlen with
    | t0 :: t1 :: t2 :: t3 :: ts, hlen =>
      have h : ts.length / 4 = rest.length := by
        simp only [List.length_cons] at hlen; omega
      simp only [rotate_normals_tangents, List.map_cons, ih ts h]
    | [], hlen => simp only [List.length_cons, List.length_nil] at hlen; omega
    | [_], hlen => simp only [List.length_cons, List.length_nil] at hlen; omega
    | [_, _], hlen => simp only [List.length_cons, List.length_nil] at hlen; omega
    | [_, _, _], hlen => simp only [List.length_cons, List.length_nil] at hlen; omega

theorem getElem?_add_four {α : Type} (a b c d : α) (l : List α) (k : Nat) :
    (a :: b :: c :: d :: l)[k + 4]? = l[k]? := by
  simp only [List.getElem?_cons_succ]

theorem tangent_at_succ (a b c d : ℚ) (ts : List ℚ) (i : Nat) :
    tangent_at (a :: b :: c :: d :: ts) ((i + 1 : Nat) : Int) = tangent_at ts (i : Int) := by
  rw [tangent_at_natCast, tangent_at_natCast]
  have e0 : 4 * (i + 1) = 4 * i + 4 := by omega
  have e1 : 4 * i + 4 + 1 = 4 * i + 1 + 4 := by omega
  have e2 : 4 * i + 4 + 2 = 4 * i + 2 + 4 := by omega
  have e3 : 4 * i + 4 + 3 = 4 * i + 3 + 4 := by omega
  rw [e0, e1, e2, e3]
  simp only [getElem?_add_four]

theorem tangent_at_zero (a b c d : ℚ) (ts : List ℚ) :
    tangent_at (a :: b :: c :: d :: ts) ((0 : Nat) : Int) = some [a, b, c, d] := by
  rw [tangent_at_natCast]; simp

theorem rotate_normals_tangents_at (basis : Basis) :
    ∀ (normals : List Vector3f) (tangents : List ℚ) (i : Nat) (n : Vector3f) (t0 t1 t2 s : ℚ),
      normals[i]? = some n → tangent_at tangents (i : Int) = some [t0, t1, t2, s] →
      (rotate_normals_tangents basis normals tangents).1[i]? = some (basis.xform n) ∧
      tangent_at (rotate_normals_tangents basis normals tangents).2 (i : Int) =
        some [(basis.xform ⟨t0, t1, t2⟩).x, (basis.xform ⟨t0, t1, t2⟩).y,
          (basis.xform ⟨t0, t1, t2⟩).z, rotated_sign basis n ⟨t0, t1, t2⟩ s] := by
  intro normals
  induction normals with
  | nil => intro tangents i n t0 t1 t2 s hn _; simp at hn
  | cons n0 rest ih =>
    intro tangents i n t0 t1 t2 s hn ht
    match tangents, ht with
    | a :: b :: c :: d :: ts, ht =>
      cases i with
      | zero =>
        rw [tangent_at_zero] at ht
        simp only [List.getElem?_cons_zero, Option.some.injEq] at hn
        simp only [Option.some.injEq, List.cons.injEq, and_true] at ht
        obtain ⟨rfl, rfl, rfl, rfl⟩ := ht
        subst hn
        simp only [rotate_normals_tangents, List.getElem?_cons_zero, tangent_at_zero, true_and]
        rfl
      | succ i =>
        rw [tangent_at_succ] at ht
        simp only [List.getElem?_cons_succ] at hn
        obtain ⟨h1, h2⟩ := ih ts i n t0 t1 t2 s hn ht
        simp only [rotate_normals_tangents, List.getElem?_cons_succ, tangent_at_succ]
        exact ⟨h1, h2⟩
    | [], ht => rw [tangent_at_natCast] at ht; simp at ht
    | [_], ht => rw [tangent_at_natCast] at ht; simp at ht
    | [_, _], ht => rw [tangent_at_natCast] at ht; simp at ht
    | [_, _, _], ht => rw [tangent_at_natCast] at ht; simp at ht

theorem rotate_mesh_arrays_vertices (vertices normals : List Vector3f) (tangents : List ℚ)
    (basis : Basis) : (rotate_mesh_arrays vertices normals tangents basis).1 = mul vertices basis := by
  unfold rotate_mesh_arrays
  simp only
  split
  · rfl
  · split <;> rfl

theorem rotate_mesh_arrays_normals (vertices normals : List Vector3f) (tangents : List ℚ)
    (basis : Basis) (h : tangents.length = 0 ∨ tangents.length / 4 = normals.length) :
    (rotate_mesh_arrays vertices normals tangents basis).2.1 = normals.map basis.xform := by
  unfold rotate_mesh_arrays
  simp only
  split
  · rfl
  · rename_i hne
    rcases h with h | h
    · exact absurd h hne
    · rw [if_neg (not_not.2 h)]
      exact rotate_normals_tangents_normals basis normals tangents h

theorem rotate_mesh_arrays_no_tangents (vertices normals : List Vector3f) (basis : Basis) :
    rotate_mesh_arrays vertices normals [] basis = (mul vertices basis, mul normals basis, []) := by
  unfold rotate_mesh_arrays
  simp

theorem working_arrays_rotated {σ μ : Type} (env : Env σ μ) (bake_tangents : Bool)
    (ortho_rotation : Nat) (arrays : SurfaceArrays) (W : Working)
    (h : working_arrays env bake_tangents ortho_rotation arrays = some W) :
    W.positions = (rotation_step env ortho_rotation arrays.vertex arrays.normal
      arrays.tangent).1 ∧
    W.normals = (rotation_step env ortho_rotation arrays.vertex arrays.normal
      arrays.tangent).2.1 := by
  unfold working_arrays at h
  simp only [Option.bind_eq_bind, Option.pure_def] at h
  split at h
  · rw [Option.bind_eq_some] at h
    obtain ⟨t, _, h⟩ := h
    rw [← Option.some.inj h]
    exact ⟨rfl, rfl⟩
  · rw [Option.bind_eq_some] at h
    obtain ⟨t, _, h⟩ := h
    rw [← Option.some.inj h]
    exact ⟨rfl, rfl⟩

/-! ## Claims on the rotation step -/

/-- C14: for a surface whose tangent array is empty or passes the size check of
`rotate_mesh_arrays` (its size divided by 4 is the normal count, as it is with
four floats per normal): when the rotation index is not the identity index,
the rotation step turns every position `p` into `B (p - c) + c`, with `B` the
basis of the rotation index and `c = (0.5, 0.5, 0.5)`, and every normal `n` into
`B n` without translation, and the cube centre is a fixed point; when the
rotation index is the identity index, positions, normals and tangents are
unchanged. The positions and normals after the rotation step are those the
triangle loop classifies and stores. -/
theorem C14_rotation_about_cube_centre {σ μ : Type} (env : Env σ μ) (ortho_rotation : Nat)
    (positions normals : List Vector3f) (tangents : List ℚ)
    (hsize : tangents.length = 0 ∨ tangents.length / 4 = normals.length) :
    (ortho_rotation ≠ env.ORTHOGONAL_BASIS_IDENTITY_INDEX →
      (rotation_step env ortho_rotation positions normals tangents).1 =
        positions.map (fun p => ((env.get_ortho_basis_from_index ortho_rotation).xform
          (p.sub cube_centre)).add cube_centre) ∧
      (rotation_step env ortho_rotation positions normals tangents).2.1 =
        normals.map (fun n => (env.get_ortho_basis_from_index ortho_rotation).xform n) ∧
      ((env.get_ortho_basis_from_index ortho_rotation).xform
        (cube_centre.sub cube_centre)).add cube_centre = cube_centre) ∧
    (ortho_rotation = env.ORTHOGONAL_BASIS_IDENTITY_INDEX →
      rotation_step env ortho_rotation positions normals tangents =
        (positions, normals, tangents)) ∧
    ∀ (bake_tangents : Bool) (arrays : SurfaceArrays) (W : Working),
      working_arrays env bake_tangents ortho_rotation arrays = some W →
      W.positions = (rotation_step env ortho_rotation arrays.vertex arrays.normal
        arrays.tangent).1 ∧
      W.normals = (rotation_step env ortho_rotation arrays.vertex arrays.normal
        arrays.tangent).2.1 := by
  refine ⟨fun hrot => ⟨?_, ?_, ?_⟩, ?_,
    fun bake_tangents => working_arrays_rotated env bake_tangents ortho_rotation⟩
  · unfold rotation_step
    rw [if_pos hrot]
    simp only [rotate_mesh_arrays_ortho, rotate_mesh_arrays_vertices]
    unfold add mul
    rw [List.map_map, List.map_map]
    apply List.map_congr_left
    intro p _
    simp only [Function.comp_apply, add_neg_centre]
    rfl
  · unfold rotation_step
    rw [if_pos hrot]
    simp only [rotate_mesh_arrays_ortho]
    exact rotate_mesh_arrays_normals _ normals tangents _ hsize
  · have : cube_centre.sub cube_centre = ⟨0, 0, 0⟩ := by
      apply Vector3f.eq_of_coords <;> simp [Vector3f.sub]
    rw [this, xform_zero]
    apply Vector3f.eq_of_coords <;> simp [Vector3f.add, cube_centre]
  · intro hrot
    rw [hrot]
    exact rotation_step_identity env positions normals tangents

/-- Witness of C14: on a vertex with four tangent floats, the quarter turn about
Z takes the corner `(1, 0, 0)` of the cube to the corner `(1, 1, 0)` and the
normal `(1, 0, 0)` to `(0, 1, 0)`; the identity index changes nothing. -/
theorem C14_rotation_about_cube_centre_witness :
    ((rotation_step turned_env 1 [⟨1, 0, 0⟩] [⟨1, 0, 0⟩] [0, 0, 1, 1]).1 =
        [(⟨1, 0, 0⟩ : Vector3f)].map (fun p => ((turned_env.get_ortho_basis_from_index 1).xform
          (p.sub cube_centre)).add cube_centre) ∧
      (rotation_step turned_env 1 [⟨1, 0, 0⟩] [⟨1, 0, 0⟩] [0, 0, 1, 1]).2.1 =
        [(⟨1, 0, 0⟩ : Vector3f)].map
          (fun n => (turned_env.get_ortho_basis_from_index 1).xform n) ∧
      ((turned_env.get_ortho_basis_from_index 1).xform
        (cube_centre.sub cube_centre)).add cube_centre = cube_centre) ∧
    (rotation_step turned_env 1 [⟨1, 0, 0⟩] [⟨1, 0, 0⟩] [0, 0, 1, 1]).1 = [⟨1, 1, 0⟩] ∧
    (rotation_step turned_env 1 [⟨1, 0, 0⟩] [⟨1, 0, 0⟩] [0, 0, 1, 1]).2.1 = [⟨0, 1, 0⟩] ∧
    rotation_step turned_env 0 [⟨1, 0, 0⟩] [⟨1, 0, 0⟩] [0, 0, 1, 1] =
      ([⟨1, 0, 0⟩], [⟨1, 0, 0⟩], [0, 0, 1, 1]) :=
  ⟨(C14_rotation_about_cube_centre turned_env 1 [⟨1, 0, 0⟩] [⟨1, 0, 0⟩] [0, 0, 1, 1]
      (Or.inr (by decide))).1 (by decide),
    by decide!, by decide!,
    (C14_rotation_about_cube_centre turned_env 0 [⟨1, 0, 0⟩] [⟨1, 0, 0⟩] [0, 0, 1, 1]
      (Or.inr (by decide))).2.1 rfl⟩

/-- C15: in exact arithmetic, for a basis `B` and a basis `B'` that undoes it,
`rotate_mesh_arrays` with `B` and then with `B'` on vertex and normal arrays
without tangents gives back the original vertices and normals; the transposed
basis undoes an orthogonal `B` (so the inverse of a 90-degree rotation is
covered), and each normal rotated by an orthogonal `B` has the squared length
of the original. -/
theorem C15_rotation_round_trip (basis inverse : Basis) (vertices normals : List Vector3f)
    (hinv : inverse.InverseOf basis) :
    rotate_mesh_arrays (rotate_mesh_arrays vertices normals [] basis).1
      (rotate_mesh_arrays vertices normals [] basis).2.1
      (rotate_mesh_arrays vertices normals [] basis).2.2 inverse = (vertices, normals, []) ∧
    (basis.Orthogonal →
      basis.transposed.InverseOf basis ∧
      (rotate_mesh_arrays vertices normals [] basis).2.1.map (fun n => dot n n) =
        normals.map (fun n => dot n n)) := by
  refine ⟨?_, fun horth => ⟨transposed_inverse_of_orthogonal horth, ?_⟩⟩
  · rw [rotate_mesh_arrays_no_tangents, rotate_mesh_arrays_no_tangents, mul_inverse hinv,
      mul_inverse hinv]
  · rw [rotate_mesh_arrays_no_tangents]
    unfold mul
    rw [List.map_map]
    apply List.map_congr_left
    intro n _
    exact dot_xform_of_orthogonal horth n n

/-- Witness of C15: the quarter turn about Z and its transpose. -/
theorem C15_rotation_round_trip_witness :
    quarter_turn_z.transposed.InverseOf quarter_turn_z ∧ quarter_turn_z.Orthogonal ∧
    rotate_mesh_arrays
      (rotate_mesh_arrays [⟨1, 0, 0⟩, ⟨1 / 4, 3 / 4, 1 / 2⟩] [⟨0, 0, 1⟩, ⟨3 / 5, 4 / 5, 0⟩] []
        quarter_turn_z).1
      (rotate_mesh_arrays [⟨1, 0, 0⟩, ⟨1 / 4, 3 / 4, 1 / 2⟩] [⟨0, 0, 1⟩, ⟨3 / 5, 4 / 5, 0⟩] []
        quarter_turn_z).2.1
      (rotate_mesh_arrays [⟨1, 0, 0⟩, ⟨1 / 4, 3 / 4, 1 / 2⟩] [⟨0, 0, 1⟩, ⟨3 / 5, 4 / 5, 0⟩] []
        quarter_turn_z).2.2 quarter_turn_z.transposed =
      ([⟨1, 0, 0⟩, ⟨1 / 4, 3 / 4, 1 / 2⟩], [⟨0, 0, 1⟩, ⟨3 / 5, 4 / 5, 0⟩], []) ∧
    (rotate_mesh_arrays [⟨1, 0, 0⟩, ⟨1 / 4, 3 / 4, 1 / 2⟩] [⟨0, 0, 1⟩, ⟨3 / 5, 4 / 5, 0⟩] []
        quarter_turn_z).2.1.map (fun n => dot n n) =
      [(⟨0, 0, 1⟩ : Vector3f), ⟨3 / 5, 4 / 5, 0⟩].map (fun n => dot n n) :=
  ⟨by decide!, by decide!,
    (C15_rotation_round_trip quarter_turn_z quarter_turn_z.transposed
      [⟨1, 0, 0⟩, ⟨1 / 4, 3 / 4, 1 / 2⟩] [⟨0, 0, 1⟩, ⟨3 / 5, 4 / 5, 0⟩] (by decide!)).1,
    ((C15_rotation_round_trip quarter_turn_z quarter_turn_z.transposed
      [⟨1, 0, 0⟩, ⟨1 / 4, 3 / 4, 1 / 2⟩] [⟨0, 0, 1⟩, ⟨3 / 5, 4 / 5, 0⟩] (by decide!)).2
      (by decide!)).2⟩

/-- C16: `rotate_mesh_arrays` with four tangent floats per normal replaces every
normal `n` by `B n`, the tangent `t` stored with it by `B t`, and the stored
sign `s` by `sign_nonzero ((B ((n x t) * s)) . ((B n) x (B t)))`
(`rotated_sign`); for a proper rotation `B` (orthogonal, determinant 1), a sign
`s` that is +1 or -1 and `n x t` nonzero, the recomputed sign is `s`. -/
theorem C16_tangent_sign_recomputed (basis : Basis) (vertices normals : List Vector3f)
    (tangents : List ℚ) (hlen : tangents.length = 4 * normals.length) :
    (rotate_mesh_arrays vertices normals tangents basis).2.1 = normals.map basis.xform ∧
    (∀ (i : Nat) (n : Vector3f) (t0 t1 t2 s : ℚ), normals[i]? = some n →
      tangent_at tangents (i : Int) = some [t0, t1, t2, s] →
      tangent_at (rotate_mesh_arrays vertices normals tangents basis).2.2 (i : Int) =
        some [(basis.xform ⟨t0, t1, t2⟩).x, (basis.xform ⟨t0, t1, t2⟩).y,
          (basis.xform ⟨t0, t1, t2⟩).z, rotated_sign basis n ⟨t0, t1, t2⟩ s]) ∧
    (∀ (i : Nat), i < normals.length →
      ∃ n t0 t1 t2 s, normals[i]? = some n ∧
        tangent_at tangents (i : Int) = some [t0, t1, t2, s]) ∧
    (basis.Proper → ∀ (n t : Vector3f) (s : ℚ), (s = 1 ∨ s = -1) → cross n t ≠ ⟨0, 0, 0⟩ →
      rotated_sign basis n t s = s) := by
  have hdiv : tangents.length / 4 = normals.length := by omega
  refine ⟨rotate_mesh_arrays_normals vertices normals tangents basis (Or.inr hdiv), ?_, ?_,
    fun h n t s hs hnt => rotated_sign_of_proper h n t s hs hnt⟩
  · intro i n t0 t1 t2 s hn ht
    have hne : tangents.length ≠ 0 := by
      have := (List.getElem?_eq_some.1 hn).1
      omega
    unfold rotate_mesh_arrays
    simp only [if_neg hne, if_neg (not_not.2 hdiv)]
    exact (rotate_normals_tangents_at basis normals tangents i n t0 t1 t2 s hn ht).2
  · intro i hi
    have h0 : 4 * i < tangents.length := by omega
    have h1 : 4 * i + 1 < tangents.length := by omega
    have h2 : 4 * i + 2 < tangents.length := by omega
    have h3 : 4 * i + 3 < tangents.length := by omega
    refine ⟨normals[i], tangents[4 * i], tangents[4 * i + 1], tangents[4 * i + 2],
      tangents[4 * i + 3], List.getElem?_eq_getElem hi, ?_⟩
    rw [tangent_at_natCast, List.getElem?_eq_getElem h0, List.getElem?_eq_getElem h1,
      List.getElem?_eq_getElem h2, List.getElem?_eq_getElem h3]
    rfl

/-- Witness of C16: the quarter turn about Z on a vertex with normal +Z, tangent
+X and sign -1: the normal stays +Z, the tangent becomes +Y and the sign stays
-1. -/
theorem C16_tangent_sign_recomputed_witness :
    (rotate_mesh_arrays [⟨0, 0, 1⟩] [⟨0, 0, 1⟩] [1, 0, 0, -1] quarter_turn_z).2.1 =
      [(⟨0, 0, 1⟩ : Vector3f)].map quarter_turn_z.xform ∧
    tangent_at (rotate_mesh_arrays [⟨0, 0, 1⟩] [⟨0, 0, 1⟩] [1, 0, 0, -1] quarter_turn_z).2.2
        ((0 : Nat) : Int) =
      some [(quarter_turn_z.xform ⟨1, 0, 0⟩).x, (quarter_turn_z.xform ⟨1, 0, 0⟩).y,
        (quarter_turn_z.xform ⟨1, 0, 0⟩).z, rotated_sign quarter_turn_z ⟨0, 0, 1⟩ ⟨1, 0, 0⟩ (-1)] ∧
    rotated_sign quarter_turn_z ⟨0, 0, 1⟩ ⟨1, 0, 0⟩ (-1) = -1 ∧
    (rotate_mesh_arrays [⟨0, 0, 1⟩] [⟨0, 0, 1⟩] [1, 0, 0, -1] quarter_turn_z).2.2 =
      [0, 1, 0, -1] :=
  ⟨(C16_tangent_sign_recomputed quarter_turn_z [⟨0, 0, 1⟩] [⟨0, 0, 1⟩] [1, 0, 0, -1] rfl).1,
    (C16_tangent_sign_recomputed quarter_turn_z [⟨0, 0, 1⟩] [⟨0, 0, 1⟩] [1, 0, 0, -1] rfl).2.1
      0 ⟨0, 0, 1⟩ 1 0 0 (-1) rfl (by decide!),
    (C16_tangent_sign_recomputed quarter_turn_z [⟨0, 0, 1⟩] [⟨0, 0, 1⟩] [1, 0, 0, -1]
      rfl).2.2.2 (by decide!) ⟨0, 0, 1⟩ ⟨1, 0, 0⟩ (-1) (Or.inr rfl) (by decide!),
    by decide!⟩

/-! ## Claims on the tangent modes -/

theorem slot_surface_tangents_off {σ μ : Type} (env : Env σ μ) (ortho_rotation : Nat) (tol : ℚ)
    (arrays : Option SurfaceArrays) (mid : Nat) :
    (slot_surface env false ortho_rotation tol arrays mid).tangents = [] := by
  unfold slot_surface
  cases slot_working env false ortho_rotation arrays with
  | none => rfl
  | some r => rfl

theorem slot_side_tangents_off {σ μ : Type} (env : Env σ μ) (ortho_rotation : Nat) (tol : ℚ)
    (arrays : Option SurfaceArrays) (k : Nat) :
    (slot_side env false ortho_rotation tol arrays k).tangents = [] := by
  unfold slot_side
  cases slot_working env false ortho_rotation arrays with
  | none => rfl
  | some r => rfl

theorem mem_surfaces_index {m : Model} (h : m.Shaped) {surface : Surface}
    (hs : surface ∈ m.surfaces) : ∃ i, i < MAX_SURFACES ∧ m.surfaces[i]? = some surface := by
  obtain ⟨i, hi, hget⟩ := List.getElem_of_mem hs
  refine ⟨i, by rw [← h.1]; exact hi, ?_⟩
  rw [List.getElem?_eq_getElem hi, hget]

theorem mem_sides_index {m : Model} (h : m.Shaped) {column : List SideSurface}
    {side : SideSurface} (hc : column ∈ m.sides_surfaces) (hs : side ∈ column) :
    ∃ k i, k < SIDE_COUNT ∧ i < MAX_SURFACES ∧ m.side k i = some side := by
  obtain ⟨k, hk, hgetk⟩ := List.getElem_of_mem hc
  obtain ⟨i, hi, hgeti⟩ := List.getElem_of_mem hs
  refine ⟨k, i, by rw [← h.2.1]; exact hk, by rw [← h.2.2 column hc]; exact hi, ?_⟩
  have hcol : m.sides_surfaces[k]? = some column := by
    rw [List.getElem?_eq_getElem hk, hgetk]
  rw [side_of_column hcol, List.getElem?_eq_getElem hi, hgeti]

/-- C17: with tangent baking disabled, `bake_mesh_geometry` on a model without
geometry returns with the tangent array of every interior surface and of every
side surface empty, whatever tangents and UVs the source surfaces supply; and a
surface that passes the guards on its indices and normals reaches the triangle
loop and is baked, with or without tangents and UVs. -/
theorem C17_tangents_omitted {σ μ : Type} (env : Env σ μ)
    (surfaces : List (Option SurfaceArrays)) (materials : List μ) (baked_data : BakedModel)
    (material_indexer : σ) (ortho_rotation : Nat) (tol : ℚ)
    (hclr : baked_data.model.Cleared) (hmax : surfaces.length ≤ MAX_SURFACES)
    (hmat : surfaces.length ≤ materials.length)
    (hcons : SurfacesConsistent env false surfaces) :
    ∃ bd' s', bake_mesh_geometry env surfaces materials baked_data false material_indexer
        ortho_rotation tol = some (bd', s') ∧
      (∀ surface ∈ bd'.model.surfaces, surface.tangents = []) ∧
      (∀ column ∈ bd'.model.sides_surfaces, ∀ side ∈ column, side.tangents = []) ∧
      ∀ i arr, surfaces[i]? = some (some arr) → Validated arr →
        arr.vertex.length = arr.normal.length →
        Accepted env false arr ∧
        ∃ W mid, working_arrays env false ortho_rotation arr = some W ∧
          bd'.model.surfaces[i]? =
            some (expected_surface W false mid (routed env.sides tol W arr.index none)) ∧
          ∀ k, k < SIDE_COUNT → bd'.model.side k i =
            some (expected_side W false (routed env.sides tol W arr.index (some k))) := by
  obtain ⟨bd', hrun, _, _, hshape, _, hsurf, hside, hframe⟩ := bake_mesh_geometry_full env
    surfaces materials baked_data false material_indexer ortho_rotation tol hclr hmax hmat hcons
  refine ⟨bd', _, hrun, ?_, ?_, ?_⟩
  · intro surface hs
    obtain ⟨i, hi, hget⟩ := mem_surfaces_index hshape hs
    obtain ⟨old, hold⟩ := cleared_old hclr hi
    by_cases hlt : i < surfaces.length
    · have h := (hsurf i hlt old hold).symm.trans hget
      rw [← Option.some.inj h]
      exact slot_surface_tangents_off env ortho_rotation tol _ _
    · have h := ((hframe i (by omega)).1.symm.trans hget).symm.trans hold
      rw [Option.some.inj h]
      rfl
  · intro column hc side hs
    obtain ⟨k, i, hk, hi, hget⟩ := mem_sides_index hshape hc hs
    by_cases hlt : i < surfaces.length
    · have h := (hside i hlt k hk).symm.trans hget
      rw [← Option.some.inj h]
      exact slot_side_tangents_off env ortho_rotation tol _ _
    · have h := (((hframe i (by omega)).2 k).symm.trans hget).symm.trans
        ((hclr.slot hi).2 k hk)
      rw [Option.some.inj h]
      rfl
  · intro i arr hi hv hn
    obtain ⟨hlt, hget⟩ := List.getElem?_eq_some.1 hi
    have hacc : Accepted env false arr :=
      ⟨hv.1, hv.2.1, hv.2.2, by rw [← hn]; exact hv.vertex_ne_zero, hn,
        fun h => Bool.noConfusion h.2.2.1⟩
    have hmem : some arr ∈ surfaces := hget ▸ List.getElem_mem hlt
    obtain ⟨W, hW, _, _, _, _, _⟩ :=
      working_arrays_spec env false ortho_rotation arr hacc (hcons arr hmem hacc)
    have hsw : slot_working env false ortho_rotation (some arr) = some (W, arr.index) := by
      simp [slot_working, hacc, hW]
    obtain ⟨old, hold⟩ := cleared_old hclr (i := i) (by omega)
    refine ⟨hacc, W,
      material_id_after env false (surfaces.zip materials) material_indexer old i, hW, ?_, ?_⟩
    · have := hsurf i hlt old hold
      rw [hget] at this
      rw [this]; simp only [slot_surface, hsw]
    · intro k hk
      have := hside i hlt k hk
      rw [hget] at this
      rw [this]; simp only [slot_side, hsw]

theorem example_pair_consistent (bake_tangents : Bool) :
    SurfacesConsistent example_env bake_tangents
      [some example_surface, some example_lit_surface] := by
  intro arr harr
  have h : arr = example_surface ∨ arr = example_lit_surface := by simpa using harr
  rcases h with h | h <;> subst h <;> cases bake_tangents <;> decide

/-- Witness of C17: the example surface without tangents and UVs and the example
surface with both, baked together with tangent baking disabled. -/
theorem C17_tangents_omitted_witness :
    ∃ bd' s', bake_mesh_geometry example_env [some example_surface, some example_lit_surface]
        [7, 8] example_cleared false [] 0 (1 / 1000) = some (bd', s') ∧
      (∀ surface ∈ bd'.model.surfaces, surface.tangents = []) ∧
      (∀ column ∈ bd'.model.sides_surfaces, ∀ side ∈ column, side.tangents = []) ∧
      ∀ i arr, [some example_surface, some example_lit_surface][i]? = some (some arr) →
        Validated arr → arr.vertex.length = arr.normal.length →
        Accepted example_env false arr ∧
        ∃ W mid, working_arrays example_env false 0 arr = some W ∧
          bd'.model.surfaces[i]? = some (expected_surface W false mid
            (routed example_env.sides (1 / 1000) W arr.index none)) ∧
          ∀ k, k < SIDE_COUNT → bd'.model.side k i = some (expected_side W false
            (routed example_env.sides (1 / 1000) W arr.index (some k))) :=
  C17_tangents_omitted example_env [some example_surface, some example_lit_surface] [7, 8]
    example_cleared [] 0 (1 / 1000) (clear_Cleared _) (by decide) (by decide)
    (example_pair_consistent false)

/-- C18 does not hold of the code: `generate_tangents_from_uvs` resizes its
array to four entries per position and then appends the four floats of each
triangle behind them, and the baker reads the four floats at `4 * index`. For
the unit quad with UVs `(x, y)`, baked with tangent baking enabled and no
tangents supplied, the derived tangent `(1, 0, 0)` with sign `+1` of the two
triangles sits at offsets 16 to 23 of the generated array, and the tangent
stored for each of the four baked vertices is the resized entry `(0, 0, 0, 0)`,
which does not point along the U axis and carries no sign. -/
theorem C18_quad_tangents_not_derived :
    generate_tangents_from_uvs unit_quad.vertex unit_quad.normal unit_quad.tex_uv
        unit_quad.index =
      some (List.replicate 16 0 ++ [1, 0, 0, 1] ++ [1, 0, 0, 1]) ∧
    (bake_mesh_geometry example_env [some unit_quad] [7] example_cleared true [] 0
        (1 / 1000)).map
      (fun r => (r.1.model.surfaces[0]?).map (fun s => (s.positions.length, s.tangents))) =
      some (some (4, List.replicate 16 0)) := by
  constructor <;> decide!

theorem indexer_after_set_none {σ μ : Type} (env : Env σ μ) (bake_tangents : Bool) :
    ∀ (surfaces : List (Option SurfaceArrays)) (materials : List μ) (i : Nat) (s : σ),
      (∀ arrays, surfaces[i]? = some arrays → ¬ OptAccepted env bake_tangents arrays) →
      indexer_after env bake_tangents (surfaces.zip materials) s =
        indexer_after env bake_tangents ((surfaces.set i none).zip materials) s := by
  intro surfaces
  induction surfaces with
  | nil => intro materials i s _; rfl
  | cons a rest ih =>
    intro materials i s h
    cases materials with
    | nil => simp
    | cons m ms =>
      cases i with
      | zero =>
        have ha : ¬ OptAccepted env bake_tangents a := h a (by simp)
        have hn : ¬ OptAccepted env bake_tangents none := fun x => x
        simp only [List.set_cons_zero, List.zip_cons_cons, indexer_after, if_neg ha, if_neg hn]
      | succ i =>
        simp only [List.set_cons_succ, List.zip_cons_cons, indexer_after]
        exact ih ms i _ (fun arrays harr => h arrays (by simpa using harr))

/-- C19, as stated, fails in a build that does not define `TOOLS_ENABLED`: the
guard that skips a surface without tangents and UVs is compiled out, the
triangle loop reads `tangents[0]` of the empty tangent array, and the whole
bake aborts, the second surface included. -/
theorem C19_counterexample :
    bake_mesh_geometry release_env [some example_surface, some example_lit_surface] [7, 8]
      example_cleared true [] 0 (1 / 1000) = none ∧
    example_surface.tangent = [] ∧ example_surface.tex_uv = [] ∧
    Accepted release_env true example_lit_surface := by
  refine ⟨?_, rfl, rfl, ?_⟩ <;> decide!

/-- C19, amended: in a build that defines `TOOLS_ENABLED`, with tangent baking
enabled, for at most `MAX_SURFACES` surfaces with a material each, baked into a
model without geometry, every surface that passes the guards being read inside
its arrays (`hcons`), a surface that supplies neither tangents nor UVs is
skipped: `bake_mesh_geometry` returns, the destinations of its surface index
stay without geometry, the indexer ends in the state it reaches when that
surface is absent (so the indexer is not called for it), and every other
surface index holds the geometry of its own surface. -/
theorem C19_no_tangent_basis_skipped {σ μ : Type} (env : Env σ μ)
    (surfaces : List (Option SurfaceArrays)) (materials : List μ) (baked_data : BakedModel)
    (material_indexer : σ) (ortho_rotation : Nat) (tol : ℚ)
    (htools : env.TOOLS_ENABLED = true)
    (hclr : baked_data.model.Cleared) (hmax : surfaces.length ≤ MAX_SURFACES)
    (hmat : surfaces.length ≤ materials.length)
    (hcons : SurfacesConsistent env true surfaces)
    (i : Nat) (arr : SurfaceArrays) (hi : surfaces[i]? = some (some arr))
    (hnt : arr.tangent.length = 0) (hnuv : arr.tex_uv.length = 0) :
    ∃ bd', bake_mesh_geometry env surfaces materials baked_data true material_indexer
        ortho_rotation tol =
        some (bd', indexer_after env true ((surfaces.set i none).zip materials)
          material_indexer) ∧
      bd'.model.SlotCleared i ∧
      ∀ j (hj : j < surfaces.length), j ≠ i →
        (∃ mid, bd'.model.surfaces[j]? =
          some (slot_surface env true ortho_rotation tol surfaces[j] mid)) ∧
        ∀ k, k < SIDE_COUNT → bd'.model.side k j =
          some (slot_side env true ortho_rotation tol surfaces[j] k) := by
  obtain ⟨hlt, hget⟩ := List.getElem?_eq_some.1 hi
  have hna : ¬ OptAccepted env true (some arr) := fun h => h.2.2.2.2.2 ⟨htools, hnt, rfl, hnuv⟩
  obtain ⟨bd', hrun, _, _, _, _, hsurf, hside, _⟩ := bake_mesh_geometry_full env
    surfaces materials baked_data true material_indexer ortho_rotation tol hclr hmax hmat hcons
  refine ⟨bd', ?_, ?_, ?_⟩
  · rw [hrun, indexer_after_set_none env true surfaces materials i material_indexer]
    intro arrays harr
    rw [hi] at harr
    rw [← Option.some.inj harr]
    exact hna
  · obtain ⟨old, hold⟩ := cleared_old hclr (i := i) (by omega)
    have h1 := hsurf i hlt old hold
    have h2 := hside i hlt
    rw [hget] at h1 h2
    exact slot_cleared_of_not_accepted env true ortho_rotation tol hna h1 h2
  · intro j hj _
    obtain ⟨old, hold⟩ := cleared_old hclr (i := j) (by omega)
    exact ⟨⟨_, hsurf j hj old hold⟩, hside j hj⟩

/-- Witness of C19: the example surface without tangents and UVs is skipped and
the example surface with both, next to it, is baked; the only material indexed
is that of the second surface. -/
theorem C19_no_tangent_basis_skipped_witness :
    ∃ bd', bake_mesh_geometry example_env [some example_surface, some example_lit_surface]
        [7, 8] example_cleared true [] 0 (1 / 1000) =
        some (bd', indexer_after example_env true
          (([some example_surface, some example_lit_surface].set 0 none).zip [7, 8]) []) ∧
      bd'.model.SlotCleared 0 ∧
      ∀ j (hj : j < [some example_surface, some example_lit_surface].length), j ≠ 0 →
        (∃ mid, bd'.model.surfaces[j]? = some (slot_surface example_env true 0 (1 / 1000)
          [some example_surface, some example_lit_surface][j] mid)) ∧
        ∀ k, k < SIDE_COUNT → bd'.model.side k j = some (slot_side example_env true 0 (1 / 1000)
          [some example_surface, some example_lit_surface][j] k) :=
  C19_no_tangent_basis_skipped example_env [some example_surface, some example_lit_surface]
    [7, 8] example_cleared [] 0 (1 / 1000) rfl (clear_Cleared _) (by decide) (by decide)
    (example_pair_consistent true) 0 example_surface rfl rfl rfl

/-! ## Repeated bakes -/

theorem clear_surface (b : BakedModel) {i : Nat} (hi : i < MAX_SURFACES) :
    b.clear.model.surfaces[i]? = some (Surface.cleared (old_id b i)) := by
  simp [BakedModel.clear, old_id, List.getElem?_map, List.getElem?_range hi]

theorem slot_surface_material_id {σ μ : Type} (env : Env σ μ) (bake_tangents : Bool)
    (ortho_rotation : Nat) (tol : ℚ) (arrays : Option SurfaceArrays) (mid : Nat) :
    (slot_surface env bake_tangents ortho_rotation tol arrays mid).material_id = mid := by
  unfold slot_surface
  cases slot_working env bake_tangents ortho_rotation arrays with
  | none => rfl
  | some r => rfl

theorem old_id_of_surface {b : BakedModel} {i : Nat} {surface : Surface}
    (h : b.model.surfaces[i]? = some surface) : old_id b i = surface.material_id := by
  simp [old_id, h]

theorem Model.ext_of_slots {m1 m2 : Model} (h1 : m1.Shaped) (h2 : m2.Shaped)
    (hcount : m1.surface_count = m2.surface_count)
    (hsurf : ∀ i, i < MAX_SURFACES → m1.surfaces[i]? = m2.surfaces[i]?)
    (hside : ∀ i, i < MAX_SURFACES → ∀ k, k < SIDE_COUNT → m1.side k i = m2.side k i) :
    m1 = m2 := by
  have es : m1.surfaces = m2.surfaces := by
    apply List.ext_getElem?
    intro i
    by_cases hi : i < MAX_SURFACES
    · exact hsurf i hi
    · rw [List.getElem?_eq_none (by rw [h1.1]; omega),
        List.getElem?_eq_none (by rw [h2.1]; omega)]
  have ec : m1.sides_surfaces = m2.sides_surfaces := by
    apply List.ext_getElem?
    intro k
    by_cases hk : k < SIDE_COUNT
    · obtain ⟨c1, hc1, hl1⟩ := h1.column hk
      obtain ⟨c2, hc2, hl2⟩ := h2.column hk
      rw [hc1, hc2]
      congr 1
      apply List.ext_getElem?
      intro i
      by_cases hi : i < MAX_SURFACES
      · have := hside i hi k hk
        rw [side_of_column hc1, side_of_column hc2] at this
        exact this
      · rw [List.getElem?_eq_none (by rw [hl1]; omega),
          List.getElem?_eq_none (by rw [hl2]; omega)]
    · rw [List.getElem?_eq_none (by rw [h1.2.1]; omega),
        List.getElem?_eq_none (by rw [h2.2.1]; omega)]
  cases m1; cases m2
  simp only at hcount es ec
  rw [hcount, es, ec]

/-- The result of the overload of `bake_mesh_geometry` that takes the model
configuration, stated for every surface index of the fixed-size arrays. -/
theorem config_bake_uniform {σ μ : Type} (env : Env σ μ)
    (config : VoxelBlockyModelMesh μ) (mesh : Mesh μ) (baked_data : BakedModel)
    (bake_tangents : Bool) (material_indexer : σ) (tol : ℚ) (side_cutout_enabled : Bool)
    (hmesh : config.mesh = some mesh) (hclr : baked_data.model.Cleared)
    (hcons : SurfacesConsistent env bake_tangents ((mesh.take MAX_SURFACES).map Prod.fst)) :
    ∃ bd', config.bake_mesh_geometry env baked_data bake_tangents material_indexer tol
        side_cutout_enabled =
        some (bd', indexer_after env bake_tangents (mesh.take MAX_SURFACES) material_indexer) ∧
      bd'.empty = empty_after ((mesh.take MAX_SURFACES).map Prod.fst) baked_data.empty ∧
      bd'.cutout_sides_enabled = side_cutout_enabled ∧
      bd'.model.Shaped ∧ bd'.model.surface_count = min mesh.length MAX_SURFACES ∧
      (∀ i old, i < MAX_SURFACES →
        baked_data.model.surfaces[i]? = some (Surface.cleared old) →
        bd'.model.surfaces[i]? =
          some (slot_surface env bake_tangents config.mesh_ortho_rotation_index tol
            (surface_at (mesh.take MAX_SURFACES) i)
            (material_id_after env bake_tangents (mesh.take MAX_SURFACES) material_indexer
              old i))) ∧
      ∀ i, i < MAX_SURFACES → ∀ k, k < SIDE_COUNT →
        bd'.model.side k i =
          some (slot_side env bake_tangents config.mesh_ortho_rotation_index tol
            (surface_at (mesh.take MAX_SURFACES) i) k) := by
  obtain ⟨bd', hrun, hempty, hcut, hshape, hcount, hsurf, hside, hframe⟩ :=
    config_bake_mesh_geometry_full env config mesh baked_data bake_tangents material_indexer tol
      side_cutout_enabled hmesh hclr hcons
  have hnone : ∀ i, mesh[i]? = none → min mesh.length MAX_SURFACES ≤ i ∧
      (mesh.take MAX_SURFACES)[i]? = none := by
    intro i hi
    have hl : mesh.length ≤ i := List.getElem?_eq_none_iff.1 hi
    refine ⟨le_trans (Nat.min_le_left _ _) hl, ?_⟩
    rw [List.getElem?_eq_none_iff, List.length_take]
    exact le_trans (Nat.min_le_right _ _) hl
  refine ⟨bd', hrun, hempty, hcut, hshape, hcount, ?_, ?_⟩
  · intro i old hi hold
    cases hp : mesh[i]? with
    | some p =>
      have ht : (mesh.take MAX_SURFACES)[i]? = some p := by
        rw [List.getElem?_take_of_lt hi, hp]
      rw [hsurf i p old hi hp hold]
      simp only [surface_at, ht, Option.some_bind]
    | none =>
      obtain ⟨hge, ht⟩ := hnone i hp
      have hsw : slot_working env bake_tangents config.mesh_ortho_rotation_index none = none :=
        rfl
      rw [(hframe i hge).1, hold]
      simp only [surface_at, ht, Option.none_bind, slot_surface, hsw, material_id_after]
  · intro i hi k hk
    cases hp : mesh[i]? with
    | some p =>
      have ht : (mesh.take MAX_SURFACES)[i]? = some p := by
        rw [List.getElem?_take_of_lt hi, hp]
      rw [hside i p hi hp k hk]
      simp only [surface_at, ht, Option.some_bind]
    | none =>
      obtain ⟨hge, ht⟩ := hnone i hp
      have hsw : slot_working env bake_tangents config.mesh_ortho_rotation_index none = none :=
        rfl
      rw [(hframe i hge).2 k, (hclr.slot hi).2 k hk]
      simp only [surface_at, ht, Option.none_bind, slot_side, hsw]

theorem Indexed.after {σ μ : Type} {env : Env σ μ} (hlaws : IndexerLaws env)
    (bake_tangents : Bool) {material : μ} {mid : Nat} :
    ∀ (pairs : List (Option SurfaceArrays × μ)) (s : σ), Indexed env s material mid →
      Indexed env (indexer_after env bake_tangents pairs s) material mid := by
  intro pairs
  induction pairs with
  | nil => intro s h; exact h
  | cons p rest ih =>
    intro s h
    simp only [indexer_after]
    apply ih
    split
    · exact hlaws.kept s material mid p.2 h
    · exact h

theorem indexed_material_id_after {σ μ : Type} {env : Env σ μ} (hlaws : IndexerLaws env)
    (bake_tangents : Bool) :
    ∀ (pairs : List (Option SurfaceArrays × μ)) (s : σ) (old i : Nat)
      (p : Option SurfaceArrays × μ), pairs[i]? = some p → OptAccepted env bake_tangents p.1 →
      Indexed env (indexer_after env bake_tangents pairs s) p.2
        (material_id_after env bake_tangents pairs s old i) := by
  intro pairs
  induction pairs with
  | nil => intro s old i p hp _; simp at hp
  | cons q rest ih =>
    intro s old i p hp hacc
    cases i with
    | zero =>
      simp only [List.getElem?_cons_zero, Option.some.injEq] at hp
      subst hp
      rw [material_id_after_zero, if_pos hacc]
      simp only [indexer_after, if_pos hacc]
      exact Indexed.after hlaws bake_tangents rest _ (hlaws.created s q.2)
    | succ i =>
      simp only [List.getElem?_cons_succ] at hp
      rw [material_id_after_succ]
      simp only [indexer_after]
      exact ih _ old i p hp hacc

theorem indexer_after_of_indexed {σ μ : Type} (env : Env σ μ) (bake_tangents : Bool) :
    ∀ (pairs : List (Option SurfaceArrays × μ)) (s : σ),
      (∀ p ∈ pairs, OptAccepted env bake_tangents p.1 → ∃ mid, Indexed env s p.2 mid) →
      indexer_after env bake_tangents pairs s = s := by
  intro pairs
  induction pairs with
  | nil => intro s _; rfl
  | cons q rest ih =>
    intro s h
    have hq : (if OptAccepted env bake_tangents q.1 then
        (env.get_or_create_index s q.2).2 else s) = s := by
      split
      · rename_i hacc
        obtain ⟨mid, hmid⟩ := h q (List.mem_cons_self _ _) hacc
        unfold Indexed at hmid
        rw [hmid]
      · rfl
    simp only [indexer_after, hq]
    exact ih s (fun p hp => h p (List.mem_cons_of_mem _ hp))

theorem all_indexed_after {σ μ : Type} {env : Env σ μ} (hlaws : IndexerLaws env)
    (bake_tangents : Bool) (pairs : List (Option SurfaceArrays × μ)) (s : σ) :
    ∀ p ∈ pairs, OptAccepted env bake_tangents p.1 →
      ∃ mid, Indexed env (indexer_after env bake_tangents pairs s) p.2 mid := by
  intro p hp hacc
  obtain ⟨i, hi, hget⟩ := List.getElem_of_mem hp
  exact ⟨_, indexed_material_id_after hlaws bake_tangents pairs s 0 i p
    (by rw [List.getElem?_eq_getElem hi, hget]) hacc⟩

theorem indexer_after_twice {σ μ : Type} {env : Env σ μ} (hlaws : IndexerLaws env)
    (bake_tangents : Bool) (pairs : List (Option SurfaceArrays × μ)) (s : σ) :
    indexer_after env bake_tangents pairs (indexer_after env bake_tangents pairs s) =
      indexer_after env bake_tangents pairs s :=
  indexer_after_of_indexed env bake_tangents pairs _
    (all_indexed_after hlaws bake_tangents pairs s)

theorem material_id_after_twice {σ μ : Type} {env : Env σ μ} (hlaws : IndexerLaws env)
    (bake_tangents : Bool) (pairs : List (Option SurfaceArrays × μ)) (s : σ) (old i : Nat) :
    material_id_after env bake_tangents pairs (indexer_after env bake_tangents pairs s)
        (material_id_after env bake_tangents pairs s old i) i =
      material_id_after env bake_tangents pairs s old i := by
  cases hp : pairs[i]? with
  | none => simp only [material_id_after, hp]
  | some p =>
    by_cases hacc : OptAccepted env bake_tangents p.1
    · have h1 := indexed_material_id_after hlaws bake_tangents pairs s old i p hp hacc
      have h2 : indexer_after env bake_tangents (pairs.take i)
          (indexer_after env bake_tangents pairs s) = indexer_after env bake_tangents pairs s :=
        indexer_after_of_indexed env bake_tangents _ _ (fun q hq =>
          all_indexed_after hlaws bake_tangents pairs s q (List.mem_of_mem_take hq))
      unfold Indexed at h1
      conv_lhs => simp only [material_id_after, hp, if_pos hacc, h2]
      rw [h1]
    · simp only [material_id_after, hp, if_neg hacc]

theorem clear_model_of_same_ids (b1 b : BakedModel)
    (h : ∀ i, i < MAX_SURFACES → old_id b1 i = old_id b i)
    (hcount : b1.model.surface_count = b.model.surface_count) :
    b1.clear.model = b.clear.model := by
  apply Model.ext_of_slots (clear_Cleared b1).1 (clear_Cleared b).1 hcount
  · intro i hi
    have h1 := clear_surface b1 hi
    have h2 := clear_surface b hi
    rw [h1, h2, h i hi]
  · intro i hi k hk
    have h1 := ((clear_Cleared b1).slot hi).2 k hk
    have h2 := ((clear_Cleared b).slot hi).2 k hk
    rw [h1, h2]

theorem VoxelBlockyModelMesh.bake_eq {σ μ : Type} (env : Env σ μ)
    (self : VoxelBlockyModelMesh μ) (ctx : ModelBakingContext σ) :
    self.bake env ctx =
      (self.bake_mesh_geometry env ctx.model.clear ctx.tangents_enabled ctx.material_indexer
        self.side_vertex_tolerance self.side_cutout_enabled).bind
        (fun r => some ⟨r.1, r.2, ctx.tangents_enabled⟩) := rfl

/-- C20: `VoxelBlockyModelMesh::bake` run twice in a row on the same model, with
the same mesh, configuration and material indexer, returns both times, and the
second run leaves the context exactly as the first left it: every interior
surface and side surface has the same positions, normals, uvs, tangents and
indices, every surface the same material id, and the flags, the surface count
and the indexer state are the same. The geometry of the first bake is replaced,
not appended to. The surfaces baked are read inside their arrays and the
indexer keeps its contract. -/
theorem C20_bake_idempotent {σ μ : Type} (env : Env σ μ) (hlaws : IndexerLaws env)
    (self : VoxelBlockyModelMesh μ) (ctx : ModelBakingContext σ)
    (hcons : ∀ mesh, self.mesh = some mesh →
      SurfacesConsistent env ctx.tangents_enabled ((mesh.take MAX_SURFACES).map Prod.fst)) :
    ∃ ctx1, self.bake env ctx = some ctx1 ∧ self.bake env ctx1 = some ctx1 := by
  cases hmesh : self.mesh with
  | none =>
    have hrun : ∀ bd : BakedModel, self.bake_mesh_geometry env bd ctx.tangents_enabled
        ctx.material_indexer self.side_vertex_tolerance self.side_cutout_enabled =
        some ({ bd with cutout_sides_enabled := self.side_cutout_enabled, empty := true },
          ctx.material_indexer) := by
      intro bd
      unfold VoxelBlockyModelMesh.bake_mesh_geometry
      simp only [hmesh]
    refine ⟨⟨{ ctx.model.clear with
        cutout_sides_enabled := self.side_cutout_enabled, empty := true },
      ctx.material_indexer, ctx.tangents_enabled⟩, ?_, ?_⟩
    · rw [VoxelBlockyModelMesh.bake_eq, hrun]; rfl
    · rw [VoxelBlockyModelMesh.bake_eq]
      simp only [hrun, Option.some_bind]
      have hm : (BakedModel.clear { ctx.model.clear with
          cutout_sides_enabled := self.side_cutout_enabled, empty := true }).model =
          ctx.model.clear.model :=
        clear_model_of_same_ids _ ctx.model
          (fun i hi => old_id_of_surface (clear_surface ctx.model hi)) rfl
      rw [hm]
  | some mesh =>
    have hc := hcons mesh hmesh
    obtain ⟨bd1, hrun1, he1, hc1, hsh1, hcnt1, hsurf1, hside1⟩ :=
      config_bake_uniform env self mesh ctx.model.clear ctx.tangents_enabled
        ctx.material_indexer self.side_vertex_tolerance self.side_cutout_enabled hmesh
        (clear_Cleared _) hc
    obtain ⟨bd2, hrun2, he2, hc2, hsh2, hcnt2, hsurf2, hside2⟩ :=
      config_bake_uniform env self mesh bd1.clear ctx.tangents_enabled
        (indexer_after env ctx.tangents_enabled (mesh.take MAX_SURFACES) ctx.material_indexer)
        self.side_vertex_tolerance self.side_cutout_enabled hmesh (clear_Cleared _) hc
    rw [indexer_after_twice hlaws] at hrun2
    have hbd : bd2 = bd1 := by
      have hm : bd2.model = bd1.model := by
        apply Model.ext_of_slots hsh2 hsh1 (hcnt2.trans hcnt1.symm)
        · intro i hi
          have h1 := hsurf1 i (old_id ctx.model i) hi (clear_surface ctx.model hi)
          have h2 := hsurf2 i (old_id bd1 i) hi (clear_surface bd1 hi)
          rw [old_id_of_surface h1, slot_surface_material_id,
            material_id_after_twice hlaws] at h2
          rw [h1, h2]
        · intro i hi k hk
          rw [hside1 i hi k hk, hside2 i hi k hk]
      have hem : bd2.empty = bd1.empty := by rw [he2, he1]; rfl
      have hcm : bd2.cutout_sides_enabled = bd1.cutout_sides_enabled := by rw [hc2, hc1]
      cases bd1; cases bd2
      simp only at hm hem hcm
      rw [hm, hem, hcm]
    refine ⟨⟨bd1, indexer_after env ctx.tangents_enabled (mesh.take MAX_SURFACES)
      ctx.material_indexer, ctx.tangents_enabled⟩, ?_, ?_⟩
    · rw [VoxelBlockyModelMesh.bake_eq, hrun1]; rfl
    · rw [VoxelBlockyModelMesh.bake_eq]
      simp only [hrun2, Option.some_bind, hbd]

theorem list_indexed_iff (materials : List Nat) (material mid : Nat) :
    Indexed example_env materials material mid ↔
      material ∈ materials ∧ mid = materials.indexOf material := by
  unfold Indexed
  show list_get_or_create_index materials material = (mid, materials) ↔ _
  unfold list_get_or_create_index
  by_cases h : material ∈ materials
  · rw [if_pos h]
    constructor
    · intro e
      exact ⟨h, (congrArg Prod.fst e).symm⟩
    · rintro ⟨_, e⟩
      rw [e]
  · rw [if_neg h]
    constructor
    · intro e
      have := congrArg (fun r => r.2.length) e
      simp at this
    · rintro ⟨hm, _⟩
      exact absurd hm h

/-- The list indexer keeps the contract of the material indexer. -/
theorem example_env_laws : IndexerLaws example_env := by
  constructor
  · intro s material
    rw [list_indexed_iff]
    show material ∈ (list_get_or_create_index s material).2 ∧
      (list_get_or_create_index s material).1 =
        (list_get_or_create_index s material).2.indexOf material
    unfold list_get_or_create_index
    by_cases h : material ∈ s
    · rw [if_pos h]
      exact ⟨h, rfl⟩
    · rw [if_neg h]
      refine ⟨by simp, ?_⟩
      show s.length = (s ++ [material]).indexOf material
      rw [List.indexOf_append_of_not_mem h]
      simp
  · intro s material mid other h
    rw [list_indexed_iff] at h ⊢
    obtain ⟨hm, hid⟩ := h
    show material ∈ (list_get_or_create_index s other).2 ∧
      mid = (list_get_or_create_index s other).2.indexOf material
    unfold list_get_or_create_index
    by_cases ho : other ∈ s
    · rw [if_pos ho]
      exact ⟨hm, hid⟩
    · rw [if_neg ho]
      refine ⟨by simp [hm], ?_⟩
      show mid = (s ++ [other]).indexOf material
      rw [List.indexOf_append_of_mem hm]
      exact hid

/-- Witness of C20: a mesh with two surfaces that share a material, baked twice
into a context whose model held other geometry. -/
theorem C20_bake_idempotent_witness :
    ∃ ctx1, (example_config (some two_surface_mesh)).bake example_env example_context =
        some ctx1 ∧
      (example_config (some two_surface_mesh)).bake example_env ctx1 = some ctx1 :=
  C20_bake_idempotent example_env example_env_laws (example_config (some two_surface_mesh))
    example_context (fun mesh hmesh => by
      have e : two_surface_mesh = mesh := Option.some.inj hmesh
      subst e
      exact example_pair_consistent true)

/-! ## Generated tangents -/

theorem generate_tangents_loop_cons (positions normals : List Vector3f) (uvs : List Vector2f)
    (i0 i1 i2 : Int) (rest : List Int) (tangents : List ℚ) :
    generate_tangents_loop positions normals uvs (i0 :: i1 :: i2 :: rest) tangents =
      (triangle_floats positions normals uvs i0 i1 i2).bind (fun f =>
        generate_tangents_loop positions normals uvs rest (tangents ++ f)) := by
  conv_lhs => rw [generate_tangents_loop]
  unfold triangle_floats
  simp only [Option.bind_eq_bind, Option.pure_def]
  cases at? positions i0 <;> simp only [Option.none_bind, Option.some_bind]
  cases at? positions i1 <;> simp only [Option.none_bind, Option.some_bind]
  cases at? positions i2 <;> simp only [Option.none_bind, Option.some_bind]
  cases at? uvs i0 <;> simp only [Option.none_bind, Option.some_bind]
  cases at? uvs i1 <;> simp only [Option.none_bind, Option.some_bind]
  cases at? uvs i2 <;> simp only [Option.none_bind, Option.some_bind]
  cases at? normals i0 <;> simp only [Option.none_bind, Option.some_bind]
  rfl

theorem at?_some_of_range {α : Type} {xs : List α} {i : Int} (h0 : 0 ≤ i)
    (h1 : i < (xs.length : Int)) : ∃ x, at? xs i = some x :=
  Option.isSome_iff_exists.1 (at?_isSome h0 h1)

theorem triangle_floats_eq {positions normals : List Vector3f} {uvs : List Vector2f}
    {i0 i1 i2 : Int} {p0 p1 p2 n0 : Vector3f} {uv0 uv1 uv2 : Vector2f}
    (hp0 : at? positions i0 = some p0) (hp1 : at? positions i1 = some p1)
    (hp2 : at? positions i2 = some p2) (hu0 : at? uvs i0 = some uv0)
    (hu1 : at? uvs i1 = some uv1) (hu2 : at? uvs i2 = some uv2)
    (hn0 : at? normals i0 = some n0) :
    triangle_floats positions normals uvs i0 i1 i2 =
      some [(triangle_tangent p0 p1 p2 uv0 uv1 uv2).x, (triangle_tangent p0 p1 p2 uv0 uv1 uv2).y,
        (triangle_tangent p0 p1 p2 uv0 uv1 uv2).z,
        triangle_sign (triangle_bitangent p0 p1 p2 uv0 uv1 uv2) n0
          (triangle_tangent p0 p1 p2 uv0 uv1 uv2)] := by
  unfold triangle_floats
  simp only [Option.bind_eq_bind, Option.pure_def, hp0, hp1, hp2, hu0, hu1, hu2, hn0,
    Option.some_bind]

theorem triangle_floats_of_range {positions normals : List Vector3f} {uvs : List Vector2f}
    {i0 i1 i2 : Int}
    (h0 : 0 ≤ i0 ∧ i0 < (positions.length : Int) ∧ i0 < (normals.length : Int) ∧
      i0 < (uvs.length : Int))
    (h1 : 0 ≤ i1 ∧ i1 < (positions.length : Int) ∧ i1 < (normals.length : Int) ∧
      i1 < (uvs.length : Int))
    (h2 : 0 ≤ i2 ∧ i2 < (positions.length : Int) ∧ i2 < (normals.length : Int) ∧
      i2 < (uvs.length : Int)) :
    ∃ f, triangle_floats positions normals uvs i0 i1 i2 = some f ∧ f.length = 4 := by
  obtain ⟨p0, hp0⟩ := at?_some_of_range h0.1 h0.2.1
  obtain ⟨p1, hp1⟩ := at?_some_of_range h1.1 h1.2.1
  obtain ⟨p2, hp2⟩ := at?_some_of_range h2.1 h2.2.1
  obtain ⟨u0, hu0⟩ := at?_some_of_range h0.1 h0.2.2.2
  obtain ⟨u1, hu1⟩ := at?_some_of_range h1.1 h1.2.2.2
  obtain ⟨u2, hu2⟩ := at?_some_of_range h2.1 h2.2.2.2
  obtain ⟨n0, hn0⟩ := at?_some_of_range h0.1 h0.2.2.1
  exact ⟨_, triangle_floats_eq hp0 hp1 hp2 hu0 hu1 hu2 hn0, rfl⟩

theorem generate_tangents_loop_eq (positions normals : List Vector3f) (uvs : List Vector2f) :
    ∀ (n : Nat) (indices : List Int), indices.length = 3 * n →
      IndicesInRange positions normals uvs indices →
      (generated_floats positions normals uvs indices).length = 4 * n ∧
      ∀ init : List ℚ, generate_tangents_loop positions normals uvs indices init =
        some (init ++ generated_floats positions normals uvs indices) := by
  intro n
  induction n with
  | zero =>
    intro indices hlen _
    have hnil : indices = [] := List.length_eq_zero.1 (by simpa using hlen)
    subst hnil
    exact ⟨rfl, fun init => by simp [generate_tangents_loop, generated_floats]⟩
  | succ n ih =>
    intro indices hlen hin
    match indices, hlen, hin with
    | i0 :: i1 :: i2 :: rest, hlen, hin =>
      have hrest : rest.length = 3 * n := by
        simp only [List.length_cons] at hlen; omega
      obtain ⟨f, hf, hfl⟩ := triangle_floats_of_range (hin i0 (by simp)) (hin i1 (by simp))
        (hin i2 (by simp))
      obtain ⟨hl, hrun⟩ := ih rest hrest (fun i hi => hin i (by simp [hi]))
      constructor
      · simp only [generated_floats, hf, Option.getD_some, List.length_append, hfl, hl]
        omega
      · intro init
        rw [generate_tangents_loop_cons, hf, Option.some_bind, hrun]
        simp only [generated_floats, hf, Option.getD_some, List.append_assoc]
    | [], hlen, _ => simp at hlen
    | [_], hlen, _ => simp only [List.length_cons, List.length_nil] at hlen; omega
    | [_, _], hlen, _ => simp only [List.length_cons, List.length_nil] at hlen; omega

theorem generated_floats_at (positions normals : List Vector3f) (uvs : List Vector2f) :
    ∀ (k : Nat) (indices : List Int) (i0 i1 i2 : Int),
      IndicesInRange positions normals uvs indices →
      indices[3 * k]? = some i0 → indices[3 * k + 1]? = some i1 →
      indices[3 * k + 2]? = some i2 →
      ∃ f, triangle_floats positions normals uvs i0 i1 i2 = some f ∧
        ((generated_floats positions normals uvs indices).drop (4 * k)).take 4 = f := by
  intro k
  induction k with
  | zero =>
    intro indices i0 i1 i2 hin h0 h1 h2
    match indices, hin, h0, h1, h2 with
    | j0 :: j1 :: j2 :: rest, hin, h0, h1, h2 =>
      simp only [Nat.mul_zero, Nat.zero_add, List.getElem?_cons_zero, List.getElem?_cons_succ,
        Option.some.injEq] at h0 h1 h2
      subst h0 h1 h2
      obtain ⟨f, hf, hfl⟩ := triangle_floats_of_range (hin j0 (by simp)) (hin j1 (by simp))
        (hin j2 (by simp))
      refine ⟨f, hf, ?_⟩
      simp only [generated_floats, hf, Option.getD_some, Nat.mul_zero, List.drop_zero]
      rw [List.take_append_of_le_length (by omega), List.take_of_length_le (by omega)]
    | [], _, h0, _, _ => simp at h0
    | [_], _, _, h1, _ => simp at h1
    | [_, _], _, _, _, h2 => simp at h2
  | succ k ih =>
    intro indices i0 i1 i2 hin h0 h1 h2
    match indices, hin, h0, h1, h2 with
    | j0 :: j1 :: j2 :: rest, hin, h0, h1, h2 =>
      have e0 : 3 * (k + 1) = 3 * k + 1 + 1 + 1 := by omega
      have e1 : 3 * (k + 1) + 1 = 3 * k + 1 + 1 + 1 + 1 := by omega
      have e2 : 3 * (k + 1) + 2 = 3 * k + 2 + 1 + 1 + 1 := by omega
      rw [e0] at h0
      rw [e1] at h1
      rw [e2] at h2
      simp only [List.getElem?_cons_succ] at h0 h1 h2
      obtain ⟨f', hf', hfl'⟩ := triangle_floats_of_range (hin j0 (by simp)) (hin j1 (by simp))
        (hin j2 (by simp))
      obtain ⟨f, hf, hd⟩ := ih rest i0 i1 i2 (fun i hi => hin i (by simp [hi])) h0 h1 h2
      refine ⟨f, hf, ?_⟩
      simp only [generated_floats, hf', Option.getD_some]
      have e : 4 * (k + 1) = f'.length + 4 * k := by omega
      rw [e, List.drop_append]
      exact hd
    | [], _, h0, _, _ => simp at h0
    | [_], _, _, h1, _ => simp at h1
    | [_, _], _, _, _, h2 => simp at h2

theorem generate_tangents_from_uvs_eq (positions normals : List Vector3f) (uvs : List Vector2f)
    (indices : List Int) (T : Nat) (hlen : indices.length = 3 * T)
    (hin : IndicesInRange positions normals uvs indices) :
    generate_tangents_from_uvs positions normals uvs indices =
      some (List.replicate (positions.length * 4) 0 ++
        generated_floats positions normals uvs indices) ∧
    (generated_floats positions normals uvs indices).length = 4 * T := by
  obtain ⟨hl, hrun⟩ := generate_tangents_loop_eq positions normals uvs T indices hlen hin
  exact ⟨hrun _, hl⟩

theorem triangle_solves_uv_gradient (p0 p1 p2 : Vector3f) (uv0 uv1 uv2 : Vector2f)
    (hdet : uv_determinant uv0 uv1 uv2 ≠ 0) :
    p1.sub p0 = ((triangle_tangent p0 p1 p2 uv0 uv1 uv2).scale (uv1.sub uv0).x).add
      ((triangle_bitangent p0 p1 p2 uv0 uv1 uv2).scale (uv1.sub uv0).y) ∧
    p2.sub p0 = ((triangle_tangent p0 p1 p2 uv0 uv1 uv2).scale (uv2.sub uv0).x).add
      ((triangle_bitangent p0 p1 p2 uv0 uv1 uv2).scale (uv2.sub uv0).y) := by
  simp only [uv_determinant, Vector2f.sub] at hdet
  constructor <;> apply Vector3f.eq_of_coords <;>
    simp only [triangle_tangent, triangle_bitangent, Vector3f.sub, Vector3f.add,
      Vector3f.scale, Vector2f.sub] <;>
    field_simp <;> ring

theorem drop_resized (P k : Nat) (g : List ℚ) :
    (List.replicate (P * 4) (0 : ℚ) ++ g).drop (4 * P + 4 * k) = g.drop (4 * k) := by
  have e : 4 * P + 4 * k = (List.replicate (P * 4) (0 : ℚ)).length + 4 * k := by
    rw [List.length_replicate]; omega
  rw [e, List.drop_append]

theorem take_resized (P : Nat) (g : List ℚ) :
    (List.replicate (P * 4) (0 : ℚ) ++ g).take (4 * P) = List.replicate (4 * P) 0 := by
  have e : 4 * P = (List.replicate (P * 4) (0 : ℚ)).length := by
    rw [List.length_replicate]; omega
  conv_lhs => rw [e, List.take_left']
  rw [Nat.mul_comm]

theorem tangent_at_resized (P : Nat) (g : List ℚ) (s : Int) (h0 : 0 ≤ s) (h1 : s < (P : Int)) :
    tangent_at (List.replicate (P * 4) (0 : ℚ) ++ g) s = some [0, 0, 0, 0] := by
  obtain ⟨n, rfl⟩ := Int.eq_ofNat_of_zero_le h0
  have hn : n < P := by exact_mod_cast h1
  have hget : ∀ j, j < 4 → (List.replicate (P * 4) (0 : ℚ) ++ g)[4 * n + j]? = some 0 := by
    intro j hj
    rw [List.getElem?_append_left (by rw [List.length_replicate]; omega),
      List.getElem?_replicate, if_pos (by omega)]
  rw [tangent_at_natCast]
  have g0 := hget 0 (by omega)
  rw [Nat.add_zero] at g0
  rw [g0, hget 1 (by omega), hget 2 (by omega), hget 3 (by omega)]
  rfl

/-! ## Claims on tangent generation -/

/-- C21: for the `k`-th triangle of the index buffer, with positions `p0, p1,
p2`, UVs `uv0, uv1, uv2` and first normal `n0`, `generate_tangents_from_uvs`
returns and emits, at offset `4 * P + 4 * k`, the three coordinates of the
tangent `t` and the sign computed for that triangle. When the UV determinant
is not zero, `t` and the bitangent `bt` solve the UV-gradient system
`p1 - p0 = du1.x * t + du1.y * bt`, `p2 - p0 = du2.x * t + du2.y * bt`, and the
sign is -1 exactly when `bt . (n0 x t) < 0` and +1 otherwise. -/
theorem C21_tangent_solves_uv_gradient (positions normals : List Vector3f)
    (uvs : List Vector2f) (indices : List Int) (T k : Nat) (i0 i1 i2 : Int)
    (p0 p1 p2 n0 : Vector3f) (uv0 uv1 uv2 : Vector2f)
    (hlen : indices.length = 3 * T) (hin : IndicesInRange positions normals uvs indices)
    (h0 : indices[3 * k]? = some i0) (h1 : indices[3 * k + 1]? = some i1)
    (h2 : indices[3 * k + 2]? = some i2)
    (hp0 : at? positions i0 = some p0) (hp1 : at? positions i1 = some p1)
    (hp2 : at? positions i2 = some p2) (hu0 : at? uvs i0 = some uv0)
    (hu1 : at? uvs i1 = some uv1) (hu2 : at? uvs i2 = some uv2)
    (hn0 : at? normals i0 = some n0) (hdet : uv_determinant uv0 uv1 uv2 ≠ 0) :
    ∃ out, generate_tangents_from_uvs positions normals uvs indices = some out ∧
      (out.drop (4 * positions.length + 4 * k)).take 4 =
        [(triangle_tangent p0 p1 p2 uv0 uv1 uv2).x, (triangle_tangent p0 p1 p2 uv0 uv1 uv2).y,
          (triangle_tangent p0 p1 p2 uv0 uv1 uv2).z,
          triangle_sign (triangle_bitangent p0 p1 p2 uv0 uv1 uv2) n0
            (triangle_tangent p0 p1 p2 uv0 uv1 uv2)] ∧
      p1.sub p0 = ((triangle_tangent p0 p1 p2 uv0 uv1 uv2).scale (uv1.sub uv0).x).add
        ((triangle_bitangent p0 p1 p2 uv0 uv1 uv2).scale (uv1.sub uv0).y) ∧
      p2.sub p0 = ((triangle_tangent p0 p1 p2 uv0 uv1 uv2).scale (uv2.sub uv0).x).add
        ((triangle_bitangent p0 p1 p2 uv0 uv1 uv2).scale (uv2.sub uv0).y) ∧
      (triangle_sign (triangle_bitangent p0 p1 p2 uv0 uv1 uv2) n0
          (triangle_tangent p0 p1 p2 uv0 uv1 uv2) = -1 ↔
        dot (triangle_bitangent p0 p1 p2 uv0 uv1 uv2)
          (cross n0 (triangle_tangent p0 p1 p2 uv0 uv1 uv2)) < 0) ∧
      (triangle_sign (triangle_bitangent p0 p1 p2 uv0 uv1 uv2) n0
          (triangle_tangent p0 p1 p2 uv0 uv1 uv2) = 1 ↔
        ¬ dot (triangle_bitangent p0 p1 p2 uv0 uv1 uv2)
          (cross n0 (triangle_tangent p0 p1 p2 uv0 uv1 uv2)) < 0) := by
  obtain ⟨hrun, _⟩ := generate_tangents_from_uvs_eq positions normals uvs indices T hlen hin
  obtain ⟨f, hf, hd⟩ := generated_floats_at positions normals uvs k indices i0 i1 i2 hin h0 h1 h2
  rw [triangle_floats_eq hp0 hp1 hp2 hu0 hu1 hu2 hn0] at hf
  obtain ⟨hs1, hs2⟩ := triangle_solves_uv_gradient p0 p1 p2 uv0 uv1 uv2 hdet
  refine ⟨_, hrun, ?_, hs1, hs2, ?_, ?_⟩
  · rw [drop_resized, hd, ← Option.some.inj hf]
  · unfold triangle_sign
    split
    · rename_i h; simp [h]
    · rename_i h; simp only [h, iff_false]; norm_num
  · unfold triangle_sign
    split
    · rename_i h; simp only [h, not_true_eq_false, iff_false]; norm_num
    · rename_i h; simp [h]

/-- Witness of C21: the second triangle of the unit quad, with UVs equal to the
in-plane coordinates: the tangent is `(1, 0, 0)` and the sign +1. -/
theorem C21_tangent_solves_uv_gradient_witness :
    ∃ out, generate_tangents_from_uvs unit_quad.vertex unit_quad.normal unit_quad.tex_uv
        unit_quad.index = some out ∧
      (out.drop (4 * unit_quad.vertex.length + 4 * 1)).take 4 =
        [(triangle_tangent ⟨0, 0, 1 / 2⟩ ⟨1, 1, 1 / 2⟩ ⟨0, 1, 1 / 2⟩ ⟨0, 0⟩ ⟨1, 1⟩ ⟨0, 1⟩).x,
          (triangle_tangent ⟨0, 0, 1 / 2⟩ ⟨1, 1, 1 / 2⟩ ⟨0, 1, 1 / 2⟩ ⟨0, 0⟩ ⟨1, 1⟩ ⟨0, 1⟩).y,
          (triangle_tangent ⟨0, 0, 1 / 2⟩ ⟨1, 1, 1 / 2⟩ ⟨0, 1, 1 / 2⟩ ⟨0, 0⟩ ⟨1, 1⟩ ⟨0, 1⟩).z,
          triangle_sign
            (triangle_bitangent ⟨0, 0, 1 / 2⟩ ⟨1, 1, 1 / 2⟩ ⟨0, 1, 1 / 2⟩ ⟨0, 0⟩ ⟨1, 1⟩ ⟨0, 1⟩)
            ⟨0, 0, 1⟩
            (triangle_tangent ⟨0, 0, 1 / 2⟩ ⟨1, 1, 1 / 2⟩ ⟨0, 1, 1 / 2⟩ ⟨0, 0⟩ ⟨1, 1⟩ ⟨0, 1⟩)] ∧
      (⟨1, 1, 1 / 2⟩ : Vector3f).sub ⟨0, 0, 1 / 2⟩ =
        ((triangle_tangent ⟨0, 0, 1 / 2⟩ ⟨1, 1, 1 / 2⟩ ⟨0, 1, 1 / 2⟩ ⟨0, 0⟩ ⟨1, 1⟩ ⟨0, 1⟩).scale
          ((⟨1, 1⟩ : Vector2f).sub ⟨0, 0⟩).x).add
        ((triangle_bitangent ⟨0, 0, 1 / 2⟩ ⟨1, 1, 1 / 2⟩ ⟨0, 1, 1 / 2⟩ ⟨0, 0⟩ ⟨1, 1⟩ ⟨0, 1⟩).scale
          ((⟨1, 1⟩ : Vector2f).sub ⟨0, 0⟩).y) ∧
      (⟨0, 1, 1 / 2⟩ : Vector3f).sub ⟨0, 0, 1 / 2⟩ =
        ((triangle_tangent ⟨0, 0, 1 / 2⟩ ⟨1, 1, 1 / 2⟩ ⟨0, 1, 1 / 2⟩ ⟨0, 0⟩ ⟨1, 1⟩ ⟨0, 1⟩).scale
          ((⟨0, 1⟩ : Vector2f).sub ⟨0, 0⟩).x).add
        ((triangle_bitangent ⟨0, 0, 1 / 2⟩ ⟨1, 1, 1 / 2⟩ ⟨0, 1, 1 / 2⟩ ⟨0, 0⟩ ⟨1, 1⟩ ⟨0, 1⟩).scale
          ((⟨0, 1⟩ : Vector2f).sub ⟨0, 0⟩).y) ∧
      (triangle_sign
          (triangle_bitangent ⟨0, 0, 1 / 2⟩ ⟨1, 1, 1 / 2⟩ ⟨0, 1, 1 / 2⟩ ⟨0, 0⟩ ⟨1, 1⟩ ⟨0, 1⟩)
          ⟨0, 0, 1⟩
          (triangle_tangent ⟨0, 0, 1 / 2⟩ ⟨1, 1, 1 / 2⟩ ⟨0, 1, 1 / 2⟩ ⟨0, 0⟩ ⟨1, 1⟩ ⟨0, 1⟩) = -1 ↔
        dot (triangle_bitangent ⟨0, 0, 1 / 2⟩ ⟨1, 1, 1 / 2⟩ ⟨0, 1, 1 / 2⟩ ⟨0, 0⟩ ⟨1, 1⟩ ⟨0, 1⟩)
          (cross ⟨0, 0, 1⟩
            (triangle_tangent ⟨0, 0, 1 / 2⟩ ⟨1, 1, 1 / 2⟩ ⟨0, 1, 1 / 2⟩ ⟨0, 0⟩ ⟨1, 1⟩ ⟨0, 1⟩)) <
          0) ∧
      (triangle_sign
          (triangle_bitangent ⟨0, 0, 1 / 2⟩ ⟨1, 1, 1 / 2⟩ ⟨0, 1, 1 / 2⟩ ⟨0, 0⟩ ⟨1, 1⟩ ⟨0, 1⟩)
          ⟨0, 0, 1⟩
          (triangle_tangent ⟨0, 0, 1 / 2⟩ ⟨1, 1, 1 / 2⟩ ⟨0, 1, 1 / 2⟩ ⟨0, 0⟩ ⟨1, 1⟩ ⟨0, 1⟩) = 1 ↔
        ¬ dot (triangle_bitangent ⟨0, 0, 1 / 2⟩ ⟨1, 1, 1 / 2⟩ ⟨0, 1, 1 / 2⟩ ⟨0, 0⟩ ⟨1, 1⟩ ⟨0, 1⟩)
          (cross ⟨0, 0, 1⟩
            (triangle_tangent ⟨0, 0, 1 / 2⟩ ⟨1, 1, 1 / 2⟩ ⟨0, 1, 1 / 2⟩ ⟨0, 0⟩ ⟨1, 1⟩ ⟨0, 1⟩)) <
          0) :=
  C21_tangent_solves_uv_gradient unit_quad.vertex unit_quad.normal unit_quad.tex_uv
    unit_quad.index 2 1 0 2 3 ⟨0, 0, 1 / 2⟩ ⟨1, 1, 1 / 2⟩ ⟨0, 1, 1 / 2⟩ ⟨0, 0, 1⟩ ⟨0, 0⟩ ⟨1, 1⟩
    ⟨0, 1⟩ rfl (by decide) rfl rfl rfl rfl rfl rfl rfl rfl rfl rfl (by decide!)

/-- C24: for `P` positions and an index buffer of `T` triangles read inside the
position, normal and UV arrays, `generate_tangents_from_uvs` returns an array
of `4 * P + 4 * T` floats whose first `4 * P` entries are the entries made by
the resize (taken as 0), no computed tangent being written there, and whose
four floats at offsets `4 * P + 4 * k` to `4 * P + 4 * k + 3` are those computed
for triangle `k`; the four floats the baker reads for a source index below `P`,
at `4 * index` to `4 * index + 3`, lie in the first `4 * P` entries. -/
theorem C24_generated_tangents_layout (positions normals : List Vector3f)
    (uvs : List Vector2f) (indices : List Int) (T : Nat)
    (hlen : indices.length = 3 * T) (hin : IndicesInRange positions normals uvs indices) :
    ∃ out, generate_tangents_from_uvs positions normals uvs indices = some out ∧
      out.length = 4 * positions.length + 4 * T ∧
      out.take (4 * positions.length) = List.replicate (4 * positions.length) 0 ∧
      (∀ k, k < T → ∃ i0 i1 i2 f, indices[3 * k]? = some i0 ∧ indices[3 * k + 1]? = some i1 ∧
        indices[3 * k + 2]? = some i2 ∧
        triangle_floats positions normals uvs i0 i1 i2 = some f ∧
        (out.drop (4 * positions.length + 4 * k)).take 4 = f) ∧
      ∀ s : Int, 0 ≤ s → s < (positions.length : Int) →
        tangent_at out s = tangent_at (out.take (4 * positions.length)) s ∧
        tangent_at out s = some [0, 0, 0, 0] := by
  obtain ⟨hrun, hl⟩ := generate_tangents_from_uvs_eq positions normals uvs indices T hlen hin
  refine ⟨_, hrun, ?_, take_resized _ _, ?_, ?_⟩
  · rw [List.length_append, List.length_replicate, hl]; omega
  · intro k hk
    have l0 : 3 * k < indices.length := by omega
    have l1 : 3 * k + 1 < indices.length := by omega
    have l2 : 3 * k + 2 < indices.length := by omega
    obtain ⟨f, hf, hd⟩ := generated_floats_at positions normals uvs k indices _ _ _ hin
      (List.getElem?_eq_getElem l0) (List.getElem?_eq_getElem l1) (List.getElem?_eq_getElem l2)
    refine ⟨_, _, _, f, List.getElem?_eq_getElem l0, List.getElem?_eq_getElem l1,
      List.getElem?_eq_getElem l2, hf, ?_⟩
    rw [drop_resized, hd]
  · intro s h0 h1
    have e := tangent_at_resized positions.length
      (generated_floats positions normals uvs indices) s h0 h1
    have e' := tangent_at_resized positions.length [] s h0 h1
    rw [take_resized, e]
    rw [List.append_nil, Nat.mul_comm] at e'
    exact ⟨e'.symm, rfl⟩

/-- Witness of C24: the unit quad, 4 positions and 2 triangles, gives 24 floats,
16 resized entries and the tangent `(1, 0, 0, 1)` twice behind them. -/
theorem C24_generated_tangents_layout_witness :
    ∃ out, generate_tangents_from_uvs unit_quad.vertex unit_quad.normal unit_quad.tex_uv
        unit_quad.index = some out ∧
      out.length = 4 * unit_quad.vertex.length + 4 * 2 ∧
      out.take (4 * unit_quad.vertex.length) = List.replicate (4 * unit_quad.vertex.length) 0 ∧
      (∀ k, k < 2 → ∃ i0 i1 i2 f, unit_quad.index[3 * k]? = some i0 ∧
        unit_quad.index[3 * k + 1]? = some i1 ∧ unit_quad.index[3 * k + 2]? = some i2 ∧
        triangle_floats unit_quad.vertex unit_quad.normal unit_quad.tex_uv i0 i1 i2 = some f ∧
        (out.drop (4 * unit_quad.vertex.length + 4 * k)).take 4 = f) ∧
      ∀ s : Int, 0 ≤ s → s < (unit_quad.vertex.length : Int) →
        tangent_at out s = tangent_at (out.take (4 * unit_quad.vertex.length)) s ∧
        tangent_at out s = some [0, 0, 0, 0] :=
  C24_generated_tangents_layout unit_quad.vertex unit_quad.normal unit_quad.tex_uv
    unit_quad.index 2 rfl (by decide)

/-! ## Well-formed output -/

theorem flatMap_length_four (g : Int → List ℚ) :
    ∀ (keys : List Int), (∀ k ∈ keys, (g k).length = 4) →
      (keys.flatMap g).length = 4 * keys.length := by
  intro keys
  induction keys with
  | nil => intro _; rfl
  | cons k rest ih =>
    intro h
    have hk := h k (List.mem_cons_self _ _)
    have hr := ih (fun x hx => h x (List.mem_cons_of_mem _ hx))
    simp only [List.flatMap_cons, List.length_append, List.length_cons, hk, hr]
    omega

theorem tangent_length_of_SrcOk {W : Working} {s : Int} (h : SrcOk W true s) :
    (W.tangent s).length = 4 :=
  tangent_at_length (getD_of_isSome (h.2.2.2 rfl) [])

theorem expected_indices_in_range (srcs : List Int) :
    ∀ i ∈ srcs.map (fun s => (((distinct_sources srcs).indexOf s : Nat) : Int)),
      0 ≤ i ∧ i < ((distinct_sources srcs).length : Int) := by
  intro i hi
  obtain ⟨s, hs, rfl⟩ := List.mem_map.1 hi
  have hlt : (distinct_sources srcs).indexOf s < (distinct_sources srcs).length :=
    List.indexOf_lt_length.2 (mem_distinct_sources.2 hs)
  exact ⟨Int.natCast_nonneg _, by exact_mod_cast hlt⟩

theorem expected_tangents_length (W : Working) (bake_tangents : Bool) (srcs : List Int)
    (hok : ∀ s ∈ srcs, SrcOk W bake_tangents s) :
    (if bake_tangents then (distinct_sources srcs).flatMap W.tangent else []).length =
      (if bake_tangents then 4 * (distinct_sources srcs).length else 0) := by
  cases bake_tangents with
  | false => rfl
  | true =>
    simp only [if_true]
    exact flatMap_length_four W.tangent _
      (fun k hk => tangent_length_of_SrcOk (hok k (mem_distinct_sources.1 hk)))

theorem expected_surface_wellformed (W : Working) (bake_tangents : Bool) (material_id : Nat)
    (srcs : List Int) (h3 : srcs.length % 3 = 0) (hok : ∀ s ∈ srcs, SrcOk W bake_tangents s) :
    (expected_surface W bake_tangents material_id srcs).WellFormed bake_tangents := by
  refine ⟨by simpa [expected_surface] using h3, ?_, by simp [expected_surface],
    by simp [expected_surface], ?_⟩
  · have := expected_indices_in_range srcs
    simpa [expected_surface] using this
  · have := expected_tangents_length W bake_tangents srcs hok
    simpa [expected_surface] using this

theorem expected_side_wellformed (W : Working) (bake_tangents : Bool)
    (srcs : List Int) (h3 : srcs.length % 3 = 0) (hok : ∀ s ∈ srcs, SrcOk W bake_tangents s) :
    (expected_side W bake_tangents srcs).WellFormed bake_tangents := by
  refine ⟨by simpa [expected_side] using h3, ?_, by simp [expected_side], ?_⟩
  · have := expected_indices_in_range srcs
    simpa [expected_side] using this
  · have := expected_tangents_length W bake_tangents srcs hok
    simpa [expected_side] using this

theorem cleared_surface_wellformed (bake_tangents : Bool) (material_id : Nat) :
    (Surface.cleared material_id).WellFormed bake_tangents := by
  cases bake_tangents <;> simp [Surface.WellFormed, Surface.cleared]

theorem cleared_side_wellformed (bake_tangents : Bool) :
    SideSurface.cleared.WellFormed bake_tangents := by
  cases bake_tangents <;> simp [SideSurface.WellFormed, SideSurface.cleared]

theorem slot_working_srcok {σ μ : Type} (env : Env σ μ) (bake_tangents : Bool)
    (ortho_rotation : Nat) (arrays : Option SurfaceArrays)
    (hcons : ∀ arr, arrays = some arr → Accepted env bake_tangents arr →
      Consistent env bake_tangents arr)
    {W : Working} {indices : List Int}
    (h : slot_working env bake_tangents ortho_rotation arrays = some (W, indices)) :
    ∀ s ∈ indices, SrcOk W bake_tangents s := by
  cases arrays with
  | none => exact Option.noConfusion h
  | some arr =>
    by_cases hacc : Accepted env bake_tangents arr
    · obtain ⟨W', hW', _, _, _, _, hok⟩ :=
        working_arrays_spec env bake_tangents ortho_rotation arr hacc (hcons arr rfl hacc)
      simp only [slot_working, if_pos hacc, hW', Option.map_some', Option.some.injEq,
        Prod.mk.injEq] at h
      rw [← h.1, ← h.2]
      exact hok
    · simp [slot_working, hacc] at h

theorem routed_mod_three (cs : CubeSides) (tol : ℚ) (W : Working) (indices : List Int)
    (d : Option Nat) : (routed cs tol W indices d).length % 3 = 0 := by
  rw [routed_length]; omega

theorem slot_surface_wellformed {σ μ : Type} (env : Env σ μ) (bake_tangents : Bool)
    (ortho_rotation : Nat) (tol : ℚ) (arrays : Option SurfaceArrays) (mid : Nat)
    (hcons : ∀ arr, arrays = some arr → Accepted env bake_tangents arr →
      Consistent env bake_tangents arr) :
    (slot_surface env bake_tangents ortho_rotation tol arrays mid).WellFormed bake_tangents := by
  unfold slot_surface
  cases h : slot_working env bake_tangents ortho_rotation arrays with
  | none => exact cleared_surface_wellformed bake_tangents mid
  | some r =>
    obtain ⟨W, indices⟩ := r
    have hok := slot_working_srcok env bake_tangents ortho_rotation arrays hcons h
    exact expected_surface_wellformed W bake_tangents mid _
      (routed_mod_three env.sides tol W indices none)
      (fun s hs => hok s (routed_subset env.sides tol W indices none s hs))

theorem slot_side_wellformed {σ μ : Type} (env : Env σ μ) (bake_tangents : Bool)
    (ortho_rotation : Nat) (tol : ℚ) (arrays : Option SurfaceArrays) (k : Nat)
    (hcons : ∀ arr, arrays = some arr → Accepted env bake_tangents arr →
      Consistent env bake_tangents arr) :
    (slot_side env bake_tangents ortho_rotation tol arrays k).WellFormed bake_tangents := by
  unfold slot_side
  cases h : slot_working env bake_tangents ortho_rotation arrays with
  | none => exact cleared_side_wellformed bake_tangents
  | some r =>
    obtain ⟨W, indices⟩ := r
    have hok := slot_working_srcok env bake_tangents ortho_rotation arrays hcons h
    exact expected_side_wellformed W bake_tangents _
      (routed_mod_three env.sides tol W indices (some k))
      (fun s hs => hok s (routed_subset env.sides tol W indices (some k) s hs))

/-! ## Claims on the shape of the output and on the empty flag -/

/-- C22: `bake_mesh_geometry` on a model without geometry returns a model in
which every interior surface and every side surface is well formed: the index
count is a multiple of 3, every stored index is at least 0 and below the
position count of its destination, the UV count equals the position count, the
normal count of an interior surface equals its position count, and the tangent
float count is 4 times the position count when `bake_tangents` is true and 0
when it is false. -/
theorem C22_baked_output_well_formed {σ μ : Type} (env : Env σ μ)
    (surfaces : List (Option SurfaceArrays)) (materials : List μ) (baked_data : BakedModel)
    (bake_tangents : Bool) (material_indexer : σ) (ortho_rotation : Nat) (tol : ℚ)
    (hclr : baked_data.model.Cleared) (hmax : surfaces.length ≤ MAX_SURFACES)
    (hmat : surfaces.length ≤ materials.length)
    (hcons : SurfacesConsistent env bake_tangents surfaces) :
    ∃ bd' s', bake_mesh_geometry env surfaces materials baked_data bake_tangents
        material_indexer ortho_rotation tol = some (bd', s') ∧
      (∀ surface ∈ bd'.model.surfaces, surface.WellFormed bake_tangents) ∧
      ∀ column ∈ bd'.model.sides_surfaces, ∀ side ∈ column, side.WellFormed bake_tangents := by
  obtain ⟨bd', hrun, _, _, hshape, _, hsurf, hside, hframe⟩ := bake_mesh_geometry_full env
    surfaces materials baked_data bake_tangents material_indexer ortho_rotation tol hclr hmax
    hmat hcons
  have hc : ∀ i (hi : i < surfaces.length), ∀ arr, surfaces[i] = some arr →
      Accepted env bake_tangents arr → Consistent env bake_tangents arr := by
    intro i hi arr harr
    exact hcons arr (harr ▸ List.getElem_mem hi)
  refine ⟨bd', _, hrun, ?_, ?_⟩
  · intro surface hs
    obtain ⟨i, hi, hget⟩ := mem_surfaces_index hshape hs
    obtain ⟨old, hold⟩ := cleared_old hclr hi
    by_cases hlt : i < surfaces.length
    · have h := (hsurf i hlt old hold).symm.trans hget
      rw [← Option.some.inj h]
      exact slot_surface_wellformed env bake_tangents ortho_rotation tol _ _ (hc i hlt)
    · have h := ((hframe i (by omega)).1.symm.trans hget).symm.trans hold
      rw [Option.some.inj h]
      exact cleared_surface_wellformed bake_tangents old
  · intro column hcol side hs
    obtain ⟨k, i, hk, hi, hget⟩ := mem_sides_index hshape hcol hs
    by_cases hlt : i < surfaces.length
    · have h := (hside i hlt k hk).symm.trans hget
      rw [← Option.some.inj h]
      exact slot_side_wellformed env bake_tangents ortho_rotation tol _ _ (hc i hlt)
    · have h := (((hframe i (by omega)).2 k).symm.trans hget).symm.trans
        ((hclr.slot hi).2 k hk)
      rw [Option.some.inj h]
      exact cleared_side_wellformed bake_tangents

/-- Witness of C22: the example surface with UVs and tangents next to the example
surface without, baked with tangent baking enabled. -/
theorem C22_baked_output_well_formed_witness :
    ∃ bd' s', bake_mesh_geometry example_env [some example_lit_surface, some example_surface]
        [7, 8] example_cleared true [] 0 (1 / 1000) = some (bd', s') ∧
      (∀ surface ∈ bd'.model.surfaces, surface.WellFormed true) ∧
      ∀ column ∈ bd'.model.sides_surfaces, ∀ side ∈ column, side.WellFormed true :=
  C22_baked_output_well_formed example_env [some example_lit_surface, some example_surface]
    [7, 8] example_cleared true [] 0 (1 / 1000) (clear_Cleared _) (by decide) (by decide)
    (fun arr harr => by
      have h : arr = example_lit_surface ∨ arr = example_surface := by simpa using harr
      rcases h with h | h <;> subst h <;> decide)

/-- C23, as stated, fails in a build that does not define `TOOLS_ENABLED`: a
model whose only surface has valid indices and normals but neither tangents
nor UVs, baked with tangent baking on, does not end the bake with `empty =
false`: the guard on the missing tangent basis is compiled out and the triangle
loop reads the empty tangent array, which aborts the bake. -/
theorem C23_counterexample :
    Validated example_surface ∧ example_surface.tangent = [] ∧ example_surface.tex_uv = [] ∧
    bake_mesh_geometry release_env [some example_surface] [7] example_cleared true [] 0
      (1 / 1000) = none := by
  refine ⟨?_, rfl, rfl, ?_⟩ <;> decide!

/-- C23, amended: a surface that reaches the assignment of the empty flag
(non-empty index buffer, index count a multiple of 3, `validate_indices` passed)
has at least one position, so the value assigned is false and every pass of the
surface loop that returns for it leaves `empty = false`; and a model whose only
surface is such a surface without normals, or, in a build that defines
`TOOLS_ENABLED`, without tangents and UVs while tangents are baked, ends the
bake with `empty = false`, the indexer untouched and the model as it was but for
the surface count, hence without any baked vertex or index when it started
without geometry. -/
theorem C23_validated_surface_resets_empty {σ μ : Type} (env : Env σ μ) (arr : SurfaceArrays)
    (materials : List μ) (baked_data : BakedModel) (bake_tangents : Bool)
    (material_indexer : σ) (ortho_rotation : Nat) (tol : ℚ) (hv : Validated arr) :
    1 ≤ arr.vertex.length ∧ decide (arr.vertex.length = 0) = false ∧
    (∀ surface_index bd' s', bake_surface env materials bake_tangents ortho_rotation tol
        surface_index (some arr) baked_data material_indexer = some (bd', s') →
      bd'.empty = false) ∧
    ((arr.normal.length = 0 ∨ (env.TOOLS_ENABLED = true ∧ bake_tangents = true ∧
        arr.tangent.length = 0 ∧ arr.tex_uv.length = 0)) →
      ∃ bd', bake_mesh_geometry env [some arr] materials baked_data bake_tangents
          material_indexer ortho_rotation tol = some (bd', material_indexer) ∧
        bd'.empty = false ∧
        bd'.model = { baked_data.model with surface_count := 1 } ∧
        (baked_data.model.Cleared → bd'.model.Cleared)) := by
  have hne := hv.vertex_ne_zero
  refine ⟨by omega, by simp [hne], ?_, ?_⟩
  · intro surface_index bd' s' hrun
    cases he : bd'.empty with
    | false => rfl
    | true =>
      exact absurd hv (bake_surface_empty_true env materials bake_tangents ortho_rotation tol
        surface_index (some arr) baked_data bd' material_indexer s' hrun he).2.2
  · intro hbad
    have hacc : ¬ Accepted env bake_tangents arr := by
      rintro ⟨_, _, _, h4, _, h6⟩
      rcases hbad with h | h
      · exact h4 h
      · exact h6 ⟨h.1, h.2.2.1, h.2.1, h.2.2.2⟩
    refine ⟨{ baked_data with
      empty := false, model := { baked_data.model with surface_count := 1 } },
      ?_, rfl, rfl, fun h => h⟩
    simp only [bake_mesh_geometry, bake_surfaces_from, Option.bind_eq_bind,
      bake_surface_validated_not_accepted env materials bake_tangents ortho_rotation tol 0 arr _
        material_indexer hv hacc, Option.some_bind]
    rfl

/-- Witness of C23: the example surface stripped of its normals, as the only
surface of a model without geometry. -/
theorem C23_validated_surface_resets_empty_witness :
    Validated { example_surface with normal := [] } ∧
    ∃ bd', bake_mesh_geometry example_env [some { example_surface with normal := [] }] [7]
        example_cleared true [] 0 (1 / 1000) = some (bd', []) ∧
      bd'.empty = false ∧
      bd'.model = { example_cleared.model with surface_count := 1 } ∧
      (example_cleared.model.Cleared → bd'.model.Cleared) :=
  ⟨by decide,
    (C23_validated_surface_resets_empty example_env { example_surface with normal := [] } [7]
      example_cleared true [] 0 (1 / 1000) (by decide)).2.2.2 (Or.inl rfl)⟩

end VoxelBlocky
